import Mathlib

/-!
WaykiChain persistence layer: CDP cache (`cdpdb.cpp`) and asset cache (`assetdb.cpp`)

A shallow embedding of `CCdpDBCache` and `CAssetDbCache`.  Unsigned 64-bit
quantities are natural numbers with explicit reduction modulo `2^64` where the
C++ arithmetic can wrap; `double` quantities are IEEE-754 binary64 values with
every operation rounded to nearest, ties to even.  The typed key-value caches
the two classes are built from are declared in headers outside the translated
sources; they are modelled from the specification (section 4.1) as finite maps
whose writes can report a fault.
-/

set_option exponentiation.threshold 4096

namespace WaykiChain

/-! ## Basic types -/

abbrev TokenSymbol := String

def UINT64_MAX : Nat := 2 ^ 64 - 1

/-! ## Double-precision arithmetic -/

/-- A `double` (IEEE-754 binary64) that is not negative: `finite m e` is the
value `m * 2^e / 2^1074`, with `m < 2^53`, `e ≤ 2045`, and `2^52 ≤ m` unless
`e = 0` (the subnormal values and zero).  Every `double` computed here comes
from unsigned integers by conversion, multiplication and division, so that no
negative value arises. -/
inductive Double where
  | finite (m e : Nat)
  | inf
  | nan
deriving DecidableEq, Repr

namespace Double

/-- The loop of `leadingBit` over the shift widths. -/
def leadingBitLoop : List Nat → Nat → Nat → Nat
  | [], _, acc => acc
  | s :: rest, n, acc =>
    if 2 ^ s ≤ n then leadingBitLoop rest (n / 2 ^ s) (acc + s) else leadingBitLoop rest n acc

/-- Position of the leading binary digit of `n` (`0` for `n ≤ 1`), counted up
to 4095: every value whose leading digit is that high rounds to infinity. -/
def leadingBit (n : Nat) : Nat :=
  leadingBitLoop [2048, 1024, 512, 256, 128, 64, 32, 16, 8, 4, 2, 1] n 0

/-- The quotient `p / q` of two natural numbers (`0 < q`) rounded to the
nearest `double`, ties to the even significand: 53 significant binary digits,
spacing never below `2^-1074`, and infinity from `2^1024` on. -/
def round (p q : Nat) : Double :=
  let n := p * 2 ^ 1074
  let e := leadingBit (n / q) - 52
  let d := q * 2 ^ e
  let k := n / d
  let r := n % d
  let m := if 2 * r < d then k else if d < 2 * r then k + 1 else if k % 2 = 0 then k else k + 1
  if m = 2 ^ 53 then (if 2045 ≤ e then inf else finite (2 ^ 52) (e + 1))
  else if 2045 < e then inf else finite m e

/-- Conversion of an unsigned integer to `double`. -/
def ofUInt (n : Nat) : Double := round n 1

/-- Division of two `double`s. -/
def div : Double → Double → Double
  | finite m e, finite m' e' =>
    if m' = 0 then (if m = 0 then nan else inf) else round (m * 2 ^ e) (m' * 2 ^ e')
  | finite _ _, inf => finite 0 0
  | inf, finite _ _ => inf
  | _, _ => nan

/-- Multiplication of two `double`s. -/
def mul : Double → Double → Double
  | finite m e, finite m' e' => round (m * 2 ^ e * (m' * 2 ^ e')) (2 ^ 2148)
  | finite m _, inf => if m = 0 then nan else inf
  | inf, finite m _ => if m = 0 then nan else inf
  | inf, inf => inf
  | _, _ => nan

/-- The comparison `a < b` of two `double`s; false when either is not a number. -/
def lt : Double → Double → Bool
  | finite m e, finite m' e' => decide (m * 2 ^ e < m' * 2 ^ e')
  | finite _ _, inf => true
  | _, _ => false

/-- The integer part of a finite `double`. -/
def trunc? : Double → Option Nat
  | finite m e => some (m * 2 ^ e / 2 ^ 1074)
  | _ => none

/-- Conversion of a `double` to `uint64_t`: the integer part when it is below
`2^64`.  For any other operand C++ leaves the conversion undefined; `outOfRange`
is what the platform then yields. -/
def toUInt64 (outOfRange : Double → Nat) (x : Double) : Nat :=
  match x.trunc? with
  | some t => if t < 2 ^ 64 then t else outOfRange x % 2 ^ 64
  | none => outOfRange x % 2 ^ 64

end Double

/-- Coin pair `(collateral symbol, stable symbol)`: the partition key of the
aggregate and of the ratio-sorted index. -/
structure CCdpCoinPair where
  bcoin_symbol : TokenSymbol
  scoin_symbol : TokenSymbol
deriving DecidableEq, Repr

/-- Modelled from the spec: the record type `CUserCDP` is declared outside the
translated sources.  Fields as listed in section 3 of the specification: id,
owner identity, block height, the two symbols, staked and owed amounts, and the
base collateralisation ratio.  The base ratio is a `double`: section 3 makes the
boosted ratio "the CDP's base ratio multiplied by a fixed-point scale factor",
and `GetCdpListByCollateralRatio` boosts a `double` ratio by the same factor to
compare it with the stored keys.  `block_height` is a signed 32-bit integer. -/
structure CUserCDP where
  cdpid : Nat
  owner_regid : Nat
  block_height : Int
  bcoin_symbol : TokenSymbol
  scoin_symbol : TokenSymbol
  total_staked_bcoins : Nat
  total_owed_scoins : Nat
  collateral_ratio_base : Double
deriving DecidableEq, Repr

def CUserCDP.GetCoinPair (cdp : CUserCDP) : CCdpCoinPair :=
  ⟨cdp.bcoin_symbol, cdp.scoin_symbol⟩

/-- The record is well formed for its C++ type: every unsigned field is below
`2^64` (the id below `2^256`) and the height is a signed 32-bit value. -/
def CUserCDP.WellFormed (cdp : CUserCDP) : Prop :=
  cdp.cdpid < 2 ^ 256 ∧ cdp.total_staked_bcoins < 2 ^ 64 ∧ cdp.total_owed_scoins < 2 ^ 64 ∧
  -(2 : Int) ^ 31 ≤ cdp.block_height ∧ cdp.block_height < (2 : Int) ^ 31

instance (cdp : CUserCDP) : Decidable cdp.WellFormed :=
  inferInstanceAs (Decidable (_ ∧ _))

/-- Per-coin-pair running totals; a default-constructed value is `(0, 0)`. -/
structure CCdpGlobalData where
  total_staked_assets : Nat := 0
  total_owed_scoins : Nat := 0
deriving DecidableEq, Repr

/-- Key of the ratio-sorted index: `(coin pair, boosted ratio, height, id)`. -/
structure CdpRatioSortedKey where
  coinPair : CCdpCoinPair
  ratioBoosted : Nat
  height : Nat
  cdpid : Nat
deriving DecidableEq, Repr

/-- Modelled from the spec: the constants and helpers the two classes use are
declared outside the translated sources (section 6, caller-supplied
constants): the numeric scale factors (integer constants), the hard-coded
symbol sets, the permission-title map (its keys), the symbol length limit and
the emptiness test of a CDP record.  `doubleToUInt64OutOfRange` is not a
constant of the program but of the platform: the result of converting to
`uint64_t` a `double` whose integer part does not fit, which C++ leaves
undefined. -/
structure Config where
  doubleToUInt64OutOfRange : Double → Nat
  CDP_BASE_RATIO_BOOST : Nat
  RATIO_BOOST : Nat
  PRICE_BOOST : Nat
  MAX_TOKEN_SYMBOL_LEN : Nat
  kCoinTypeSet : List TokenSymbol
  kCdpBcoinSymbolSet : List TokenSymbol
  kCdpScoinSymbolSet : List TokenSymbol
  WGRT : TokenSymbol
  kAssetPermTitleMap : List (Nat × String)
  kDexQuoteSymbolSet : List TokenSymbol
  kPriceFeedSymbolSet : List TokenSymbol
  kPriceQuoteSymbolSet : List TokenSymbol
  PERM_DEX_BASE : Nat
  PERM_PRICE_FEED : Nat
  cdpIsEmpty : CUserCDP → Bool

/-! ## Typed overlay cache -/

/-- Modelled from the spec: the typed cache (`get`/`set`/`has`/`erase`,
section 4.1) is declared outside the translated sources.  The local write-set
is a list of key/value pairs holding at most one pair per key; `writeFault`
says whether the backing store reports a write fault, the only way `set` and
`erase` fail. -/
structure KVCache (K V : Type) where
  entries : List (K × V)
  writeFault : Bool
deriving DecidableEq

namespace KVCache

variable {K V : Type} [DecidableEq K]

def empty : KVCache K V := ⟨[], false⟩

def lookup (k : K) : List (K × V) → Option V
  | [] => none
  | (k', v) :: rest => if k' = k then some v else lookup k rest

def remove (k : K) : List (K × V) → List (K × V)
  | [] => []
  | (k', v) :: rest => if k' = k then remove k rest else (k', v) :: remove k rest

/-- Modelled from the spec: `get(key) -> value?`; absence is a normal outcome. -/
def GetData (c : KVCache K V) (k : K) : Option V := lookup k c.entries

/-- Modelled from the spec: `has(key) -> bool`. -/
def HasData (c : KVCache K V) (k : K) : Bool := (c.GetData k).isSome

/-- Modelled from the spec: `set(key, value) -> success`; fails, writing
nothing, only on a write fault. -/
def SetData (c : KVCache K V) (k : K) (v : V) : Bool × KVCache K V :=
  if c.writeFault then (false, c)
  else (true, { c with entries := (k, v) :: remove k c.entries })

/-- Modelled from the spec: `erase(key) -> success`; fails, writing nothing,
only on a write fault. -/
def EraseData (c : KVCache K V) (k : K) : Bool × KVCache K V :=
  if c.writeFault then (false, c)
  else (true, { c with entries := remove k c.entries })

end KVCache

/-! ## The CDP domain cache -/

/-- State of `CCdpDBCache`: its five sub-caches. -/
structure CCdpDBCache where
  cdpGlobalDataCache : KVCache CCdpCoinPair CCdpGlobalData
  cdpCache : KVCache Nat CUserCDP
  bcoinStatusCache : KVCache TokenSymbol Nat
  userCdpCache : KVCache (Nat × CCdpCoinPair) Nat
  cdpRatioSortedCache : KVCache CdpRatioSortedKey CUserCDP
deriving DecidableEq

namespace CCdpDBCache

def empty : CCdpDBCache :=
  ⟨KVCache.empty, KVCache.empty, KVCache.empty, KVCache.empty, KVCache.empty⟩

/-- `CFixedUInt64(cdp.block_height)`: the signed height converted to `uint64_t`. -/
def heightToUInt64 (h : Int) : Nat := (h % (2 : Int) ^ 64).toNat

/-- `MakeCdpRatioSortedKey`: the product of the base ratio and the scale factor
is a `double`, converted to `uint64_t`; the result is replaced by `UINT64_MAX`
when, converted back to `double`, it is below the base ratio. -/
def MakeCdpRatioSortedKey (cfg : Config) (cdp : CUserCDP) : CdpRatioSortedKey :=
  let cdpCoinPair := cdp.GetCoinPair
  let boostedRatio := Double.toUInt64 cfg.doubleToUInt64OutOfRange
    (Double.mul cdp.collateral_ratio_base (Double.ofUInt cfg.CDP_BASE_RATIO_BOOST))
  let ratio :=
    if Double.lt (Double.ofUInt boostedRatio) cdp.collateral_ratio_base then UINT64_MAX
    else boostedRatio
  ⟨cdpCoinPair, ratio, heightToUInt64 cdp.block_height, cdp.cdpid⟩

/-- `GetCdpGlobalData`: the stored aggregate, or the default `(0, 0)`. -/
def GetCdpGlobalData (db : CCdpDBCache) (cdpCoinPair : CCdpCoinPair) : CCdpGlobalData :=
  match db.cdpGlobalDataCache.GetData cdpCoinPair with
  | some g => g
  | none => {}

/-- `SaveCDPToRatioDB`: add the amounts to the aggregate (in `uint64_t`), write
the aggregate, and on success write the ratio-sorted entry. -/
def SaveCDPToRatioDB (cfg : Config) (db : CCdpDBCache) (userCdp : CUserCDP) :
    Bool × CCdpDBCache :=
  let cdpCoinPair := userCdp.GetCoinPair
  let g := db.GetCdpGlobalData cdpCoinPair
  let g' : CCdpGlobalData :=
    ⟨(g.total_staked_assets + userCdp.total_staked_bcoins) % 2 ^ 64,
     (g.total_owed_scoins + userCdp.total_owed_scoins) % 2 ^ 64⟩
  let r := db.cdpGlobalDataCache.SetData cdpCoinPair g'
  if !r.1 then (false, { db with cdpGlobalDataCache := r.2 })
  else
    let db1 := { db with cdpGlobalDataCache := r.2 }
    let r2 := db1.cdpRatioSortedCache.SetData (MakeCdpRatioSortedKey cfg userCdp) userCdp
    (r2.1, { db1 with cdpRatioSortedCache := r2.2 })

/-- `EraseCDPFromRatioDB`: subtract the amounts from the aggregate (in
`uint64_t`), write the aggregate without looking at the result of the write,
and erase the ratio-sorted entry. -/
def EraseCDPFromRatioDB (cfg : Config) (db : CCdpDBCache) (userCdp : CUserCDP) :
    Bool × CCdpDBCache :=
  let cdpCoinPair := userCdp.GetCoinPair
  let g := db.GetCdpGlobalData cdpCoinPair
  let g' : CCdpGlobalData :=
    ⟨(g.total_staked_assets + 2 ^ 64 - userCdp.total_staked_bcoins % 2 ^ 64) % 2 ^ 64,
     (g.total_owed_scoins + 2 ^ 64 - userCdp.total_owed_scoins % 2 ^ 64) % 2 ^ 64⟩
  let r := db.cdpGlobalDataCache.SetData cdpCoinPair g'
  let db1 := { db with cdpGlobalDataCache := r.2 }
  let r2 := db1.cdpRatioSortedCache.EraseData (MakeCdpRatioSortedKey cfg userCdp)
  (r2.1, { db1 with cdpRatioSortedCache := r2.2 })

/-- `NewCDP`: `none` is a violated assertion (the call aborts before any
write); otherwise the three writes are chained by `&&`. -/
def NewCDP (cfg : Config) (db : CCdpDBCache) (_blockHeight : Int) (cdp : CUserCDP) :
    Option (Bool × CCdpDBCache) :=
  if db.cdpCache.HasData cdp.cdpid then none
  else if db.userCdpCache.HasData (cdp.owner_regid, cdp.GetCoinPair) then none
  else
    let r := db.cdpCache.SetData cdp.cdpid cdp
    let db1 := { db with cdpCache := r.2 }
    if !r.1 then some (false, db1)
    else
      let r2 := db1.userCdpCache.SetData (cdp.owner_regid, cdp.GetCoinPair) cdp.cdpid
      let db2 := { db1 with userCdpCache := r2.2 }
      if !r2.1 then some (false, db2)
      else some (SaveCDPToRatioDB cfg db2 cdp)

/-- `EraseCDP`: write `cdp` as the primary record, erase the owner-index entry
of `cdp`, then `EraseCDPFromRatioDB(oldCDP)`. -/
def EraseCDP (cfg : Config) (db : CCdpDBCache) (oldCDP cdp : CUserCDP) : Bool × CCdpDBCache :=
  let r := db.cdpCache.SetData cdp.cdpid cdp
  let db1 := { db with cdpCache := r.2 }
  if !r.1 then (false, db1)
  else
    let r2 := db1.userCdpCache.EraseData (cdp.owner_regid, cdp.GetCoinPair)
    let db2 := { db1 with userCdpCache := r2.2 }
    if !r2.1 then (false, db2)
    else EraseCDPFromRatioDB cfg db2 oldCDP

/-- `UpdateCDP`: `none` is the violated assertion `!newCDP.IsEmpty()`;
otherwise write the primary record, erase the old index entry, save the new. -/
def UpdateCDP (cfg : Config) (db : CCdpDBCache) (oldCDP newCDP : CUserCDP) :
    Option (Bool × CCdpDBCache) :=
  if cfg.cdpIsEmpty newCDP then none
  else
    let r := db.cdpCache.SetData newCDP.cdpid newCDP
    let db1 := { db with cdpCache := r.2 }
    if !r.1 then some (false, db1)
    else
      let r2 := EraseCDPFromRatioDB cfg db1 oldCDP
      if !r2.1 then some (false, r2.2)
      else some (SaveCDPToRatioDB cfg r2.2 newCDP)

/-- `UserHaveCdp`. -/
def UserHaveCdp (db : CCdpDBCache) (regid : Nat) (assetSymbol scoinSymbol : TokenSymbol) : Bool :=
  db.userCdpCache.HasData (regid, ⟨assetSymbol, scoinSymbol⟩)

/-- `GetCDP`. -/
def GetCDP (db : CCdpDBCache) (cdpid : Nat) : Option CUserCDP :=
  db.cdpCache.GetData cdpid

/-! ### Liquidation scan -/

/-- Lexicographic comparison of two character-code sequences. -/
def codesLt : List Nat → List Nat → Bool
  | [], [] => false
  | [], _ :: _ => true
  | _ :: _, [] => false
  | a :: as, b :: bs => decide (a < b) || (decide (a = b) && codesLt as bs)

/-- Order of symbols: `std::string` comparison, lexicographic over the
character codes. -/
def symbolLt (a b : TokenSymbol) : Prop :=
  codesLt (a.toList.map Char.toNat) (b.toList.map Char.toNat) = true

instance (a b : TokenSymbol) : Decidable (symbolLt a b) :=
  inferInstanceAs (Decidable (codesLt _ _ = true))

/-- Lexicographic order of coin pairs (field order of the tuple). -/
def coinPairLt (a b : CCdpCoinPair) : Prop :=
  symbolLt a.bcoin_symbol b.bcoin_symbol ∨
    (a.bcoin_symbol = b.bcoin_symbol ∧ symbolLt a.scoin_symbol b.scoin_symbol)

instance (a b : CCdpCoinPair) : Decidable (coinPairLt a b) :=
  inferInstanceAs (Decidable (_ ∨ _))

/-- Order of ratio-sorted keys: lexicographic over
`(coin pair, boosted ratio, height, id)` (specification, section 3). -/
def keyLt (a b : CdpRatioSortedKey) : Prop :=
  coinPairLt a.coinPair b.coinPair ∨
    (a.coinPair = b.coinPair ∧
      (a.ratioBoosted < b.ratioBoosted ∨
        (a.ratioBoosted = b.ratioBoosted ∧
          (a.height < b.height ∨ (a.height = b.height ∧ a.cdpid < b.cdpid)))))

instance (a b : CdpRatioSortedKey) : Decidable (keyLt a b) :=
  inferInstanceAs (Decidable (_ ∨ _))

/-- Modelled from the spec: `GetAllElements(endKey, out)` of the ratio-sorted
cache is declared outside the translated sources.  Section 4.3: it "returns
every ratio-sorted entry in that coin pair with a key less than the end key".
Reads never fail (section 4.1), so the result flag is `true`. -/
def GetAllElements (c : KVCache CdpRatioSortedKey CUserCDP) (endKey : CdpRatioSortedKey) :
    Bool × List (CdpRatioSortedKey × CUserCDP) :=
  (true, c.entries.filter (fun e => decide (e.1.coinPair = endKey.coinPair ∧ keyLt e.1 endKey)))

/-- The `double` `ratio * CDP_BASE_RATIO_BOOST` of `GetCdpListByCollateralRatio`,
where
`ratio = (double(collateralRatio) / RATIO_BOOST) / (double(bcoinMedianPrice) / PRICE_BOOST)`. -/
def boostedCutoff (cfg : Config) (collateralRatio bcoinMedianPrice : Nat) : Double :=
  let ratio := Double.div
    (Double.div (Double.ofUInt collateralRatio) (Double.ofUInt cfg.RATIO_BOOST))
    (Double.div (Double.ofUInt bcoinMedianPrice) (Double.ofUInt cfg.PRICE_BOOST))
  Double.mul ratio (Double.ofUInt cfg.CDP_BASE_RATIO_BOOST)

/-- `GetCdpListByCollateralRatio`.  `none` is the violated assertion
`uint64_t(ratio * CDP_BASE_RATIO_BOOST) < UINT64_MAX`; otherwise the end key is
`(coinPair, uint64_t(ratio * CDP_BASE_RATIO_BOOST) + 1, 0, zero id)`. -/
def GetCdpListByCollateralRatio (cfg : Config) (db : CCdpDBCache) (cdpCoinPair : CCdpCoinPair)
    (collateralRatio bcoinMedianPrice : Nat) :
    Option (Bool × List (CdpRatioSortedKey × CUserCDP)) :=
  let t := Double.toUInt64 cfg.doubleToUInt64OutOfRange
    (boostedCutoff cfg collateralRatio bcoinMedianPrice)
  if t < UINT64_MAX then
    let ratioBoost := t + 1
    let endKey : CdpRatioSortedKey := ⟨cdpCoinPair, ratioBoost, 0, 0⟩
    some (GetAllElements db.cdpRatioSortedCache endKey)
  else none

/-! ### Call sequences -/

/-- One call of the three mutating operations. -/
inductive CdpOp where
  | newCDP (blockHeight : Int) (cdp : CUserCDP)
  | eraseCDP (oldCDP cdp : CUserCDP)
  | updateCDP (oldCDP newCDP : CUserCDP)

/-- A cache state together with the ids of the live CDPs: those created by
`NewCDP` and not since erased by `EraseCDP`. -/
structure Tracked where
  db : CCdpDBCache
  live : List Nat
deriving DecidableEq

def Tracked.init : Tracked := ⟨CCdpDBCache.empty, []⟩

/-- One successful call made with its precondition met: `NewCDP` with its two
assertions holding; `EraseCDP` and `UpdateCDP` with `oldCDP` the record
currently stored under the id (and `newCDP` not empty).  With `liveOnly` set,
`EraseCDP` and `UpdateCDP` are moreover only called on live CDPs (the state
machine of section 4.3: live to absent, live to live).  `none` when the
precondition is not met or the call does not succeed. -/
def stepOp (cfg : Config) (liveOnly : Bool) (t : Tracked) : CdpOp → Option Tracked
  | .newCDP h cdp =>
    match NewCDP cfg t.db h cdp with
    | some (true, db') => some ⟨db', cdp.cdpid :: t.live⟩
    | _ => none
  | .eraseCDP oldCDP cdp =>
    if (liveOnly = true → cdp.cdpid ∈ t.live) ∧
        t.db.cdpCache.GetData cdp.cdpid = some oldCDP then
      match EraseCDP cfg t.db oldCDP cdp with
      | (true, db') => some ⟨db', t.live.erase cdp.cdpid⟩
      | _ => none
    else none
  | .updateCDP oldCDP newCDP =>
    if (liveOnly = true → newCDP.cdpid ∈ t.live) ∧
        t.db.cdpCache.GetData newCDP.cdpid = some oldCDP then
      match UpdateCDP cfg t.db oldCDP newCDP with
      | some (true, db') => some ⟨db', t.live⟩
      | _ => none
    else none

/-- A sequence of calls, each successful and with its precondition met. -/
def runOps (cfg : Config) (liveOnly : Bool) : List CdpOp → Tracked → Option Tracked
  | [], t => some t
  | op :: rest, t =>
    match stepOp cfg liveOnly t op with
    | some t' => runOps cfg liveOnly rest t'
    | none => none

/-- The primary records of the live CDPs of a coin pair. -/
def liveRecords (t : Tracked) (cdpCoinPair : CCdpCoinPair) : List CUserCDP :=
  t.live.filterMap (fun id =>
    match t.db.cdpCache.GetData id with
    | some c => if c.GetCoinPair = cdpCoinPair then some c else none
    | none => none)

def sumStaked (t : Tracked) (cdpCoinPair : CCdpCoinPair) : Nat :=
  ((liveRecords t cdpCoinPair).map (fun c => c.total_staked_bcoins)).sum

def sumOwed (t : Tracked) (cdpCoinPair : CCdpCoinPair) : Nat :=
  ((liveRecords t cdpCoinPair).map (fun c => c.total_owed_scoins)).sum

/-- What the CDP stored under `id` adds to the total `f` of a coin pair:
`f` of its primary record when that record is of the pair, otherwise zero. -/
def contribution (db : CCdpDBCache) (cdpCoinPair : CCdpCoinPair) (f : CUserCDP → Nat)
    (id : Nat) : Nat :=
  match db.cdpCache.GetData id with
  | some c => if c.GetCoinPair = cdpCoinPair then f c else 0
  | none => 0

/-- The consistency kept by the three operations between the live CDPs, the
primary cache and the ratio-sorted index. -/
structure IndexCoherent (cfg : Config) (t : Tracked) : Prop where
  nodup : t.live.Nodup
  ids : ∀ id c, t.db.cdpCache.GetData id = some c → c.cdpid = id
  stored : ∀ id ∈ t.live, ∃ c, t.db.cdpCache.GetData id = some c ∧
    t.db.cdpRatioSortedCache.GetData (MakeCdpRatioSortedKey cfg c) = some c
  ratioOnly : ∀ k v, t.db.cdpRatioSortedCache.GetData k = some v →
    t.db.cdpCache.GetData k.cdpid = some v ∧ k = MakeCdpRatioSortedKey cfg v
  keys : (t.db.cdpRatioSortedCache.entries.map Prod.fst).Nodup

/-- Coherence of the index together with the aggregates: each total is the
sum, modulo `2^64`, of what the live CDPs add to it. -/
structure Consistent (cfg : Config) (t : Tracked) : Prop where
  index : IndexCoherent cfg t
  gfault : t.db.cdpGlobalDataCache.writeFault = false
  staked : ∀ p, (t.db.GetCdpGlobalData p).total_staked_assets =
    (t.live.map (contribution t.db p (fun c => c.total_staked_bcoins))).sum % 2 ^ 64
  owed : ∀ p, (t.db.GetCdpGlobalData p).total_owed_scoins =
    (t.live.map (contribution t.db p (fun c => c.total_owed_scoins))).sum % 2 ^ 64

end CCdpDBCache

/-! ## The asset domain cache -/

/-- Modelled from the spec: `CAsset` is declared outside the translated
sources; section 3: a symbol plus the permission bit-set `perms_sum`. -/
structure CAsset where
  asset_symbol : TokenSymbol
  perms_sum : Nat
deriving DecidableEq, Repr

/-- Modelled from the spec: `CAsset::HasPerms` is declared outside the
translated sources; section 4.4: the bit-set "contains all of
`requiredPerms`". -/
def CAsset.HasPerms (asset : CAsset) (perms : Nat) : Bool :=
  decide (asset.perms_sum &&& perms = perms)

/-- Modelled from the spec: the status stored in the permission index
(enabled/disabled), declared outside the translated sources.  The C++ stores
the enumerator converted to `uint8_t`. -/
inductive AssetPermStatus where
  | NONE
  | ENABLED
  | DISABLED
deriving DecidableEq, Repr

/-- State of `CAssetDbCache`: the asset-by-symbol cache and the permission
index keyed by `(permission type, symbol)`. -/
structure CAssetDbCache where
  assetCache : KVCache TokenSymbol CAsset
  perm_assets_cache : KVCache (Nat × TokenSymbol) AssetPermStatus
deriving DecidableEq

namespace CAssetDbCache

/-- `GetAsset`. -/
def GetAsset (db : CAssetDbCache) (tokenSymbol : TokenSymbol) : Option CAsset :=
  db.assetCache.GetData tokenSymbol

/-- `CheckAsset`; `symbol.size()` is the length in bytes. -/
def CheckAsset (cfg : Config) (db : CAssetDbCache) (symbol : TokenSymbol) (permsSum : Nat) : Bool :=
  if symbol.utf8ByteSize < 3 ∨ symbol.utf8ByteSize > cfg.MAX_TOKEN_SYMBOL_LEN then false
  else if symbol ∈ cfg.kCoinTypeSet then true
  else
    match db.GetAsset symbol with
    | none => false
    | some asset => asset.HasPerms permsSum

/-- The loop of `SetAssetPerms` over the (remaining) items of
`kAssetPermTitleMap`: a write for each flag whose value differs, returning
`false` at the first failed write. -/
def setPermsLoop (oldAsset newAsset : CAsset) :
    List (Nat × String) → CAssetDbCache → Bool × CAssetDbCache
  | [], db => (true, db)
  | item :: rest, db =>
    let perm := item.1
    let oldPermValue := oldAsset.HasPerms perm
    let newPermValue := newAsset.HasPerms perm
    if oldPermValue ≠ newPermValue then
      let status := if newPermValue then AssetPermStatus.ENABLED else AssetPermStatus.DISABLED
      let r := db.perm_assets_cache.SetData (perm, newAsset.asset_symbol) status
      if !r.1 then (false, { db with perm_assets_cache := r.2 })
      else setPermsLoop oldAsset newAsset rest { db with perm_assets_cache := r.2 }
    else setPermsLoop oldAsset newAsset rest db

/-- `SetAssetPerms`. -/
def SetAssetPerms (cfg : Config) (db : CAssetDbCache) (oldAsset newAsset : CAsset) :
    Bool × CAssetDbCache :=
  if oldAsset.perms_sum ≠ newAsset.perms_sum then
    setPermsLoop oldAsset newAsset cfg.kAssetPermTitleMap db
  else (true, db)

end CAssetDbCache

/-! ## Sample data -/

/-- A configuration with the scale factors set to powers of ten, on a platform
where the conversion to `uint64_t` of a `double` that is too large gives `0`
and that of a `double` that is not a number gives `2^63`. -/
def sampleConfig : Config where
  doubleToUInt64OutOfRange := fun x => if x = Double.nan then 2 ^ 63 else 0
  CDP_BASE_RATIO_BOOST := 100000000
  RATIO_BOOST := 10000
  PRICE_BOOST := 100000000
  MAX_TOKEN_SYMBOL_LEN := 7
  kCoinTypeSet := ["WICC", "WGRT", "WUSD"]
  kCdpBcoinSymbolSet := ["WICC"]
  kCdpScoinSymbolSet := ["WUSD"]
  WGRT := "WGRT"
  kAssetPermTitleMap := [(1, "PERM_DEX_BASE"), (2, "PERM_CDP_BCOIN"), (4, "PERM_PRICE_FEED")]
  kDexQuoteSymbolSet := ["WUSD"]
  kPriceFeedSymbolSet := ["WICC", "WGRT"]
  kPriceQuoteSymbolSet := ["USD"]
  PERM_DEX_BASE := 1
  PERM_PRICE_FEED := 4
  cdpIsEmpty := fun cdp => decide (cdp.cdpid = 0)

/-- CDP `C1` of the example scenario: owner 7, pair (BTC, USD), staked 100,
owed 50, height 10; its base ratio is `2.0`. -/
def sampleC1 : CUserCDP :=
  { cdpid := 1, owner_regid := 7, block_height := 10, bcoin_symbol := "BTC",
    scoin_symbol := "USD", total_staked_bcoins := 100, total_owed_scoins := 50,
    collateral_ratio_base := Double.finite (2 ^ 52) 1023 }

/-- CDP `C1` after the update of the example scenario: staked 80, owed 40,
height 11. -/
def sampleC1' : CUserCDP :=
  { sampleC1 with block_height := 11, total_staked_bcoins := 80, total_owed_scoins := 40 }

/-- CDP `C2`: another id for the same owner and pair as `C1`. -/
def sampleC2 : CUserCDP :=
  { sampleC1 with cdpid := 2, total_staked_bcoins := 30, total_owed_scoins := 10 }

/-- Two CDPs of different owners in (BTC, USD), each staking `2^63`. -/
def sampleBigA : CUserCDP :=
  { sampleC1 with total_staked_bcoins := 2 ^ 63, total_owed_scoins := 2 ^ 63 }

def sampleBigB : CUserCDP :=
  { sampleC1 with cdpid := 2, owner_regid := 8, total_staked_bcoins := 2 ^ 63,
                  total_owed_scoins := 2 ^ 63 }

/-- The cache after `NewCDP(10, C1)` on the empty cache. -/
def sampleDb1 : CCdpDBCache :=
  { cdpGlobalDataCache := ⟨[(⟨"BTC", "USD"⟩, ⟨100, 50⟩)], false⟩
    cdpCache := ⟨[(1, sampleC1)], false⟩
    bcoinStatusCache := ⟨[], false⟩
    userCdpCache := ⟨[((7, ⟨"BTC", "USD"⟩), 1)], false⟩
    cdpRatioSortedCache := ⟨[(⟨⟨"BTC", "USD"⟩, 200000000, 10, 1⟩, sampleC1)], false⟩ }

/-- The cache after `UpdateCDP(C1, C1')` on `sampleDb1`. -/
def sampleDb2 : CCdpDBCache :=
  { cdpGlobalDataCache := ⟨[(⟨"BTC", "USD"⟩, ⟨80, 40⟩)], false⟩
    cdpCache := ⟨[(1, sampleC1')], false⟩
    bcoinStatusCache := ⟨[], false⟩
    userCdpCache := ⟨[((7, ⟨"BTC", "USD"⟩), 1)], false⟩
    cdpRatioSortedCache := ⟨[(⟨⟨"BTC", "USD"⟩, 200000000, 11, 1⟩, sampleC1')], false⟩ }

/-- An asset store holding `ABC` with permission bits `1` and `4`, and an
empty permission index. -/
def sampleAssetDb : CAssetDbCache :=
  { assetCache := ⟨[("ABC", ⟨"ABC", 5⟩)], false⟩
    perm_assets_cache := ⟨[], false⟩ }

/-- The cache `sampleDb1` with an aggregate sub-cache whose backing store
reports a write fault. -/
def sampleDbFaulty : CCdpDBCache :=
  { sampleDb1 with cdpGlobalDataCache := ⟨[(⟨"BTC", "USD"⟩, ⟨100, 50⟩)], true⟩ }

/-! ## Collateral activation status and base-symbol checks -/

/-- Modelled from the spec: the enumeration `CdpBcoinStatus` is declared
outside the translated sources.  A status is handled through its `uint8_t`
value (the store holds `(uint8_t)activation` and reads give back
`CdpBcoinStatus(act)`); the two enumerators the code names are parameters. -/
structure CdpBcoinStatusCodes where
  NONE : Nat
  STAKE_ON : Nat

namespace CCdpDBCache

/-- `GetBcoinStatus`: the result flag and the value of the output parameter
`activation` after the call (`activation` is left as it was when the store has
no entry). -/
def GetBcoinStatus (cfg : Config) (codes : CdpBcoinStatusCodes) (db : CCdpDBCache)
    (bcoinSymbol : TokenSymbol) (activation : Nat) : Bool × Nat :=
  if bcoinSymbol ∈ cfg.kCdpBcoinSymbolSet then (true, codes.STAKE_ON)
  else if bcoinSymbol = cfg.WGRT ∨ bcoinSymbol ∈ cfg.kCdpScoinSymbolSet then (false, codes.NONE)
  else
    match db.bcoinStatusCache.GetData bcoinSymbol with
    | none => (false, activation)
    | some act => (true, act)

/-- `IsBcoinActivated`. -/
def IsBcoinActivated (cfg : Config) (db : CCdpDBCache) (bcoinSymbol : TokenSymbol) : Bool :=
  if bcoinSymbol ∈ cfg.kCdpBcoinSymbolSet then true
  else if bcoinSymbol = cfg.WGRT ∨ bcoinSymbol ∈ cfg.kCdpScoinSymbolSet then false
  else db.bcoinStatusCache.HasData bcoinSymbol

/-- `SetBcoinStatus`: the status is written under the symbol, whatever the
symbol. -/
def SetBcoinStatus (db : CCdpDBCache) (bcoinSymbol : TokenSymbol) (activation : Nat) :
    Bool × CCdpDBCache :=
  let r := db.bcoinStatusCache.SetData bcoinSymbol activation
  (r.1, { db with bcoinStatusCache := r.2 })

end CCdpDBCache

namespace CAssetDbCache

/-- `CheckPriceFeedBaseSymbol`; `ERRORMSG` logs and yields `false`. -/
def CheckPriceFeedBaseSymbol (cfg : Config) (db : CAssetDbCache) (baseSymbol : TokenSymbol) :
    Bool :=
  if baseSymbol ∈ cfg.kPriceFeedSymbolSet then true
  else
    match db.GetAsset baseSymbol with
    | none => false
    | some baseAsset => if !baseAsset.HasPerms cfg.PERM_PRICE_FEED then false else true

/-- `CheckDexBaseSymbol`; the hard-coded set it tests is `kPriceFeedSymbolSet`. -/
def CheckDexBaseSymbol (cfg : Config) (db : CAssetDbCache) (baseSymbol : TokenSymbol) : Bool :=
  if baseSymbol ∈ cfg.kPriceFeedSymbolSet then true
  else
    match db.GetAsset baseSymbol with
    | none => false
    | some baseAsset => if !baseAsset.HasPerms cfg.PERM_DEX_BASE then false else true

end CAssetDbCache

/-- Status codes used by the examples. -/
def sampleCodes : CdpBcoinStatusCodes := ⟨0, 1⟩

/-- A configuration in which `WICC` is in both the hard-coded activated set and
the hard-coded stable-asset set. -/
def sampleConfigOverlap : Config :=
  { sampleConfig with kCdpScoinSymbolSet := ["WUSD", "WICC"] }

/-- A CDP of (BTC, USD) with the largest 64-bit amounts: adding them to a
non-zero total wraps around `2^64`. -/
def sampleWrapCdp : CUserCDP :=
  { sampleC1 with cdpid := 3, owner_regid := 9, total_staked_bcoins := 2 ^ 64 - 1,
                  total_owed_scoins := 2 ^ 64 - 1 }

/-- The cache `sampleDb2` with an aggregate sub-cache whose backing store
reports a write fault. -/
def sampleDb2Faulty : CCdpDBCache :=
  { sampleDb2 with cdpGlobalDataCache := ⟨[(⟨"BTC", "USD"⟩, ⟨80, 40⟩)], true⟩ }

/-! ## Prefix iteration -/

namespace KVCache

variable {K V : Type} [DecidableEq K]

/-- The pairs a cache holds, one per key: a pair written later for the same
key shadows the older one. -/
def visible : List (K × V) → List (K × V)
  | [] => []
  | e :: rest => e :: remove e.1 (visible rest)

/-- Modelled from the spec: the prefix iterator (section 4.2) is declared
outside the translated sources: the finite sequence of the entries whose key
has the given prefix, in the order of the keys (`lt` is the strict order of
the key type). -/
def prefixScan (lt : K → K → Prop) [DecidableRel lt] (hasPrefix : K → Bool)
    (c : KVCache K V) : List (K × V) :=
  List.insertionSort (fun a b => ¬ lt b.1 a.1) ((visible c.entries).filter (fun e => hasPrefix e.1))

end KVCache

/-- A strict total order: asymmetric, negatively transitive, and any two
distinct elements are comparable. -/
def IsStrictTotal {α : Type} (r : α → α → Prop) : Prop :=
  (∀ a b, r a b → ¬ r b a) ∧ (∀ a b c, r a c → r a b ∨ r b c) ∧ (∀ a b, a ≠ b → r a b ∨ r b a)

/-- Order of the keys `(permission type, symbol)` of the permission index. -/
def permKeyLt (a b : Nat × TokenSymbol) : Prop :=
  a.1 < b.1 ∨ (a.1 = b.1 ∧ CCdpDBCache.symbolLt a.2 b.2)

instance (a b : Nat × TokenSymbol) : Decidable (permKeyLt a b) :=
  inferInstanceAs (Decidable (_ ∨ _))

/-- Order of the keys `(owner, coin pair)` of the owner index. -/
def ownerKeyLt (a b : Nat × CCdpCoinPair) : Prop :=
  a.1 < b.1 ∨ (a.1 = b.1 ∧ CCdpDBCache.coinPairLt a.2 b.2)

instance (a b : Nat × CCdpCoinPair) : Decidable (ownerKeyLt a b) :=
  inferInstanceAs (Decidable (_ ∨ _))

namespace CAssetDbCache

/-- `GetDexQuoteSymbolSet`: the output set (a list read as a set) after the
call: the hard-coded quote symbols are inserted, then the symbol of every
entry of the permission index under the prefix `PERM_DEX_BASE` whose value is
`ENABLED`. -/
def GetDexQuoteSymbolSet (cfg : Config) (db : CAssetDbCache) (symbolSet : List TokenSymbol) :
    List TokenSymbol :=
  let withHardCoded := cfg.kDexQuoteSymbolSet.foldl (fun acc s => acc.insert s) symbolSet
  (KVCache.prefixScan permKeyLt (fun k => decide (k.1 = cfg.PERM_DEX_BASE))
      db.perm_assets_cache).foldl
    (fun acc e => if e.2 = AssetPermStatus.ENABLED then acc.insert e.1.2 else acc)
    withHardCoded

end CAssetDbCache

namespace CCdpDBCache

/-- The loop of `GetCDPList` over the (remaining) owner-index entries: each id
is resolved through the primary cache and the record appended; `false` at the
first id without a record. -/
def getCDPListLoop (db : CCdpDBCache) :
    List ((Nat × CCdpCoinPair) × Nat) → List CUserCDP → Bool × List CUserCDP
  | [], cdpList => (true, cdpList)
  | e :: rest, cdpList =>
    match db.cdpCache.GetData e.2 with
    | none => (false, cdpList)
    | some userCdp => getCDPListLoop db rest (cdpList ++ [userCdp])

/-- The owner-index entries of an owner, as the prefix iterator yields them. -/
def ownerEntries (db : CCdpDBCache) (regid : Nat) : List ((Nat × CCdpCoinPair) × Nat) :=
  KVCache.prefixScan ownerKeyLt (fun k => decide (k.1 = regid)) db.userCdpCache

/-- `GetCDPList`: the result flag and the output list after the call. -/
def GetCDPList (db : CCdpDBCache) (regid : Nat) (cdpList : List CUserCDP) :
    Bool × List CUserCDP :=
  getCDPListLoop db (ownerEntries db regid) cdpList

end CCdpDBCache

/-- A permission index in which `ABC` and `XYZ` hold the DEX-base permission
enabled and disabled, and `DEF` holds another permission enabled. -/
def samplePermDb : CAssetDbCache :=
  { assetCache := ⟨[], false⟩
    perm_assets_cache :=
      ⟨[((1, "XYZ"), .DISABLED), ((4, "DEF"), .ENABLED), ((1, "ABC"), .ENABLED)], false⟩ }

/-- CDP `C3` of owner 7 in the pair (ETH, USD). -/
def sampleC3 : CUserCDP :=
  { sampleC1 with cdpid := 3, bcoin_symbol := "ETH" }

/-- A cache in which owner 7 has the CDPs `C3` (ETH, USD) and `C1` (BTC, USD)
and owner 8 has a CDP, written in that order. -/
def sampleOwnerDb : CCdpDBCache :=
  { sampleDb1 with
    cdpCache := ⟨[(2, sampleBigB), (1, sampleC1), (3, sampleC3)], false⟩
    userCdpCache :=
      ⟨[((8, ⟨"BTC", "USD"⟩), 2), ((7, ⟨"BTC", "USD"⟩), 1), ((7, ⟨"ETH", "USD"⟩), 3)], false⟩ }

/-- The cache `sampleOwnerDb` without the primary record of `C3`. -/
def sampleOwnerDbBroken : CCdpDBCache :=
  { sampleOwnerDb with cdpCache := ⟨[(2, sampleBigB), (1, sampleC1)], false⟩ }

/-! ## Overlays -/

/-- Modelled from the spec: a typed cache object (section 4.1), declared
outside the translated sources.  `writeSet` is the local write-set, most recent
first, an erasure recorded as `none`; `attached` says whether a base view is
attached (`SetBase`), which in a `CdpWorld` is the corresponding member of the
base cache; an object without a base view reads on from the backing store;
`writeFault` is as for `KVCache`. -/
structure OverlayKV (K V : Type) where
  writeSet : List (K × Option V)
  attached : Bool
  writeFault : Bool
deriving DecidableEq

namespace OverlayKV

variable {K V : Type} [DecidableEq K]

/-- Modelled from the spec: `set` only records into the local write-set. -/
def SetData (ov : OverlayKV K V) (k : K) (v : V) : Bool × OverlayKV K V :=
  if ov.writeFault then (false, ov)
  else (true, { ov with writeSet := (k, some v) :: KVCache.remove k ov.writeSet })

/-- Modelled from the spec: `erase` only records into the local write-set. -/
def EraseData (ov : OverlayKV K V) (k : K) : Bool × OverlayKV K V :=
  if ov.writeFault then (false, ov)
  else (true, { ov with writeSet := (k, none) :: KVCache.remove k ov.writeSet })

/-- A write-set applied onto the entries of the backing store, oldest record
first. -/
def flushInto (ws : List (K × Option V)) (entries : List (K × V)) : List (K × V) :=
  ws.foldr (fun w acc =>
    match w.2 with
    | some v => (w.1, v) :: KVCache.remove w.1 acc
    | none => KVCache.remove w.1 acc) entries

/-- A write-set applied onto the write-set of the base view, oldest record
first: each record is set or erased there, which records it there. -/
def flushOnto (ws baseWs : List (K × Option V)) : List (K × Option V) :=
  ws.foldr (fun w acc => w :: KVCache.remove w.1 acc) baseWs

/-- Modelled from the spec: `Flush()` applies the local write-set onto the base
view (`viaBase`) or else onto the backing store, then clears it.  The result
is the store, the base view and the object after the call. -/
def Flush (ov : OverlayKV K V) (viaBase : Bool) (store : KVCache K V) (base : OverlayKV K V) :
    KVCache K V × OverlayKV K V × OverlayKV K V :=
  if viaBase then
    (store, { base with writeSet := flushOnto ov.writeSet base.writeSet },
      { ov with writeSet := [] })
  else
    ({ store with entries := flushInto ov.writeSet store.entries }, base,
      { ov with writeSet := [] })

/-- The entries a write-set holds: one per key, the erased keys left out. -/
def liveEntries (ws : List (K × Option V)) : List (K × V) :=
  (KVCache.visible ws).filterMap (fun w => w.2.map (fun v => (w.1, v)))

end OverlayKV

/-- State of a `CCdpDBCache` object: its five members, each a typed cache
object. -/
structure CdpOverlay where
  cdpGlobalDataCache : OverlayKV CCdpCoinPair CCdpGlobalData
  cdpCache : OverlayKV Nat CUserCDP
  bcoinStatusCache : OverlayKV TokenSymbol Nat
  userCdpCache : OverlayKV (Nat × CCdpCoinPair) Nat
  cdpRatioSortedCache : OverlayKV CdpRatioSortedKey CUserCDP
deriving DecidableEq

/-- Every member has the base view attached. -/
def CdpOverlay.Attached (ov : CdpOverlay) : Prop :=
  ov.cdpGlobalDataCache.attached = true ∧ ov.cdpCache.attached = true ∧
  ov.bcoinStatusCache.attached = true ∧ ov.userCdpCache.attached = true ∧
  ov.cdpRatioSortedCache.attached = true

/-- One of the five members of `CCdpDBCache`: how it is read from and put back
into an object, and the part of the backing store it persists to. -/
structure Member (K V : Type) where
  get : CdpOverlay → OverlayKV K V
  put : CdpOverlay → OverlayKV K V → CdpOverlay
  stored : CCdpDBCache → KVCache K V

namespace Member

def cdpGlobalDataCache : Member CCdpCoinPair CCdpGlobalData :=
  ⟨fun o => o.cdpGlobalDataCache, fun o c => { o with cdpGlobalDataCache := c },
   fun s => s.cdpGlobalDataCache⟩

def cdpCache : Member Nat CUserCDP :=
  ⟨fun o => o.cdpCache, fun o c => { o with cdpCache := c }, fun s => s.cdpCache⟩

def bcoinStatusCache : Member TokenSymbol Nat :=
  ⟨fun o => o.bcoinStatusCache, fun o c => { o with bcoinStatusCache := c },
   fun s => s.bcoinStatusCache⟩

def userCdpCache : Member (Nat × CCdpCoinPair) Nat :=
  ⟨fun o => o.userCdpCache, fun o c => { o with userCdpCache := c }, fun s => s.userCdpCache⟩

def cdpRatioSortedCache : Member CdpRatioSortedKey CUserCDP :=
  ⟨fun o => o.cdpRatioSortedCache, fun o c => { o with cdpRatioSortedCache := c },
   fun s => s.cdpRatioSortedCache⟩

end Member

/-- A cache object of a `CdpWorld`: the base, or one of the other objects. -/
inductive CacheRef where
  | base
  | other (i : Nat)
deriving DecidableEq

/-- The `CCdpDBCache` objects that exist side by side, and what lies below
them: `base` is a cache object whose members read on from the backing store
`store` (five maps); `others` are further cache objects, each member of which
reads on through the corresponding member of `base` when that is its base
view, and from the backing store otherwise. -/
structure CdpWorld where
  store : CCdpDBCache
  base : CdpOverlay
  others : List CdpOverlay
deriving DecidableEq

namespace CdpWorld

open CCdpDBCache

variable {K V : Type} [DecidableEq K]

/-- The object a reference points at. -/
def obj? (w : CdpWorld) : CacheRef → Option CdpOverlay
  | .base => some w.base
  | .other i => w.others[i]?

/-- The world with the object behind a reference replaced. -/
def setObj (w : CdpWorld) (r : CacheRef) (o : CdpOverlay) : CdpWorld :=
  match r with
  | .base => { w with base := o }
  | .other i => { w with others := w.others.set i o }

/-- Modelled from the spec: `get` on a member of the object `r`, in the lookup
order of section 4.1: the local write-set, then the base view when one is
attached, then the backing store. -/
def GetData (m : Member K V) (w : CdpWorld) (r : CacheRef) (k : K) : Option V :=
  match w.obj? r with
  | none => none
  | some o =>
    match KVCache.lookup k (m.get o).writeSet with
    | some x => x
    | none =>
      if r ≠ CacheRef.base ∧ (m.get o).attached = true then
        match KVCache.lookup k (m.get w.base).writeSet with
        | some x => x
        | none => (m.stored w.store).GetData k
      else (m.stored w.store).GetData k

/-- Modelled from the spec: `has` on a member of the object `r`. -/
def HasData (m : Member K V) (w : CdpWorld) (r : CacheRef) (k : K) : Bool :=
  (GetData m w r k).isSome

/-- `set` on a member of the object `r`: the result flag and the world after
the call. -/
def SetData (m : Member K V) (w : CdpWorld) (r : CacheRef) (k : K) (v : V) : Bool × CdpWorld :=
  match w.obj? r with
  | none => (false, w)
  | some o =>
    let c := (m.get o).SetData k v
    (c.1, w.setObj r (m.put o c.2))

/-- `erase` on a member of the object `r`. -/
def EraseData (m : Member K V) (w : CdpWorld) (r : CacheRef) (k : K) : Bool × CdpWorld :=
  match w.obj? r with
  | none => (false, w)
  | some o =>
    let c := (m.get o).EraseData k
    (c.1, w.setObj r (m.put o c.2))

/-- Modelled from the spec: the entries an iterator over a member of the object
`r` sees (section 4.2): the entries of the local write-set, then those of the
base view and of the backing store that no layer above them shadows; erased
keys are skipped. -/
def entries (m : Member K V) (w : CdpWorld) (r : CacheRef) : List (K × V) :=
  match w.obj? r with
  | none => []
  | some o =>
    let own := (m.get o).writeSet
    OverlayKV.liveEntries own ++
      (if r ≠ CacheRef.base ∧ (m.get o).attached = true then
        let mid := (m.get w.base).writeSet
        (OverlayKV.liveEntries mid).filter (fun e => (KVCache.lookup e.1 own).isNone) ++
          (KVCache.visible (m.stored w.store).entries).filter
            (fun e => (KVCache.lookup e.1 own).isNone && (KVCache.lookup e.1 mid).isNone)
      else
        (KVCache.visible (m.stored w.store).entries).filter
          (fun e => (KVCache.lookup e.1 own).isNone))

/-- `GetCdpGlobalData` called on the object `r`. -/
def GetCdpGlobalData (w : CdpWorld) (r : CacheRef) (cdpCoinPair : CCdpCoinPair) :
    CCdpGlobalData :=
  match GetData Member.cdpGlobalDataCache w r cdpCoinPair with
  | some g => g
  | none => {}

/-- `SaveCDPToRatioDB` called on the object `r`. -/
def SaveCDPToRatioDB (cfg : Config) (w : CdpWorld) (r : CacheRef) (userCdp : CUserCDP) :
    Bool × CdpWorld :=
  let cdpCoinPair := userCdp.GetCoinPair
  let g := w.GetCdpGlobalData r cdpCoinPair
  let g' : CCdpGlobalData :=
    ⟨(g.total_staked_assets + userCdp.total_staked_bcoins) % 2 ^ 64,
     (g.total_owed_scoins + userCdp.total_owed_scoins) % 2 ^ 64⟩
  let r1 := SetData Member.cdpGlobalDataCache w r cdpCoinPair g'
  if !r1.1 then (false, r1.2)
  else SetData Member.cdpRatioSortedCache r1.2 r (MakeCdpRatioSortedKey cfg userCdp) userCdp

/-- `EraseCDPFromRatioDB` called on the object `r`. -/
def EraseCDPFromRatioDB (cfg : Config) (w : CdpWorld) (r : CacheRef) (userCdp : CUserCDP) :
    Bool × CdpWorld :=
  let cdpCoinPair := userCdp.GetCoinPair
  let g := w.GetCdpGlobalData r cdpCoinPair
  let g' : CCdpGlobalData :=
    ⟨(g.total_staked_assets + 2 ^ 64 - userCdp.total_staked_bcoins % 2 ^ 64) % 2 ^ 64,
     (g.total_owed_scoins + 2 ^ 64 - userCdp.total_owed_scoins % 2 ^ 64) % 2 ^ 64⟩
  let r1 := SetData Member.cdpGlobalDataCache w r cdpCoinPair g'
  EraseData Member.cdpRatioSortedCache r1.2 r (MakeCdpRatioSortedKey cfg userCdp)

/-- `NewCDP` called on the object `r`; `none` is a violated assertion. -/
def NewCDP (cfg : Config) (w : CdpWorld) (r : CacheRef) (_blockHeight : Int) (cdp : CUserCDP) :
    Option (Bool × CdpWorld) :=
  if HasData Member.cdpCache w r cdp.cdpid then none
  else if HasData Member.userCdpCache w r (cdp.owner_regid, cdp.GetCoinPair) then none
  else
    let r1 := SetData Member.cdpCache w r cdp.cdpid cdp
    if !r1.1 then some (false, r1.2)
    else
      let r2 := SetData Member.userCdpCache r1.2 r (cdp.owner_regid, cdp.GetCoinPair) cdp.cdpid
      if !r2.1 then some (false, r2.2)
      else some (SaveCDPToRatioDB cfg r2.2 r cdp)

/-- `EraseCDP` called on the object `r`. -/
def EraseCDP (cfg : Config) (w : CdpWorld) (r : CacheRef) (oldCDP cdp : CUserCDP) :
    Bool × CdpWorld :=
  let r1 := SetData Member.cdpCache w r cdp.cdpid cdp
  if !r1.1 then (false, r1.2)
  else
    let r2 := EraseData Member.userCdpCache r1.2 r (cdp.owner_regid, cdp.GetCoinPair)
    if !r2.1 then (false, r2.2)
    else EraseCDPFromRatioDB cfg r2.2 r oldCDP

/-- `UpdateCDP` called on the object `r`; `none` is the violated assertion. -/
def UpdateCDP (cfg : Config) (w : CdpWorld) (r : CacheRef) (oldCDP newCDP : CUserCDP) :
    Option (Bool × CdpWorld) :=
  if cfg.cdpIsEmpty newCDP then none
  else
    let r1 := SetData Member.cdpCache w r newCDP.cdpid newCDP
    if !r1.1 then some (false, r1.2)
    else
      let r2 := EraseCDPFromRatioDB cfg r1.2 r oldCDP
      if !r2.1 then some (false, r2.2)
      else some (SaveCDPToRatioDB cfg r2.2 r newCDP)

/-- `SetBcoinStatus` called on the object `r`. -/
def SetBcoinStatus (w : CdpWorld) (r : CacheRef) (bcoinSymbol : TokenSymbol) (activation : Nat) :
    Bool × CdpWorld :=
  SetData Member.bcoinStatusCache w r bcoinSymbol activation

/-- `GetCDP` called on the object `r`. -/
def GetCDP (w : CdpWorld) (r : CacheRef) (cdpid : Nat) : Option CUserCDP :=
  GetData Member.cdpCache w r cdpid

/-- `UserHaveCdp` called on the object `r`. -/
def UserHaveCdp (w : CdpWorld) (r : CacheRef) (regid : Nat)
    (assetSymbol scoinSymbol : TokenSymbol) : Bool :=
  HasData Member.userCdpCache w r (regid, ⟨assetSymbol, scoinSymbol⟩)

/-- `GetBcoinStatus` called on the object `r`. -/
def GetBcoinStatus (cfg : Config) (codes : CdpBcoinStatusCodes) (w : CdpWorld) (r : CacheRef)
    (bcoinSymbol : TokenSymbol) (activation : Nat) : Bool × Nat :=
  if bcoinSymbol ∈ cfg.kCdpBcoinSymbolSet then (true, codes.STAKE_ON)
  else if bcoinSymbol = cfg.WGRT ∨ bcoinSymbol ∈ cfg.kCdpScoinSymbolSet then (false, codes.NONE)
  else
    match GetData Member.bcoinStatusCache w r bcoinSymbol with
    | none => (false, activation)
    | some act => (true, act)

/-- Modelled from the spec: `GetAllElements` on the ratio-sorted member of the
object `r`, over the entries the iterator sees (sections 4.2 and 4.3). -/
def GetAllElements (w : CdpWorld) (r : CacheRef) (endKey : CdpRatioSortedKey) :
    Bool × List (CdpRatioSortedKey × CUserCDP) :=
  (true, (entries Member.cdpRatioSortedCache w r).filter
    (fun e => decide (e.1.coinPair = endKey.coinPair ∧ keyLt e.1 endKey)))

/-- `GetCdpListByCollateralRatio` called on the object `r`. -/
def GetCdpListByCollateralRatio (cfg : Config) (w : CdpWorld) (r : CacheRef)
    (cdpCoinPair : CCdpCoinPair) (collateralRatio bcoinMedianPrice : Nat) :
    Option (Bool × List (CdpRatioSortedKey × CUserCDP)) :=
  let t := Double.toUInt64 cfg.doubleToUInt64OutOfRange
    (boostedCutoff cfg collateralRatio bcoinMedianPrice)
  if t < UINT64_MAX then
    let ratioBoost := t + 1
    let endKey : CdpRatioSortedKey := ⟨cdpCoinPair, ratioBoost, 0, 0⟩
    some (GetAllElements w r endKey)
  else none

/-- `Flush` called on the object `r`: the five members are flushed, each onto
its base view or else onto the backing store; the result is always `true`. -/
def Flush (w : CdpWorld) (r : CacheRef) : Bool × CdpWorld :=
  match w.obj? r with
  | none => (true, w)
  | some o =>
    let via := fun (attached : Bool) => decide (r ≠ CacheRef.base) && attached
    let g := o.cdpGlobalDataCache.Flush (via o.cdpGlobalDataCache.attached)
      w.store.cdpGlobalDataCache w.base.cdpGlobalDataCache
    let c := o.cdpCache.Flush (via o.cdpCache.attached) w.store.cdpCache w.base.cdpCache
    let b := o.bcoinStatusCache.Flush (via o.bcoinStatusCache.attached)
      w.store.bcoinStatusCache w.base.bcoinStatusCache
    let u := o.userCdpCache.Flush (via o.userCdpCache.attached)
      w.store.userCdpCache w.base.userCdpCache
    let x := o.cdpRatioSortedCache.Flush (via o.cdpRatioSortedCache.attached)
      w.store.cdpRatioSortedCache w.base.cdpRatioSortedCache
    (true, CdpWorld.setObj
      { store := ⟨g.1, c.1, b.1, u.1, x.1⟩
        base := ⟨g.2.1, c.2.1, b.2.1, u.2.1, x.2.1⟩
        others := w.others } r ⟨g.2.2, c.2.2, b.2.2, u.2.2, x.2.2⟩)

/-- `SetBaseViewPtr(pBaseIn)` called on the object `r` with `pBaseIn` the base
of the world: `SetBase` on each of the five members, with the address of the
corresponding member of the base. -/
def SetBaseViewPtr (w : CdpWorld) (r : CacheRef) : CdpWorld :=
  match w.obj? r with
  | none => w
  | some o =>
    w.setObj r
      { cdpGlobalDataCache := { o.cdpGlobalDataCache with attached := true }
        cdpCache := { o.cdpCache with attached := true }
        bcoinStatusCache := { o.bcoinStatusCache with attached := true }
        userCdpCache := { o.userCdpCache with attached := true }
        cdpRatioSortedCache := { o.cdpRatioSortedCache with attached := true } }

/-- A member initialised from a member object of the base: a copy of it, with
its write-set and its base view.  The base view of a member of the base is not
that member itself: the copy reads on from the backing store, as the base
does. -/
def copyOfMember (c : OverlayKV K V) : OverlayKV K V := { c with attached := false }

/-- `CCdpDBCache(CCdpDBCache *pBaseIn)` called with `pBaseIn` the base of the
world: a new object, each member of which is initialised from the member
object `pBaseIn->...` of the base (the object itself, where `SetBaseViewPtr`
passes its address).  The new object is `CacheRef.other w.others.length`. -/
def construct (w : CdpWorld) : CdpWorld :=
  { w with others := w.others ++
      [⟨copyOfMember w.base.cdpGlobalDataCache, copyOfMember w.base.cdpCache,
        copyOfMember w.base.bcoinStatusCache, copyOfMember w.base.userCdpCache,
        copyOfMember w.base.cdpRatioSortedCache⟩] }

end CdpWorld

/-- One call of a mutating operation on a cache object. -/
inductive OverlayCall where
  | newCDP (blockHeight : Int) (cdp : CUserCDP)
  | eraseCDP (oldCDP cdp : CUserCDP)
  | updateCDP (oldCDP newCDP : CUserCDP)
  | setBcoinStatus (bcoinSymbol : TokenSymbol) (activation : Nat)

namespace CdpWorld

/-- The world after a call on the object `r`, successful or not; a call stopped
by an assertion leaves it as it was. -/
def call (cfg : Config) (w : CdpWorld) (r : CacheRef) : OverlayCall → CdpWorld
  | .newCDP bh cdp =>
    match w.NewCDP cfg r bh cdp with
    | some res => res.2
    | none => w
  | .eraseCDP oldCDP cdp => (w.EraseCDP cfg r oldCDP cdp).2
  | .updateCDP oldCDP newCDP =>
    match w.UpdateCDP cfg r oldCDP newCDP with
    | some res => res.2
    | none => w
  | .setBcoinStatus s a => (w.SetBcoinStatus r s a).2

/-- A sequence of calls on the object `r`. -/
def runOn (cfg : Config) (w : CdpWorld) (r : CacheRef) : List OverlayCall → CdpWorld
  | [] => w
  | c :: rest => runOn cfg (call cfg w r c) r rest

/-- The store, the base and the objects other than the `i`-th are in `w'` as
they are in `w`. -/
def Untouched (i : Nat) (w w' : CdpWorld) : Prop :=
  w'.store = w.store ∧ w'.base = w.base ∧ ∀ j, j ≠ i → w'.others[j]? = w.others[j]?

/-- The `i`-th object exists and every member of it has the base view
attached. -/
def ObjAttached (w : CdpWorld) (i : Nat) : Prop :=
  ∃ o, w.others[i]? = some o ∧ o.Attached

/-- What holds between the worlds before and after calls on the `i`-th object:
nothing but that object is written, and its members keep their base view. -/
def Step (i : Nat) (w w' : CdpWorld) : Prop :=
  Untouched i w w' ∧ (ObjAttached w i → ObjAttached w' i)

end CdpWorld

/-- A cache object with empty write-sets and no base view. -/
def sampleEmptyCache : CdpOverlay :=
  ⟨⟨[], false, false⟩, ⟨[], false, false⟩, ⟨[], false, false⟩, ⟨[], false, false⟩,
   ⟨[], false, false⟩⟩

/-- An empty backing store, a base with empty write-sets, and two further
objects with empty write-sets. -/
def sampleWorld0 : CdpWorld :=
  { store := CCdpDBCache.empty, base := sampleEmptyCache,
    others := [sampleEmptyCache, sampleEmptyCache] }

/-- The world `sampleWorld0` after `NewCDP(10, C1)` on the base: the four
records are in the write-sets of the base, not flushed. -/
def sampleWorld : CdpWorld :=
  { sampleWorld0 with
    base :=
      { cdpGlobalDataCache := ⟨[(⟨"BTC", "USD"⟩, some ⟨100, 50⟩)], false, false⟩
        cdpCache := ⟨[(1, some sampleC1)], false, false⟩
        bcoinStatusCache := ⟨[], false, false⟩
        userCdpCache := ⟨[((7, ⟨"BTC", "USD"⟩), some 1)], false, false⟩
        cdpRatioSortedCache :=
          ⟨[(⟨⟨"BTC", "USD"⟩, 200000000, 10, 1⟩, some sampleC1)], false, false⟩ } }

/-- A CDP of (BTC, USD) staking 1 and owing `10^9`: its base ratio is the
`double` quotient `1 / 10^9`. -/
def sampleThinCdp : CUserCDP :=
  { sampleC1 with cdpid := 4, owner_regid := 10, total_staked_bcoins := 1,
                  total_owed_scoins := 1000000000,
                  collateral_ratio_base := Double.div (Double.ofUInt 1) (Double.ofUInt 1000000000) }

/-- A CDP of another owner in (BTC, USD): staked 30, owed 15. -/
def sampleC4 : CUserCDP :=
  { sampleC1 with cdpid := 2, owner_regid := 8, total_staked_bcoins := 30,
                  total_owed_scoins := 15 }

/-- The cache after `NewCDP(10, C1)` and `NewCDP(10, sampleC4)` on the empty
cache. -/
def sampleDb14 : CCdpDBCache :=
  { cdpGlobalDataCache := ⟨[(⟨"BTC", "USD"⟩, ⟨130, 65⟩)], false⟩
    cdpCache := ⟨[(2, sampleC4), (1, sampleC1)], false⟩
    bcoinStatusCache := ⟨[], false⟩
    userCdpCache := ⟨[((8, ⟨"BTC", "USD"⟩), 2), ((7, ⟨"BTC", "USD"⟩), 1)], false⟩
    cdpRatioSortedCache :=
      ⟨[(⟨⟨"BTC", "USD"⟩, 200000000, 10, 2⟩, sampleC4),
        (⟨⟨"BTC", "USD"⟩, 200000000, 10, 1⟩, sampleC1)], false⟩ }

/-- CDP `C1` rewritten at height 11 with the largest 64-bit staked amount. -/
def sampleC1Huge : CUserCDP :=
  { sampleC1 with block_height := 11, total_staked_bcoins := 2 ^ 64 - 1 }

/-! ## Lemmas on the typed cache -/

namespace KVCache

variable {K V : Type} [DecidableEq K]

theorem lookup_remove_self (k : K) (l : List (K × V)) : lookup k (remove k l) = none := by
  induction l with
  | nil => rfl
  | cons e rest ih =>
    obtain ⟨k', v⟩ := e
    by_cases h : k' = k
    · simp [remove, h, ih]
    · simp [remove, lookup, h, ih]

theorem lookup_remove_ne {k k' : K} (h : k' ≠ k) (l : List (K × V)) :
    lookup k' (remove k l) = lookup k' l := by
  induction l with
  | nil => rfl
  | cons e rest ih =>
    obtain ⟨k'', v⟩ := e
    by_cases h1 : k'' = k
    · have h2 : ¬ k'' = k' := fun h3 => h (h3.symm.trans h1)
      rw [remove, if_pos h1, lookup, if_neg h2, ih]
    · rw [remove, if_neg h1]
      by_cases h2 : k'' = k'
      · rw [lookup, if_pos h2, lookup, if_pos h2]
      · rw [lookup, if_neg h2, lookup, if_neg h2, ih]

theorem getData_setData (c : KVCache K V) (k : K) (v : V) (k' : K) (h : c.writeFault = false) :
    (c.SetData k v).2.GetData k' = if k' = k then some v else c.GetData k' := by
  unfold SetData GetData
  by_cases hk : k' = k
  · subst hk; simp [h, lookup]
  · have hk' : ¬ k = k' := fun e => hk e.symm
    simp [h, lookup, hk, hk', lookup_remove_ne hk]

theorem getData_eraseData (c : KVCache K V) (k : K) (k' : K) (h : c.writeFault = false) :
    (c.EraseData k).2.GetData k' = if k' = k then none else c.GetData k' := by
  unfold EraseData GetData
  by_cases hk : k' = k
  · subst hk; simp [h, lookup_remove_self]
  · simp [h, hk, lookup_remove_ne hk]

theorem setData_fst (c : KVCache K V) (k : K) (v : V) : (c.SetData k v).1 = !c.writeFault := by
  unfold SetData; cases c.writeFault <;> simp

theorem eraseData_fst (c : KVCache K V) (k : K) : (c.EraseData k).1 = !c.writeFault := by
  unfold EraseData; cases c.writeFault <;> simp

theorem setData_writeFault (c : KVCache K V) (k : K) (v : V) :
    (c.SetData k v).2.writeFault = c.writeFault := by
  unfold SetData; cases h : c.writeFault <;> simp [h]

theorem eraseData_writeFault (c : KVCache K V) (k : K) :
    (c.EraseData k).2.writeFault = c.writeFault := by
  unfold EraseData; cases h : c.writeFault <;> simp [h]

theorem mem_remove {k : K} {e : K × V} {l : List (K × V)} (h : e ∈ remove k l) :
    e ∈ l ∧ e.1 ≠ k := by
  induction l with
  | nil => cases h
  | cons x rest ih =>
    obtain ⟨k', v⟩ := x
    by_cases hk : k' = k
    · rw [remove, if_pos hk] at h
      exact ⟨List.mem_cons_of_mem _ (ih h).1, (ih h).2⟩
    · rw [remove, if_neg hk] at h
      rcases List.mem_cons.mp h with h1 | h1
      · subst h1; exact ⟨List.mem_cons_self _ _, hk⟩
      · exact ⟨List.mem_cons_of_mem _ (ih h1).1, (ih h1).2⟩

theorem keys_nodup_remove (k : K) (l : List (K × V)) (h : (l.map Prod.fst).Nodup) :
    ((remove k l).map Prod.fst).Nodup := by
  induction l with
  | nil => exact List.nodup_nil
  | cons x rest ih =>
    obtain ⟨k', v⟩ := x
    rw [List.map_cons, List.nodup_cons] at h
    by_cases hk : k' = k
    · rw [remove, if_pos hk]; exact ih h.2
    · rw [remove, if_neg hk, List.map_cons, List.nodup_cons]
      refine ⟨?_, ih h.2⟩
      intro hm
      obtain ⟨e, he, hek⟩ := List.mem_map.mp hm
      exact h.1 (List.mem_map.mpr ⟨e, (mem_remove he).1, hek⟩)

theorem keys_nodup_set (k : K) (v : V) (l : List (K × V)) (h : (l.map Prod.fst).Nodup) :
    (((k, v) :: remove k l).map Prod.fst).Nodup := by
  rw [List.map_cons, List.nodup_cons]
  refine ⟨?_, keys_nodup_remove k l h⟩
  intro hm
  obtain ⟨e, he, hek⟩ := List.mem_map.mp hm
  exact (mem_remove he).2 hek

theorem lookup_of_mem {k : K} {v : V} {l : List (K × V)} (hn : (l.map Prod.fst).Nodup)
    (h : (k, v) ∈ l) : lookup k l = some v := by
  induction l with
  | nil => cases h
  | cons x rest ih =>
    obtain ⟨k', v'⟩ := x
    rw [List.map_cons, List.nodup_cons] at hn
    rcases List.mem_cons.mp h with h1 | h1
    · cases h1; simp [lookup]
    · have hne : ¬ k' = k := by
        intro e
        apply hn.1
        exact List.mem_map.mpr ⟨(k, v), h1, e.symm⟩
      rw [lookup, if_neg hne]
      exact ih hn.2 h1

theorem mem_of_lookup {k : K} {v : V} {l : List (K × V)} (h : lookup k l = some v) :
    (k, v) ∈ l := by
  induction l with
  | nil => cases h
  | cons x rest ih =>
    obtain ⟨k', v'⟩ := x
    by_cases hk : k' = k
    · rw [lookup, if_pos hk] at h
      cases h; subst hk
      exact List.mem_cons_self _ _
    · rw [lookup, if_neg hk] at h
      exact List.mem_cons_of_mem _ (ih h)

end KVCache

/-! ## What a successful call has done -/

namespace CCdpDBCache

theorem save_ok (cfg : Config) (db db' : CCdpDBCache) (c : CUserCDP)
    (h : SaveCDPToRatioDB cfg db c = (true, db')) :
    db.cdpGlobalDataCache.writeFault = false ∧ db.cdpRatioSortedCache.writeFault = false ∧
    db'.cdpCache = db.cdpCache ∧ db'.userCdpCache = db.userCdpCache ∧
    db'.bcoinStatusCache = db.bcoinStatusCache ∧
    db'.cdpGlobalDataCache.writeFault = false ∧ db'.cdpRatioSortedCache.writeFault = false ∧
    (∀ p, db'.GetCdpGlobalData p =
      if p = c.GetCoinPair then
        ⟨((db.GetCdpGlobalData p).total_staked_assets + c.total_staked_bcoins) % 2 ^ 64,
         ((db.GetCdpGlobalData p).total_owed_scoins + c.total_owed_scoins) % 2 ^ 64⟩
      else db.GetCdpGlobalData p) ∧
    (∀ k, db'.cdpRatioSortedCache.GetData k =
      if k = MakeCdpRatioSortedKey cfg c then some c else db.cdpRatioSortedCache.GetData k) := by
  cases hg : db.cdpGlobalDataCache.writeFault <;> cases hr : db.cdpRatioSortedCache.writeFault <;>
    simp [SaveCDPToRatioDB, KVCache.SetData, hg, hr] at h
  subst h
  refine ⟨rfl, rfl, rfl, rfl, rfl, rfl, rfl, ?_, ?_⟩
  · intro p
    simp only [GetCdpGlobalData, KVCache.GetData, KVCache.lookup]
    by_cases hp : p = c.GetCoinPair
    · subst hp; simp
    · have hp' : ¬ c.GetCoinPair = p := fun e => hp e.symm
      simp [hp, hp', KVCache.lookup_remove_ne hp]
  · intro k
    simp only [KVCache.GetData, KVCache.lookup]
    by_cases hk : k = MakeCdpRatioSortedKey cfg c
    · subst hk; simp
    · have hk' : ¬ MakeCdpRatioSortedKey cfg c = k := fun e => hk e.symm
      simp [hk, hk', KVCache.lookup_remove_ne hk]


theorem erase_ok (cfg : Config) (db db' : CCdpDBCache) (c : CUserCDP)
    (h : EraseCDPFromRatioDB cfg db c = (true, db')) :
    db.cdpRatioSortedCache.writeFault = false ∧
    db'.cdpCache = db.cdpCache ∧ db'.userCdpCache = db.userCdpCache ∧
    db'.bcoinStatusCache = db.bcoinStatusCache ∧
    db'.cdpGlobalDataCache.writeFault = db.cdpGlobalDataCache.writeFault ∧
    db'.cdpRatioSortedCache.writeFault = false ∧
    (db.cdpGlobalDataCache.writeFault = false → ∀ p, db'.GetCdpGlobalData p =
      if p = c.GetCoinPair then
        ⟨((db.GetCdpGlobalData p).total_staked_assets + 2 ^ 64 - c.total_staked_bcoins % 2 ^ 64)
            % 2 ^ 64,
         ((db.GetCdpGlobalData p).total_owed_scoins + 2 ^ 64 - c.total_owed_scoins % 2 ^ 64)
            % 2 ^ 64⟩
      else db.GetCdpGlobalData p) ∧
    (db.cdpGlobalDataCache.writeFault = true → db'.cdpGlobalDataCache = db.cdpGlobalDataCache) ∧
    (∀ k, db'.cdpRatioSortedCache.GetData k =
      if k = MakeCdpRatioSortedKey cfg c then none else db.cdpRatioSortedCache.GetData k) := by
  cases hg : db.cdpGlobalDataCache.writeFault <;> cases hr : db.cdpRatioSortedCache.writeFault <;>
    simp [EraseCDPFromRatioDB, KVCache.SetData, KVCache.EraseData, hg, hr] at h
  · subst h
    refine ⟨rfl, rfl, rfl, rfl, rfl, rfl, ?_, ?_, ?_⟩
    · intro _ p
      simp only [GetCdpGlobalData, KVCache.GetData, KVCache.lookup]
      by_cases hp : p = c.GetCoinPair
      · subst hp; simp
      · have hp' : ¬ c.GetCoinPair = p := fun e => hp e.symm
        simp [hp, hp', KVCache.lookup_remove_ne hp]
    · intro hf; cases hf
    · intro k
      simp only [KVCache.GetData]
      by_cases hk : k = MakeCdpRatioSortedKey cfg c
      · subst hk; simp [KVCache.lookup_remove_self]
      · simp [hk, KVCache.lookup_remove_ne hk]
  · subst h
    refine ⟨rfl, rfl, rfl, rfl, ?_, rfl, ?_, ?_, ?_⟩
    · simp [hg]
    · intro hf; cases hf
    · intro _; rfl
    · intro k
      simp only [KVCache.GetData]
      by_cases hk : k = MakeCdpRatioSortedKey cfg c
      · subst hk; simp [KVCache.lookup_remove_self]
      · simp [hk, KVCache.lookup_remove_ne hk]

theorem new_ok (cfg : Config) (db db' : CCdpDBCache) (bh : Int) (cdp : CUserCDP)
    (h : NewCDP cfg db bh cdp = some (true, db')) :
    db.cdpCache.HasData cdp.cdpid = false ∧
    db.userCdpCache.HasData (cdp.owner_regid, cdp.GetCoinPair) = false ∧
    (db'.cdpGlobalDataCache.writeFault = false ∧ db'.cdpCache.writeFault = false ∧
      db'.userCdpCache.writeFault = false ∧ db'.cdpRatioSortedCache.writeFault = false) ∧
    db'.bcoinStatusCache = db.bcoinStatusCache ∧
    (∀ id, db'.cdpCache.GetData id = if id = cdp.cdpid then some cdp else db.cdpCache.GetData id) ∧
    (∀ k, db'.userCdpCache.GetData k =
      if k = (cdp.owner_regid, cdp.GetCoinPair) then some cdp.cdpid
      else db.userCdpCache.GetData k) ∧
    (∀ p, db'.GetCdpGlobalData p =
      if p = cdp.GetCoinPair then
        ⟨((db.GetCdpGlobalData p).total_staked_assets + cdp.total_staked_bcoins) % 2 ^ 64,
         ((db.GetCdpGlobalData p).total_owed_scoins + cdp.total_owed_scoins) % 2 ^ 64⟩
      else db.GetCdpGlobalData p) ∧
    (∀ k, db'.cdpRatioSortedCache.GetData k =
      if k = MakeCdpRatioSortedKey cfg cdp then some cdp else db.cdpRatioSortedCache.GetData k) := by
  unfold NewCDP at h
  by_cases h1 : db.cdpCache.HasData cdp.cdpid = true
  · simp [h1] at h
  by_cases h2 : db.userCdpCache.HasData (cdp.owner_regid, cdp.GetCoinPair) = true
  · simp [h1, h2] at h
  simp only [h1, h2, if_false, Bool.false_eq_true] at h
  by_cases hc : db.cdpCache.writeFault = true
  · simp [KVCache.SetData, hc] at h
  by_cases hu : db.userCdpCache.writeFault = true
  · simp [KVCache.SetData, hc, hu] at h
  rw [Bool.not_eq_true] at hc hu
  simp only [KVCache.setData_fst, hc, hu, Bool.not_false, Bool.not_true, if_false,
    Bool.false_eq_true, Option.some.injEq] at h
  obtain ⟨hg, hr, e1, e2, e3, hg', hr', hG, hR⟩ := save_ok cfg _ db' cdp h
  refine ⟨by simpa using h1, by simpa using h2, ⟨hg', ?_, ?_, hr'⟩, ?_, ?_, ?_, ?_, ?_⟩
  · rw [e1]; simp [KVCache.setData_writeFault, hc]
  · rw [e2]; simp [KVCache.setData_writeFault, hu]
  · rw [e3]
  · intro id; rw [e1]; exact KVCache.getData_setData _ _ _ _ hc
  · intro k; rw [e2]; exact KVCache.getData_setData _ _ _ _ hu
  · intro p; rw [hG p]; rfl
  · intro k; rw [hR k]


theorem eraseCDP_ok (cfg : Config) (db db' : CCdpDBCache) (oldCDP cdp : CUserCDP)
    (h : EraseCDP cfg db oldCDP cdp = (true, db')) :
    (db'.cdpGlobalDataCache.writeFault = db.cdpGlobalDataCache.writeFault ∧
      db'.cdpCache.writeFault = false ∧
      db'.userCdpCache.writeFault = false ∧ db'.cdpRatioSortedCache.writeFault = false) ∧
    db'.bcoinStatusCache = db.bcoinStatusCache ∧
    (∀ id, db'.cdpCache.GetData id = if id = cdp.cdpid then some cdp else db.cdpCache.GetData id) ∧
    (∀ k, db'.userCdpCache.GetData k =
      if k = (cdp.owner_regid, cdp.GetCoinPair) then none else db.userCdpCache.GetData k) ∧
    (db.cdpGlobalDataCache.writeFault = false → ∀ p, db'.GetCdpGlobalData p =
      if p = oldCDP.GetCoinPair then
        ⟨((db.GetCdpGlobalData p).total_staked_assets + 2 ^ 64 -
            oldCDP.total_staked_bcoins % 2 ^ 64) % 2 ^ 64,
         ((db.GetCdpGlobalData p).total_owed_scoins + 2 ^ 64 -
            oldCDP.total_owed_scoins % 2 ^ 64) % 2 ^ 64⟩
      else db.GetCdpGlobalData p) ∧
    (db.cdpGlobalDataCache.writeFault = true → db'.cdpGlobalDataCache = db.cdpGlobalDataCache) ∧
    (∀ k, db'.cdpRatioSortedCache.GetData k =
      if k = MakeCdpRatioSortedKey cfg oldCDP then none else db.cdpRatioSortedCache.GetData k) := by
  unfold EraseCDP at h
  by_cases hc : db.cdpCache.writeFault = true
  · simp [KVCache.SetData, hc] at h
  by_cases hu : db.userCdpCache.writeFault = true
  · simp [KVCache.SetData, KVCache.EraseData, hc, hu] at h
  rw [Bool.not_eq_true] at hc hu
  simp only [KVCache.setData_fst, KVCache.eraseData_fst, hc, hu, Bool.not_false, Bool.not_true,
    if_false, Bool.false_eq_true] at h
  obtain ⟨hr, e1, e2, e3, hg', hr', hG, hG2, hR⟩ := erase_ok cfg _ db' oldCDP h
  refine ⟨⟨hg', ?_, ?_, hr'⟩, ?_, ?_, ?_, ?_, ?_, ?_⟩
  · rw [e1]; simp [KVCache.setData_writeFault, hc]
  · rw [e2]; simp [KVCache.eraseData_writeFault, hu]
  · rw [e3]
  · intro id; rw [e1]; exact KVCache.getData_setData _ _ _ _ hc
  · intro k; rw [e2]; exact KVCache.getData_eraseData _ _ _ hu
  · intro hf p; rw [hG hf p]; rfl
  · intro hf; rw [hG2 hf]
  · intro k; rw [hR k]

theorem update_ok (cfg : Config) (db db' : CCdpDBCache) (oldCDP newCDP : CUserCDP)
    (h : UpdateCDP cfg db oldCDP newCDP = some (true, db')) :
    cfg.cdpIsEmpty newCDP = false ∧
    (db.cdpGlobalDataCache.writeFault = false ∧ db.cdpCache.writeFault = false ∧
      db.cdpRatioSortedCache.writeFault = false) ∧
    (db'.cdpGlobalDataCache.writeFault = false ∧ db'.cdpCache.writeFault = false ∧
      db'.cdpRatioSortedCache.writeFault = false) ∧
    db'.bcoinStatusCache = db.bcoinStatusCache ∧ db'.userCdpCache = db.userCdpCache ∧
    (∀ id, db'.cdpCache.GetData id =
      if id = newCDP.cdpid then some newCDP else db.cdpCache.GetData id) ∧
    (∃ mid : CCdpDBCache,
      (∀ p, mid.GetCdpGlobalData p =
        if p = oldCDP.GetCoinPair then
          ⟨((db.GetCdpGlobalData p).total_staked_assets + 2 ^ 64 -
              oldCDP.total_staked_bcoins % 2 ^ 64) % 2 ^ 64,
           ((db.GetCdpGlobalData p).total_owed_scoins + 2 ^ 64 -
              oldCDP.total_owed_scoins % 2 ^ 64) % 2 ^ 64⟩
        else db.GetCdpGlobalData p) ∧
      (∀ p, db'.GetCdpGlobalData p =
        if p = newCDP.GetCoinPair then
          ⟨((mid.GetCdpGlobalData p).total_staked_assets + newCDP.total_staked_bcoins) % 2 ^ 64,
           ((mid.GetCdpGlobalData p).total_owed_scoins + newCDP.total_owed_scoins) % 2 ^ 64⟩
        else mid.GetCdpGlobalData p)) ∧
    (∀ k, db'.cdpRatioSortedCache.GetData k =
      if k = MakeCdpRatioSortedKey cfg newCDP then some newCDP
      else if k = MakeCdpRatioSortedKey cfg oldCDP then none
      else db.cdpRatioSortedCache.GetData k) := by
  unfold UpdateCDP at h
  by_cases he : cfg.cdpIsEmpty newCDP = true
  · simp [he] at h
  by_cases hc : db.cdpCache.writeFault = true
  · simp [KVCache.SetData, hc, he] at h
  rw [Bool.not_eq_true] at hc he
  simp only [he, KVCache.setData_fst, hc, Bool.not_false, Bool.not_true,
    if_false, Bool.false_eq_true, Option.some.injEq] at h
  generalize hm : EraseCDPFromRatioDB cfg
    { db with cdpCache := (db.cdpCache.SetData newCDP.cdpid newCDP).2 } oldCDP = r at h
  obtain ⟨b, mid⟩ := r
  cases b
  · simp at h
  simp only [Bool.not_true, if_false, Bool.false_eq_true, Option.some.injEq] at h
  obtain ⟨hr, e1, e2, e3, hg', hr', hG, -, hR⟩ := erase_ok cfg _ mid oldCDP hm
  obtain ⟨sg, sr, s1, s2, s3, sg', sr', sG, sR⟩ := save_ok cfg mid db' newCDP h
  have hg : db.cdpGlobalDataCache.writeFault = false := by rw [← sg, hg']
  refine ⟨he, ⟨hg, hc, hr⟩, ⟨sg', ?_, sr'⟩, ?_, ?_, ?_, ⟨mid, ?_, sG⟩, ?_⟩
  · rw [s1, e1]; simp [KVCache.setData_writeFault, hc]
  · rw [s3, e3]
  · rw [s2, e2]
  · intro id; rw [s1, e1]; exact KVCache.getData_setData _ _ _ _ hc
  · intro p; rw [hG hg p]; rfl
  · intro k; rw [sR k, hR k]

end CCdpDBCache

namespace CCdpDBCache

theorem save_entries (cfg : Config) (db db' : CCdpDBCache) (c : CUserCDP)
    (h : SaveCDPToRatioDB cfg db c = (true, db')) :
    db'.cdpRatioSortedCache.entries =
      (MakeCdpRatioSortedKey cfg c, c) ::
        KVCache.remove (MakeCdpRatioSortedKey cfg c) db.cdpRatioSortedCache.entries := by
  cases hg : db.cdpGlobalDataCache.writeFault <;> cases hr : db.cdpRatioSortedCache.writeFault <;>
    simp [SaveCDPToRatioDB, KVCache.SetData, hg, hr] at h
  subst h
  rfl

theorem erase_entries (cfg : Config) (db db' : CCdpDBCache) (c : CUserCDP)
    (h : EraseCDPFromRatioDB cfg db c = (true, db')) :
    db'.cdpRatioSortedCache.entries =
      KVCache.remove (MakeCdpRatioSortedKey cfg c) db.cdpRatioSortedCache.entries := by
  cases hg : db.cdpGlobalDataCache.writeFault <;> cases hr : db.cdpRatioSortedCache.writeFault <;>
    simp [EraseCDPFromRatioDB, KVCache.SetData, KVCache.EraseData, hg, hr] at h
  · subst h; rfl
  · subst h; rfl

theorem new_entries (cfg : Config) (db db' : CCdpDBCache) (bh : Int) (cdp : CUserCDP)
    (h : NewCDP cfg db bh cdp = some (true, db')) :
    db'.cdpRatioSortedCache.entries =
      (MakeCdpRatioSortedKey cfg cdp, cdp) ::
        KVCache.remove (MakeCdpRatioSortedKey cfg cdp) db.cdpRatioSortedCache.entries := by
  unfold NewCDP at h
  by_cases h1 : db.cdpCache.HasData cdp.cdpid = true
  · simp [h1] at h
  by_cases h2 : db.userCdpCache.HasData (cdp.owner_regid, cdp.GetCoinPair) = true
  · simp [h1, h2] at h
  simp only [h1, h2, if_false, Bool.false_eq_true] at h
  by_cases hc : db.cdpCache.writeFault = true
  · simp [KVCache.SetData, hc] at h
  by_cases hu : db.userCdpCache.writeFault = true
  · simp [KVCache.SetData, hc, hu] at h
  rw [Bool.not_eq_true] at hc hu
  simp only [KVCache.setData_fst, hc, hu, Bool.not_false, Bool.not_true, if_false,
    Bool.false_eq_true, Option.some.injEq] at h
  have e := save_entries cfg _ db' cdp h
  exact e

theorem eraseCDP_entries (cfg : Config) (db db' : CCdpDBCache) (oldCDP cdp : CUserCDP)
    (h : EraseCDP cfg db oldCDP cdp = (true, db')) :
    db'.cdpRatioSortedCache.entries =
      KVCache.remove (MakeCdpRatioSortedKey cfg oldCDP) db.cdpRatioSortedCache.entries := by
  unfold EraseCDP at h
  by_cases hc : db.cdpCache.writeFault = true
  · simp [KVCache.SetData, hc] at h
  by_cases hu : db.userCdpCache.writeFault = true
  · simp [KVCache.SetData, KVCache.EraseData, hc, hu] at h
  rw [Bool.not_eq_true] at hc hu
  simp only [KVCache.setData_fst, KVCache.eraseData_fst, hc, hu, Bool.not_false, Bool.not_true,
    if_false, Bool.false_eq_true] at h
  have e := erase_entries cfg _ db' oldCDP h
  exact e

theorem update_entries (cfg : Config) (db db' : CCdpDBCache) (oldCDP newCDP : CUserCDP)
    (h : UpdateCDP cfg db oldCDP newCDP = some (true, db')) :
    db'.cdpRatioSortedCache.entries =
      (MakeCdpRatioSortedKey cfg newCDP, newCDP) ::
        KVCache.remove (MakeCdpRatioSortedKey cfg newCDP)
          (KVCache.remove (MakeCdpRatioSortedKey cfg oldCDP) db.cdpRatioSortedCache.entries) := by
  unfold UpdateCDP at h
  by_cases he : cfg.cdpIsEmpty newCDP = true
  · simp [he] at h
  by_cases hc : db.cdpCache.writeFault = true
  · simp [KVCache.SetData, hc, he] at h
  rw [Bool.not_eq_true] at hc he
  simp only [he, KVCache.setData_fst, hc, Bool.not_false, Bool.not_true,
    if_false, Bool.false_eq_true, Option.some.injEq] at h
  generalize hm : EraseCDPFromRatioDB cfg
    { db with cdpCache := (db.cdpCache.SetData newCDP.cdpid newCDP).2 } oldCDP = r at h
  obtain ⟨b, mid⟩ := r
  cases b
  · simp at h
  simp only [Bool.not_true, if_false, Bool.false_eq_true, Option.some.injEq] at h
  have e := erase_entries cfg _ mid oldCDP hm
  rw [save_entries cfg mid db' newCDP h, e]

/-! ## Single calls -/

/-- Under its precondition and without write faults, `NewCDP` succeeds. -/
theorem newCDP_succeeds (cfg : Config) (db : CCdpDBCache) (bh : Int) (cdp : CUserCDP)
    (hpre1 : db.cdpCache.HasData cdp.cdpid = false)
    (hpre2 : db.userCdpCache.HasData (cdp.owner_regid, cdp.GetCoinPair) = false)
    (hc : db.cdpCache.writeFault = false) (hu : db.userCdpCache.writeFault = false)
    (hg : db.cdpGlobalDataCache.writeFault = false)
    (hr : db.cdpRatioSortedCache.writeFault = false) :
    ∃ db', NewCDP cfg db bh cdp = some (true, db') := by
  simp [NewCDP, hpre1, hpre2, SaveCDPToRatioDB, KVCache.SetData, hc, hu, hg, hr]

/-- C5 as amended: in a state meeting the precondition of `NewCDP` (no primary
record for the id, no owner-index entry for the owner and coin pair), the call
succeeds when no sub-cache reports a write fault, and a successful
`NewCDP(height, cdp)` leaves `GetCDP(cdp.cdpid)` returning `cdp`, `UserHaveCdp`
true with the owner-index entry mapping to `cdp.cdpid`, the aggregate of the
coin pair increased by the staked and owed amounts of `cdp` modulo `2^64` (by
exactly those amounts whenever the sum is below `2^64`), and a ratio-sorted
entry under `MakeCdpRatioSortedKey(cdp)` with value `cdp`. -/
theorem NewCDP_postcondition (cfg : Config) (db : CCdpDBCache) (bh : Int) (cdp : CUserCDP)
    (hpre1 : db.cdpCache.HasData cdp.cdpid = false)
    (hpre2 : db.userCdpCache.HasData (cdp.owner_regid, cdp.GetCoinPair) = false) :
    ((db.cdpCache.writeFault = false ∧ db.userCdpCache.writeFault = false ∧
        db.cdpGlobalDataCache.writeFault = false ∧ db.cdpRatioSortedCache.writeFault = false) →
      ∃ db', NewCDP cfg db bh cdp = some (true, db')) ∧
    ∀ db', NewCDP cfg db bh cdp = some (true, db') →
      db'.GetCDP cdp.cdpid = some cdp ∧
      db'.UserHaveCdp cdp.owner_regid cdp.bcoin_symbol cdp.scoin_symbol = true ∧
      db'.userCdpCache.GetData (cdp.owner_regid, cdp.GetCoinPair) = some cdp.cdpid ∧
      (db'.GetCdpGlobalData cdp.GetCoinPair).total_staked_assets =
        ((db.GetCdpGlobalData cdp.GetCoinPair).total_staked_assets + cdp.total_staked_bcoins)
          % 2 ^ 64 ∧
      (db'.GetCdpGlobalData cdp.GetCoinPair).total_owed_scoins =
        ((db.GetCdpGlobalData cdp.GetCoinPair).total_owed_scoins + cdp.total_owed_scoins)
          % 2 ^ 64 ∧
      ((db.GetCdpGlobalData cdp.GetCoinPair).total_staked_assets + cdp.total_staked_bcoins
          < 2 ^ 64 →
        (db'.GetCdpGlobalData cdp.GetCoinPair).total_staked_assets =
          (db.GetCdpGlobalData cdp.GetCoinPair).total_staked_assets + cdp.total_staked_bcoins) ∧
      ((db.GetCdpGlobalData cdp.GetCoinPair).total_owed_scoins + cdp.total_owed_scoins
          < 2 ^ 64 →
        (db'.GetCdpGlobalData cdp.GetCoinPair).total_owed_scoins =
          (db.GetCdpGlobalData cdp.GetCoinPair).total_owed_scoins + cdp.total_owed_scoins) ∧
      db'.cdpRatioSortedCache.GetData (MakeCdpRatioSortedKey cfg cdp) = some cdp := by
  refine ⟨fun hf => newCDP_succeeds cfg db bh cdp hpre1 hpre2 hf.1 hf.2.1 hf.2.2.1 hf.2.2.2, ?_⟩
  intro db' hok
  obtain ⟨-, -, -, -, hC, hU, hG, hR⟩ := new_ok cfg db db' bh cdp hok
  have hu : db'.userCdpCache.GetData (cdp.owner_regid, cdp.GetCoinPair) = some cdp.cdpid := by
    rw [hU]; simp
  have hs : (db'.GetCdpGlobalData cdp.GetCoinPair).total_staked_assets =
      ((db.GetCdpGlobalData cdp.GetCoinPair).total_staked_assets + cdp.total_staked_bcoins)
        % 2 ^ 64 := by
    rw [hG]; simp
  have ho : (db'.GetCdpGlobalData cdp.GetCoinPair).total_owed_scoins =
      ((db.GetCdpGlobalData cdp.GetCoinPair).total_owed_scoins + cdp.total_owed_scoins)
        % 2 ^ 64 := by
    rw [hG]; simp
  refine ⟨?_, ?_, hu, hs, ho, ?_, ?_, ?_⟩
  · unfold GetCDP; rw [hC]; simp
  · unfold UserHaveCdp KVCache.HasData
    have : (⟨cdp.bcoin_symbol, cdp.scoin_symbol⟩ : CCdpCoinPair) = cdp.GetCoinPair := rfl
    rw [this, hu]; rfl
  · intro hlt; rw [hs, Nat.mod_eq_of_lt hlt]
  · intro hlt; rw [ho, Nat.mod_eq_of_lt hlt]
  · rw [hR]; simp

/-- Witness for C5: `C1` (staked 100, owed 50) created on the empty cache gives
the aggregate `(100, 50)` for (BTC, USD). -/
theorem NewCDP_postcondition_witness :
    NewCDP sampleConfig CCdpDBCache.empty 10 sampleC1 = some (true, sampleDb1) ∧
    sampleDb1.GetCdpGlobalData ⟨"BTC", "USD"⟩ = ⟨100, 50⟩ ∧
    sampleDb1.GetCDP 1 = some sampleC1 ∧
    sampleDb1.UserHaveCdp 7 "BTC" "USD" = true ∧
    sampleDb1.cdpRatioSortedCache.GetData (MakeCdpRatioSortedKey sampleConfig sampleC1)
      = some sampleC1 := by
  have h := (NewCDP_postcondition sampleConfig CCdpDBCache.empty 10 sampleC1
    (by decide) (by decide)).2 sampleDb1 (by decide)
  exact ⟨by decide, by decide, h.1, h.2.1, h.2.2.2.2.2.2.2⟩

/-- C5 fails on the code as stated: on the cache holding `C1`, of aggregate
`(100, 50)`, the precondition of `NewCDP` holds for the CDP of another owner
staking and owing `2^64 - 1`, the call succeeds, and the aggregate is then
`(99, 49)`: it has gone down by one instead of up by `2^64 - 1`. -/
theorem NewCDP_aggregate_wraps :
    sampleDb1.cdpCache.HasData sampleWrapCdp.cdpid = false ∧
    sampleDb1.userCdpCache.HasData (sampleWrapCdp.owner_regid, sampleWrapCdp.GetCoinPair)
      = false ∧
    sampleDb1.GetCdpGlobalData sampleWrapCdp.GetCoinPair = ⟨100, 50⟩ ∧
    sampleWrapCdp.total_staked_bcoins = 2 ^ 64 - 1 ∧
    sampleWrapCdp.total_owed_scoins = 2 ^ 64 - 1 ∧
    (NewCDP sampleConfig sampleDb1 12 sampleWrapCdp).map
      (fun r => (r.1, r.2.GetCDP sampleWrapCdp.cdpid,
        r.2.GetCdpGlobalData sampleWrapCdp.GetCoinPair))
      = some (true, some sampleWrapCdp, ⟨99, 49⟩) ∧
    (99 : Nat) ≠ 100 + (2 ^ 64 - 1) ∧ (49 : Nat) ≠ 50 + (2 ^ 64 - 1) := by
  decide

/-- C7: when the primary cache already holds `cdp.cdpid`, or the owner-index
already holds an entry for the owner and coin pair of `cdp`, `NewCDP` stops at
its assertion (`none`: no write is made and no state results).  Hence after a
successful `NewCDP` of one CDP, `NewCDP` of any CDP with the same owner and
coin pair fails, whatever its id. -/
theorem NewCDP_precondition_failure (cfg : Config) (db : CCdpDBCache) (bh : Int) (cdp : CUserCDP) :
    ((db.cdpCache.HasData cdp.cdpid = true ∨
        db.userCdpCache.HasData (cdp.owner_regid, cdp.GetCoinPair) = true) →
      NewCDP cfg db bh cdp = none) ∧
    (∀ (db0 : CCdpDBCache) (bh0 : Int) (c1 : CUserCDP),
      NewCDP cfg db0 bh0 c1 = some (true, db) →
      c1.owner_regid = cdp.owner_regid → c1.GetCoinPair = cdp.GetCoinPair →
      NewCDP cfg db bh cdp = none) := by
  have key : (db.cdpCache.HasData cdp.cdpid = true ∨
        db.userCdpCache.HasData (cdp.owner_regid, cdp.GetCoinPair) = true) →
      NewCDP cfg db bh cdp = none := by
    intro h
    unfold NewCDP
    by_cases h1 : db.cdpCache.HasData cdp.cdpid = true
    · simp [h1]
    · rcases h with h | h
      · exact absurd h h1
      · simp [h]
  refine ⟨key, ?_⟩
  intro db0 bh0 c1 h0 ho hp
  obtain ⟨-, -, -, -, -, hU, -, -⟩ := new_ok cfg db0 db bh0 c1 h0
  apply key
  right
  unfold KVCache.HasData
  rw [hU, ← ho, ← hp]; simp

/-- Witness for C7: after `C1`, creating `C2` for the same owner and pair
fails. -/
theorem NewCDP_precondition_failure_witness :
    sampleDb1.userCdpCache.HasData (sampleC2.owner_regid, sampleC2.GetCoinPair) = true ∧
    NewCDP sampleConfig sampleDb1 11 sampleC2 = none :=
  ⟨by decide,
   (NewCDP_precondition_failure sampleConfig sampleDb1 11 sampleC2).1 (Or.inr (by decide))⟩


theorem sub_add_u64 (g o n : Nat) (ho : o ≤ g) (hg : g < 2 ^ 64) (h : g - o + n < 2 ^ 64) :
    ((g + 2 ^ 64 - o % 2 ^ 64) % 2 ^ 64 + n) % 2 ^ 64 = g - o + n := by
  omega

theorem update_congr_u64 (g o n : Nat) :
    (((((g + 2 ^ 64 - o % 2 ^ 64) % 2 ^ 64 + n) % 2 ^ 64 : Nat) : Int) -
      ((g : Int) - (o : Int) + (n : Int))) % 2 ^ 64 = 0 := by
  omega

theorem updateCDP_succeeds (cfg : Config) (db : CCdpDBCache) (oldCDP newCDP : CUserCDP)
    (hne : cfg.cdpIsEmpty newCDP = false)
    (hc : db.cdpCache.writeFault = false)
    (hg : db.cdpGlobalDataCache.writeFault = false)
    (hr : db.cdpRatioSortedCache.writeFault = false) :
    ∃ db', UpdateCDP cfg db oldCDP newCDP = some (true, db') := by
  simp [UpdateCDP, hne, EraseCDPFromRatioDB, SaveCDPToRatioDB, KVCache.SetData,
    KVCache.EraseData, hc, hg, hr]

/-- C4 as amended: for `newCDP` not empty and of the same coin pair as
`oldCDP`, the call `UpdateCDP(oldCDP, newCDP)` succeeds when no sub-cache
reports a write fault, and after a successful call the primary cache maps the
id to `newCDP`, the aggregate of the coin pair equals, modulo `2^64`, the
previous one minus the amounts of `oldCDP` plus those of `newCDP` (the
subtraction and the addition are done in `uint64_t`; the equality is exact
whenever the amount of `oldCDP` is at most the previous total and the result is
below `2^64`), the ratio-sorted entry under `MakeCdpRatioSortedKey(newCDP)`
holds `newCDP`, and when the two keys differ the entry under
`MakeCdpRatioSortedKey(oldCDP)` is absent. -/
theorem UpdateCDP_net_effect (cfg : Config) (db : CCdpDBCache) (oldCDP newCDP : CUserCDP)
    (hne : cfg.cdpIsEmpty newCDP = false)
    (hpair : oldCDP.GetCoinPair = newCDP.GetCoinPair) :
    ((db.cdpCache.writeFault = false ∧ db.cdpGlobalDataCache.writeFault = false ∧
        db.cdpRatioSortedCache.writeFault = false) →
      ∃ db', UpdateCDP cfg db oldCDP newCDP = some (true, db')) ∧
    ∀ db', UpdateCDP cfg db oldCDP newCDP = some (true, db') →
      db'.GetCDP newCDP.cdpid = some newCDP ∧
      (db'.GetCdpGlobalData newCDP.GetCoinPair).total_staked_assets =
        (((db.GetCdpGlobalData newCDP.GetCoinPair).total_staked_assets + 2 ^ 64 -
            oldCDP.total_staked_bcoins % 2 ^ 64) % 2 ^ 64 + newCDP.total_staked_bcoins) % 2 ^ 64 ∧
      (db'.GetCdpGlobalData newCDP.GetCoinPair).total_owed_scoins =
        (((db.GetCdpGlobalData newCDP.GetCoinPair).total_owed_scoins + 2 ^ 64 -
            oldCDP.total_owed_scoins % 2 ^ 64) % 2 ^ 64 + newCDP.total_owed_scoins) % 2 ^ 64 ∧
      (oldCDP.total_staked_bcoins ≤ (db.GetCdpGlobalData newCDP.GetCoinPair).total_staked_assets →
        (db.GetCdpGlobalData newCDP.GetCoinPair).total_staked_assets < 2 ^ 64 →
        (db.GetCdpGlobalData newCDP.GetCoinPair).total_staked_assets -
          oldCDP.total_staked_bcoins + newCDP.total_staked_bcoins < 2 ^ 64 →
        (db'.GetCdpGlobalData newCDP.GetCoinPair).total_staked_assets =
          (db.GetCdpGlobalData newCDP.GetCoinPair).total_staked_assets -
            oldCDP.total_staked_bcoins + newCDP.total_staked_bcoins) ∧
      (oldCDP.total_owed_scoins ≤ (db.GetCdpGlobalData newCDP.GetCoinPair).total_owed_scoins →
        (db.GetCdpGlobalData newCDP.GetCoinPair).total_owed_scoins < 2 ^ 64 →
        (db.GetCdpGlobalData newCDP.GetCoinPair).total_owed_scoins -
          oldCDP.total_owed_scoins + newCDP.total_owed_scoins < 2 ^ 64 →
        (db'.GetCdpGlobalData newCDP.GetCoinPair).total_owed_scoins =
          (db.GetCdpGlobalData newCDP.GetCoinPair).total_owed_scoins -
            oldCDP.total_owed_scoins + newCDP.total_owed_scoins) ∧
      db'.cdpRatioSortedCache.GetData (MakeCdpRatioSortedKey cfg newCDP) = some newCDP ∧
      (MakeCdpRatioSortedKey cfg oldCDP ≠ MakeCdpRatioSortedKey cfg newCDP →
        db'.cdpRatioSortedCache.GetData (MakeCdpRatioSortedKey cfg oldCDP) = none) ∧
      (((db'.GetCdpGlobalData newCDP.GetCoinPair).total_staked_assets : Int) -
          (((db.GetCdpGlobalData newCDP.GetCoinPair).total_staked_assets : Int) -
            (oldCDP.total_staked_bcoins : Int) + (newCDP.total_staked_bcoins : Int)))
        % 2 ^ 64 = 0 ∧
      (((db'.GetCdpGlobalData newCDP.GetCoinPair).total_owed_scoins : Int) -
          (((db.GetCdpGlobalData newCDP.GetCoinPair).total_owed_scoins : Int) -
            (oldCDP.total_owed_scoins : Int) + (newCDP.total_owed_scoins : Int)))
        % 2 ^ 64 = 0 := by
  refine ⟨fun hf => updateCDP_succeeds cfg db oldCDP newCDP hne hf.1 hf.2.1 hf.2.2, ?_⟩
  intro db' hok
  obtain ⟨-, -, -, -, -, hC, ⟨mid, hM, hG⟩, hR⟩ := update_ok cfg db db' oldCDP newCDP hok
  have hs : (db'.GetCdpGlobalData newCDP.GetCoinPair).total_staked_assets =
      (((db.GetCdpGlobalData newCDP.GetCoinPair).total_staked_assets + 2 ^ 64 -
        oldCDP.total_staked_bcoins % 2 ^ 64) % 2 ^ 64 + newCDP.total_staked_bcoins) % 2 ^ 64 := by
    rw [hG, if_pos rfl, hM, if_pos hpair.symm]
  have ho : (db'.GetCdpGlobalData newCDP.GetCoinPair).total_owed_scoins =
      (((db.GetCdpGlobalData newCDP.GetCoinPair).total_owed_scoins + 2 ^ 64 -
        oldCDP.total_owed_scoins % 2 ^ 64) % 2 ^ 64 + newCDP.total_owed_scoins) % 2 ^ 64 := by
    rw [hG, if_pos rfl, hM, if_pos hpair.symm]
  refine ⟨?_, hs, ho, ?_, ?_, ?_, ?_, ?_, ?_⟩
  · unfold GetCDP; rw [hC]; simp
  · intro h1 h2 h3; rw [hs]; exact sub_add_u64 _ _ _ h1 h2 h3
  · intro h1 h2 h3; rw [ho]; exact sub_add_u64 _ _ _ h1 h2 h3
  · rw [hR]; simp
  · intro hk; rw [hR, if_neg hk, if_pos rfl]
  · rw [hs]; exact update_congr_u64 _ _ _
  · rw [ho]; exact update_congr_u64 _ _ _

/-- Witness for C4: `C1` (staked 100, owed 50, height 10) updated to staked 80,
owed 40 at height 11 gives the aggregate `(80, 40)`; the entry of height 10 is
gone and the entry of height 11 is present. -/
theorem UpdateCDP_net_effect_witness :
    UpdateCDP sampleConfig sampleDb1 sampleC1 sampleC1' = some (true, sampleDb2) ∧
    sampleDb2.GetCdpGlobalData ⟨"BTC", "USD"⟩ = ⟨80, 40⟩ ∧
    sampleDb2.GetCDP 1 = some sampleC1' ∧
    sampleDb2.cdpRatioSortedCache.GetData (MakeCdpRatioSortedKey sampleConfig sampleC1')
      = some sampleC1' ∧
    sampleDb2.cdpRatioSortedCache.GetData (MakeCdpRatioSortedKey sampleConfig sampleC1) = none := by
  have h := (UpdateCDP_net_effect sampleConfig sampleDb1 sampleC1 sampleC1'
    (by decide) (by decide)).2 sampleDb2 (by decide)
  exact ⟨by decide, by decide, h.1, h.2.2.2.2.2.1, h.2.2.2.2.2.2.1 (by decide)⟩

/-- C4 fails on the code as stated: after `NewCDP` of `C1` (staked 100, owed 50)
and of a CDP of another owner (staked 30, owed 15) the aggregate of (BTC, USD)
is `(130, 65)`; `UpdateCDP` of the live CDP `C1` to the staked amount
`2^64 - 1` succeeds, and the aggregate is then `(29, 65)`, while the previous
total minus the old amount plus the new one is `2^64 + 29`. -/
theorem UpdateCDP_aggregate_wraps :
    runOps sampleConfig true [.newCDP 10 sampleC1, .newCDP 10 sampleC4] Tracked.init
      = some ⟨sampleDb14, [2, 1]⟩ ∧
    sampleDb14.GetCDP 1 = some sampleC1 ∧
    sampleDb14.GetCdpGlobalData ⟨"BTC", "USD"⟩ = ⟨130, 65⟩ ∧
    sampleConfig.cdpIsEmpty sampleC1Huge = false ∧
    sampleC1Huge.cdpid = sampleC1.cdpid ∧ sampleC1Huge.GetCoinPair = sampleC1.GetCoinPair ∧
    sampleC1Huge.total_staked_bcoins = 2 ^ 64 - 1 ∧
    (UpdateCDP sampleConfig sampleDb14 sampleC1 sampleC1Huge).map
      (fun r => (r.1, r.2.GetCdpGlobalData ⟨"BTC", "USD"⟩)) = some (true, ⟨29, 65⟩) ∧
    (29 : Nat) ≠ 130 - 100 + (2 ^ 64 - 1) := by
  decide

/-- The part of C6 that holds: after a successful `EraseCDP(oldCDP, cdp)` the
primary record of `cdp.cdpid` is `cdp`, the owner-index entry of `cdp` is gone
(`UserHaveCdp` is false), the ratio-sorted entry under
`MakeCdpRatioSortedKey(oldCDP)` is gone, and, provided the aggregate sub-cache
accepted the write, the aggregate of the coin pair of `oldCDP` is lowered (in
`uint64_t`) by the amounts of `oldCDP`. -/
theorem EraseCDP_effect (cfg : Config) (db db' : CCdpDBCache) (oldCDP cdp : CUserCDP)
    (hok : EraseCDP cfg db oldCDP cdp = (true, db')) :
    db'.GetCDP cdp.cdpid = some cdp ∧
    db'.UserHaveCdp cdp.owner_regid cdp.bcoin_symbol cdp.scoin_symbol = false ∧
    db'.cdpRatioSortedCache.GetData (MakeCdpRatioSortedKey cfg oldCDP) = none ∧
    (db.cdpGlobalDataCache.writeFault = false →
      (db'.GetCdpGlobalData oldCDP.GetCoinPair).total_staked_assets =
        ((db.GetCdpGlobalData oldCDP.GetCoinPair).total_staked_assets + 2 ^ 64 -
          oldCDP.total_staked_bcoins % 2 ^ 64) % 2 ^ 64 ∧
      (db'.GetCdpGlobalData oldCDP.GetCoinPair).total_owed_scoins =
        ((db.GetCdpGlobalData oldCDP.GetCoinPair).total_owed_scoins + 2 ^ 64 -
          oldCDP.total_owed_scoins % 2 ^ 64) % 2 ^ 64) := by
  obtain ⟨-, -, hC, hU, hG, -, hR⟩ := eraseCDP_ok cfg db db' oldCDP cdp hok
  refine ⟨?_, ?_, ?_, ?_⟩
  · unfold GetCDP; rw [hC]; simp
  · unfold UserHaveCdp KVCache.HasData
    have : (⟨cdp.bcoin_symbol, cdp.scoin_symbol⟩ : CCdpCoinPair) = cdp.GetCoinPair := rfl
    rw [this, hU]; simp
  · rw [hR]; simp
  · intro hf; rw [hG hf]; simp

/-- C6 fails on the code: with an aggregate sub-cache that reports a write
fault, `EraseCDP(C1, C1)` returns success although the aggregate of (BTC, USD)
is still `(100, 50)`: `EraseCDPFromRatioDB` does not look at the result of the
aggregate write. -/
theorem EraseCDP_ignores_aggregate_write_fault :
    (EraseCDP sampleConfig sampleDbFaulty sampleC1 sampleC1).1 = true ∧
    sampleDbFaulty.GetCdpGlobalData ⟨"BTC", "USD"⟩ = ⟨100, 50⟩ ∧
    (EraseCDP sampleConfig sampleDbFaulty sampleC1 sampleC1).2.GetCdpGlobalData ⟨"BTC", "USD"⟩
      = ⟨100, 50⟩ ∧
    (SaveCDPToRatioDB sampleConfig sampleDbFaulty sampleC1).1 = false := by
  decide

end CCdpDBCache

/-! ## Double-precision arithmetic at known values -/

namespace Double

/-- The rounding at known values: `1 / 10` is `0x1999999999999A * 2^-56`;
`2^53 + 1` rounds down to `2^53` and `2^53 + 3` up to `2^53 + 4` (ties to the
even significand); `2^64 - 1` rounds to `2^64`; the least positive value is
`2^-1074` and half of it rounds to zero; twice the largest finite value is
infinite. -/
theorem round_samples :
    div (ofUInt 1) (ofUInt 10) = finite 7205759403792794 1018 ∧
    ofUInt (2 ^ 53 + 1) = finite (2 ^ 52) 1075 ∧
    ofUInt (2 ^ 53 + 3) = finite (2 ^ 52 + 2) 1075 ∧
    ofUInt (2 ^ 64 - 1) = finite (2 ^ 52) 1086 ∧
    round 1 (2 ^ 1074) = finite 1 0 ∧
    round 1 (2 ^ 1075) = finite 0 0 ∧
    mul (finite (2 ^ 53 - 1) 2045) (ofUInt 2) = inf ∧
    div (ofUInt 11300) (ofUInt 10000) = finite 5089067578928660 1022 := by
  refine ⟨by decide, by decide, by decide, by decide, by decide, by decide, by decide,
    by decide⟩

end Double

/-! ## Ratio key -/

namespace CCdpDBCache

theorem toUInt64_of_trunc (f : Double → Nat) (x : Double) (c : Nat)
    (h : x.trunc? = some c) (hc : c < 2 ^ 64) : Double.toUInt64 f x = c := by
  unfold Double.toUInt64
  rw [h]
  simp only [hc, if_true]

/-- Where the integer part of the product of the base ratio and the scale factor
fits 64 bits and is not below the base ratio, it is the ratio field of the
key. -/
theorem key_ratio_in_range (cfg : Config) (cdp : CUserCDP) (t : Nat)
    (ht : (Double.mul cdp.collateral_ratio_base
      (Double.ofUInt cfg.CDP_BASE_RATIO_BOOST)).trunc? = some t)
    (h64 : t < 2 ^ 64)
    (hge : Double.lt (Double.ofUInt t) cdp.collateral_ratio_base = false) :
    (MakeCdpRatioSortedKey cfg cdp).ratioBoosted = t := by
  unfold MakeCdpRatioSortedKey
  simp only []
  rw [toUInt64_of_trunc _ _ t ht h64, hge]
  rfl

/-- At the scale factor `10^8`: the base ratio `1.5` gives the ratio field
`150000000`; the base ratio `2 * 10^11`, whose product `2 * 10^19` is above
`2^64`, gives `UINT64_MAX` on the sample platform, where the conversion of the
product yields `0`. -/
theorem key_ratio_samples :
    (MakeCdpRatioSortedKey sampleConfig
      { sampleC1 with collateral_ratio_base := Double.div (Double.ofUInt 3) (Double.ofUInt 2) }
      ).ratioBoosted = 150000000 ∧
    (Double.mul (Double.ofUInt 200000000000)
      (Double.ofUInt sampleConfig.CDP_BASE_RATIO_BOOST)).trunc? = some (2 * 10 ^ 19) ∧
    (MakeCdpRatioSortedKey sampleConfig
      { sampleC1 with collateral_ratio_base := Double.ofUInt 200000000000 }
      ).ratioBoosted = UINT64_MAX := by
  refine ⟨by decide, by decide, by decide⟩

/-- C3 fails on the code: the test `boostedRatio < cdp.collateral_ratio_base`
also holds where nothing overflows.  For every CDP whose base ratio is above
zero and whose product with the scale factor is below one (integer part `0`),
the ratio field of the key is `UINT64_MAX`. -/
theorem MakeCdpRatioSortedKey_clamps_without_overflow (cfg : Config) (cdp : CUserCDP)
    (hpos : Double.lt (Double.ofUInt 0) cdp.collateral_ratio_base = true)
    (hsmall : (Double.mul cdp.collateral_ratio_base
      (Double.ofUInt cfg.CDP_BASE_RATIO_BOOST)).trunc? = some 0) :
    (MakeCdpRatioSortedKey cfg cdp).ratioBoosted = UINT64_MAX := by
  unfold MakeCdpRatioSortedKey
  simp only []
  rw [toUInt64_of_trunc _ _ 0 hsmall (by norm_num), if_pos hpos]

/-- Witness for C3 at the scale factor `10^8`: the CDP staking 1 and owing
`10^9`, of base ratio `1 / 10^9`, gets the ratio field `UINT64_MAX` although the
product `0.1` does not overflow, while `C1`, of the larger base ratio `2`, gets
the smaller ratio field `2 * 10^8`: the ratio field is not monotone in the base
ratio. -/
theorem MakeCdpRatioSortedKey_clamps_without_overflow_witness :
    (MakeCdpRatioSortedKey sampleConfig sampleThinCdp).ratioBoosted = UINT64_MAX ∧
    (Double.mul sampleThinCdp.collateral_ratio_base
      (Double.ofUInt sampleConfig.CDP_BASE_RATIO_BOOST)).trunc? = some 0 ∧
    Double.lt sampleThinCdp.collateral_ratio_base sampleC1.collateral_ratio_base = true ∧
    (MakeCdpRatioSortedKey sampleConfig sampleC1).ratioBoosted = 200000000 ∧
    (MakeCdpRatioSortedKey sampleConfig sampleC1).ratioBoosted
      < (MakeCdpRatioSortedKey sampleConfig sampleThinCdp).ratioBoosted :=
  ⟨MakeCdpRatioSortedKey_clamps_without_overflow sampleConfig sampleThinCdp
      (by decide) (by decide),
   by decide, by decide, by decide, by decide⟩

end CCdpDBCache

/-! ## The asset cache -/

namespace CAssetDbCache

/-- C9: `CheckAsset(symbol, requiredPerms)` returns true exactly when the
length of the symbol is between 3 and `MAX_TOKEN_SYMBOL_LEN` inclusive and
either the symbol is in the hard-coded base-coin set or an asset is stored
under the symbol whose bit-set has all of `requiredPerms`; a symbol shorter
than 3 or longer than the maximum is rejected whatever the store and the
hard-coded set contain. -/
theorem CheckAsset_characterisation (cfg : Config) (db : CAssetDbCache) (symbol : TokenSymbol)
    (permsSum : Nat) :
    (CheckAsset cfg db symbol permsSum = true ↔
      (3 ≤ symbol.utf8ByteSize ∧ symbol.utf8ByteSize ≤ cfg.MAX_TOKEN_SYMBOL_LEN) ∧
      (symbol ∈ cfg.kCoinTypeSet ∨
        ∃ asset, db.GetAsset symbol = some asset ∧ asset.HasPerms permsSum = true)) ∧
    ((symbol.utf8ByteSize < 3 ∨ cfg.MAX_TOKEN_SYMBOL_LEN < symbol.utf8ByteSize) →
      CheckAsset cfg db symbol permsSum = false) := by
  constructor
  · unfold CheckAsset
    by_cases hlen : symbol.utf8ByteSize < 3 ∨ symbol.utf8ByteSize > cfg.MAX_TOKEN_SYMBOL_LEN
    · rw [if_pos hlen]
      constructor
      · intro h; cases h
      · rintro ⟨⟨h1, h2⟩, -⟩
        rcases hlen with h | h <;> omega
    · rw [if_neg hlen]
      have hl : 3 ≤ symbol.utf8ByteSize ∧ symbol.utf8ByteSize ≤ cfg.MAX_TOKEN_SYMBOL_LEN := by
        constructor <;> by_contra hc <;> exact hlen (by omega)
      by_cases hm : symbol ∈ cfg.kCoinTypeSet
      · rw [if_pos hm]
        exact ⟨fun _ => ⟨hl, Or.inl hm⟩, fun _ => rfl⟩
      · rw [if_neg hm]
        cases hg : db.GetAsset symbol with
        | none =>
          constructor
          · intro h; cases h
          · rintro ⟨-, h | ⟨a, ha, -⟩⟩
            · exact absurd h hm
            · cases ha
        | some asset =>
          constructor
          · intro h; exact ⟨hl, Or.inr ⟨asset, rfl, h⟩⟩
          · rintro ⟨-, h | ⟨a, ha, hp⟩⟩
            · exact absurd h hm
            · cases ha; exact hp
  · intro h
    unfold CheckAsset
    rw [if_pos]
    rcases h with h | h
    · exact Or.inl h
    · exact Or.inr h

/-- Witness for C9: the symbol `X` (length 1) is rejected. -/
theorem CheckAsset_characterisation_witness :
    "X".utf8ByteSize = 1 ∧ CheckAsset sampleConfig sampleAssetDb "X" 0 = false :=
  ⟨by decide,
   (CheckAsset_characterisation sampleConfig sampleAssetDb "X" 0).2 (Or.inl (by decide))⟩


/-- What a successful run of the loop of `SetAssetPerms` has written. -/
theorem setPermsLoop_ok (oldAsset newAsset : CAsset) (items : List (Nat × String)) :
    ∀ (db db' : CAssetDbCache), setPermsLoop oldAsset newAsset items db = (true, db') →
      db'.assetCache = db.assetCache ∧
      db'.perm_assets_cache.writeFault = db.perm_assets_cache.writeFault ∧
      ∀ (p : Nat) (s : TokenSymbol), db'.perm_assets_cache.GetData (p, s) =
        if s = newAsset.asset_symbol ∧ p ∈ items.map Prod.fst ∧
            oldAsset.HasPerms p ≠ newAsset.HasPerms p then
          some (if newAsset.HasPerms p then AssetPermStatus.ENABLED else AssetPermStatus.DISABLED)
        else db.perm_assets_cache.GetData (p, s) := by
  induction items with
  | nil =>
    intro db db' h
    simp only [setPermsLoop, Prod.mk.injEq, true_and] at h
    subst h
    simp
  | cons item rest ih =>
    intro db db' h
    unfold setPermsLoop at h
    by_cases hd : oldAsset.HasPerms item.1 ≠ newAsset.HasPerms item.1
    · simp only [hd, if_true, ne_eq, not_false_eq_true] at h
      by_cases hf : db.perm_assets_cache.writeFault = true
      · simp [KVCache.SetData, hf] at h
      rw [Bool.not_eq_true] at hf
      simp only [KVCache.setData_fst, hf, Bool.not_false, Bool.not_true, if_false,
        Bool.false_eq_true] at h
      obtain ⟨e1, e2, e3⟩ := ih _ db' h
      refine ⟨e1, ?_, ?_⟩
      · rw [e2]; simp [KVCache.setData_writeFault]
      · intro p s
        rw [e3 p s]
        simp only [KVCache.getData_setData _ _ _ _ hf, List.map_cons, List.mem_cons,
          Prod.mk.injEq]
        by_cases hs : s = newAsset.asset_symbol
        · by_cases hp : p = item.1
          · rw [hp]
            by_cases hr : item.1 ∈ rest.map Prod.fst
            · simp only [hs, hr, hd, true_and, true_or, and_true, ne_eq, not_false_eq_true,
                if_true]
            · simp only [hs, hr, hd, true_and, or_false, and_true, ne_eq, not_false_eq_true,
                if_true, false_and, and_false, if_false, and_self]
          · simp only [hs, hp, false_or, and_false, if_false, false_and, true_and]
        · simp only [hs, false_and, and_false, if_false]
    · simp only [hd, if_false] at h
      obtain ⟨e1, e2, e3⟩ := ih db db' h
      refine ⟨e1, e2, ?_⟩
      intro p s
      rw [e3 p s]
      simp only [List.map_cons, List.mem_cons]
      by_cases hp : p = item.1
      · rw [hp]
        have hd' : ¬ (oldAsset.HasPerms item.1 ≠ newAsset.HasPerms item.1) := hd
        simp only [hd', and_false, if_false]
      · simp only [hp, false_or]

theorem setPermsLoop_succeeds (oldAsset newAsset : CAsset) (items : List (Nat × String)) :
    ∀ (db : CAssetDbCache), db.perm_assets_cache.writeFault = false →
      ∃ db', setPermsLoop oldAsset newAsset items db = (true, db') := by
  induction items with
  | nil => intro db _; exact ⟨db, rfl⟩
  | cons item rest ih =>
    intro db hf
    unfold setPermsLoop
    by_cases hd : oldAsset.HasPerms item.1 ≠ newAsset.HasPerms item.1
    · simp only [hd, if_true, ne_eq, not_false_eq_true, KVCache.setData_fst, hf, Bool.not_false,
        Bool.not_true, if_false, Bool.false_eq_true]
      apply ih
      simp [KVCache.setData_writeFault, hf]
    · simp only [hd, if_false]
      exact ih db hf

/-- C10: `SetAssetPerms(old, new)` succeeds when the permission index accepts
writes, and after a successful call the permission index is the previous one
updated, for each flag `p` of the permission-title map whose `HasPerms` value
differs between `old` and `new`, at key `(p, new.asset_symbol)` to `ENABLED` if
`new` has `p` and `DISABLED` otherwise; every other entry (flags whose value did
not change, other symbols) reads as before, the asset store is untouched, and
when `old` and `new` have the same `perms_sum` the state is unchanged. -/
theorem SetAssetPerms_writes_changed_flags (cfg : Config) (db : CAssetDbCache)
    (oldAsset newAsset : CAsset) :
    (db.perm_assets_cache.writeFault = false →
      ∃ db', SetAssetPerms cfg db oldAsset newAsset = (true, db')) ∧
    ∀ db', SetAssetPerms cfg db oldAsset newAsset = (true, db') →
      db'.assetCache = db.assetCache ∧
      (∀ (p : Nat) (s : TokenSymbol), db'.perm_assets_cache.GetData (p, s) =
        if s = newAsset.asset_symbol ∧ p ∈ cfg.kAssetPermTitleMap.map Prod.fst ∧
            oldAsset.HasPerms p ≠ newAsset.HasPerms p then
          some (if newAsset.HasPerms p then AssetPermStatus.ENABLED else AssetPermStatus.DISABLED)
        else db.perm_assets_cache.GetData (p, s)) ∧
      (oldAsset.perms_sum = newAsset.perms_sum → db' = db) := by
  constructor
  · intro hf
    unfold SetAssetPerms
    by_cases hs : oldAsset.perms_sum ≠ newAsset.perms_sum
    · rw [if_pos hs]; exact setPermsLoop_succeeds _ _ _ db hf
    · rw [if_neg hs]; exact ⟨db, rfl⟩
  · intro db' h
    unfold SetAssetPerms at h
    by_cases hs : oldAsset.perms_sum ≠ newAsset.perms_sum
    · rw [if_pos hs] at h
      obtain ⟨e1, -, e3⟩ := setPermsLoop_ok _ _ _ db db' h
      exact ⟨e1, e3, fun he => absurd he hs⟩
    · rw [if_neg hs] at h
      have hs' : oldAsset.perms_sum = newAsset.perms_sum := by
        by_contra hc; exact hs hc
      have hdb : db' = db := by
        simp only [Prod.mk.injEq, true_and] at h; exact h.symm
      subst hdb
      refine ⟨rfl, ?_, fun _ => rfl⟩
      intro p s
      have : oldAsset.HasPerms p = newAsset.HasPerms p := by
        unfold CAsset.HasPerms; rw [hs']
      simp [this]

/-- Witness for C10: turning bit `1` off and bit `2` on for `ABC` writes
`DISABLED` at `(1, ABC)` and `ENABLED` at `(2, ABC)` and nothing at `(4, ABC)`. -/
theorem SetAssetPerms_writes_changed_flags_witness :
    (SetAssetPerms sampleConfig sampleAssetDb ⟨"ABC", 5⟩ ⟨"ABC", 6⟩).1 = true ∧
    (SetAssetPerms sampleConfig sampleAssetDb ⟨"ABC", 5⟩ ⟨"ABC", 6⟩).2.perm_assets_cache.GetData
      (1, "ABC") = some AssetPermStatus.DISABLED ∧
    (SetAssetPerms sampleConfig sampleAssetDb ⟨"ABC", 5⟩ ⟨"ABC", 6⟩).2.perm_assets_cache.GetData
      (2, "ABC") = some AssetPermStatus.ENABLED ∧
    (SetAssetPerms sampleConfig sampleAssetDb ⟨"ABC", 5⟩ ⟨"ABC", 6⟩).2.perm_assets_cache.GetData
      (4, "ABC") = none := by
  have h := (SetAssetPerms_writes_changed_flags sampleConfig sampleAssetDb ⟨"ABC", 5⟩
    ⟨"ABC", 6⟩).2 (SetAssetPerms sampleConfig sampleAssetDb ⟨"ABC", 5⟩ ⟨"ABC", 6⟩).2 (by decide)
  exact ⟨by decide, by rw [h.2.1]; decide, by rw [h.2.1]; decide, by rw [h.2.1]; decide⟩

end CAssetDbCache

/-! ## Liquidation scan -/

namespace CCdpDBCache

end CCdpDBCache

/-! ## Call sequences -/

namespace CCdpDBCache

theorem sum_liveRecords (db : CCdpDBCache) (p : CCdpCoinPair) (f : CUserCDP → Nat)
    (l : List Nat) :
    ((l.filterMap (fun id =>
        match db.cdpCache.GetData id with
        | some c => if c.GetCoinPair = p then some c else none
        | none => none)).map f).sum = (l.map (contribution db p f)).sum := by
  induction l with
  | nil => rfl
  | cons id rest ih =>
    rw [List.filterMap_cons, List.map_cons, List.sum_cons, ← ih]
    unfold contribution
    cases hg : db.cdpCache.GetData id with
    | none => simp
    | some c =>
      by_cases hp : c.GetCoinPair = p
      · simp [hp]
      · simp [hp]

theorem sumStaked_eq (t : Tracked) (p : CCdpCoinPair) :
    sumStaked t p = (t.live.map (contribution t.db p (fun c => c.total_staked_bcoins))).sum :=
  sum_liveRecords t.db p _ t.live

theorem sumOwed_eq (t : Tracked) (p : CCdpCoinPair) :
    sumOwed t p = (t.live.map (contribution t.db p (fun c => c.total_owed_scoins))).sum :=
  sum_liveRecords t.db p _ t.live

theorem contribution_congr (db db' : CCdpDBCache) (p : CCdpCoinPair) (f : CUserCDP → Nat)
    (id : Nat) (h : db'.cdpCache.GetData id = db.cdpCache.GetData id) :
    contribution db' p f id = contribution db p f id := by
  unfold contribution; rw [h]

theorem key_cdpid (cfg : Config) (c : CUserCDP) : (MakeCdpRatioSortedKey cfg c).cdpid = c.cdpid :=
  rfl

theorem key_ne_of_cdpid_ne (cfg : Config) (c c' : CUserCDP) (h : c.cdpid ≠ c'.cdpid) :
    MakeCdpRatioSortedKey cfg c ≠ MakeCdpRatioSortedKey cfg c' := by
  intro e
  apply h
  rw [← key_cdpid cfg c, ← key_cdpid cfg c', e]

theorem add_mod_u64 (S x : Nat) : (S % 2 ^ 64 + x) % 2 ^ 64 = (x + S) % 2 ^ 64 := by
  omega

theorem sub_mod_u64 (rest o : Nat) :
    ((o + rest) % 2 ^ 64 + 2 ^ 64 - o % 2 ^ 64) % 2 ^ 64 = rest % 2 ^ 64 := by
  omega

theorem coherent_init (cfg : Config) : IndexCoherent cfg Tracked.init where
  nodup := List.nodup_nil
  ids := by intro id c h; cases h
  stored := by intro id h; cases h
  ratioOnly := by intro k v h; cases h
  keys := List.nodup_nil

theorem consistent_init (cfg : Config) : Consistent cfg Tracked.init where
  index := coherent_init cfg
  gfault := rfl
  staked := by intro p; rfl
  owed := by intro p; rfl

theorem not_live_of_no_record (cfg : Config) (t : Tracked) (hI : IndexCoherent cfg t) (id : Nat)
    (h : t.db.cdpCache.HasData id = false) : id ∉ t.live := by
  intro hm
  obtain ⟨c, hc, -⟩ := hI.stored id hm
  unfold KVCache.HasData at h
  rw [hc] at h
  cases h

theorem coherent_new (cfg : Config) (t : Tracked) (hI : IndexCoherent cfg t) (bh : Int)
    (cdp : CUserCDP) (db' : CCdpDBCache) (hok : NewCDP cfg t.db bh cdp = some (true, db')) :
    IndexCoherent cfg ⟨db', cdp.cdpid :: t.live⟩ := by
  obtain ⟨hpre, -, -, -, hC, -, -, hR⟩ := new_ok cfg t.db db' bh cdp hok
  have hnl : cdp.cdpid ∉ t.live := not_live_of_no_record cfg t hI _ hpre
  have hne : ∀ id c, t.db.cdpCache.GetData id = some c → id ≠ cdp.cdpid := by
    intro id c hc e
    unfold KVCache.HasData at hpre
    rw [← e, hc] at hpre
    cases hpre
  refine ⟨List.nodup_cons.mpr ⟨hnl, hI.nodup⟩, ?_, ?_, ?_, ?_⟩
  · intro id c hc
    rw [hC] at hc
    by_cases hid : id = cdp.cdpid
    · rw [if_pos hid] at hc; cases hc; exact hid.symm
    · rw [if_neg hid] at hc; exact hI.ids id c hc
  · intro id hm
    rcases List.mem_cons.mp hm with h | h
    · subst h
      exact ⟨cdp, by rw [hC, if_pos rfl], by rw [hR, if_pos rfl]⟩
    · obtain ⟨c, hc, hr⟩ := hI.stored id h
      refine ⟨c, by rw [hC, if_neg (hne id c hc)]; exact hc, ?_⟩
      rw [hR, if_neg, hr]
      apply key_ne_of_cdpid_ne
      rw [hI.ids id c hc]; exact hne id c hc
  · intro k v hk
    rw [hR] at hk
    by_cases hkey : k = MakeCdpRatioSortedKey cfg cdp
    · rw [if_pos hkey] at hk
      cases hk
      subst hkey
      exact ⟨by rw [hC, if_pos (key_cdpid cfg cdp)], rfl⟩
    · rw [if_neg hkey] at hk
      obtain ⟨h2, h3⟩ := hI.ratioOnly k v hk
      exact ⟨by rw [hC, if_neg (hne _ v h2)]; exact h2, h3⟩
  · change (db'.cdpRatioSortedCache.entries.map Prod.fst).Nodup
    rw [new_entries cfg t.db db' bh cdp hok]
    exact KVCache.keys_nodup_set _ _ _ hI.keys

theorem coherent_erase (cfg : Config) (t : Tracked) (hI : IndexCoherent cfg t)
    (oldCDP cdp : CUserCDP) (db' : CCdpDBCache)
    (hs : t.db.cdpCache.GetData cdp.cdpid = some oldCDP)
    (hok : EraseCDP cfg t.db oldCDP cdp = (true, db')) :
    IndexCoherent cfg ⟨db', t.live.erase cdp.cdpid⟩ := by
  obtain ⟨-, -, hC, -, -, -, hR⟩ := eraseCDP_ok cfg t.db db' oldCDP cdp hok
  have hoid : oldCDP.cdpid = cdp.cdpid := hI.ids _ _ hs
  have hCne : ∀ i, i ≠ cdp.cdpid → db'.cdpCache.GetData i = t.db.cdpCache.GetData i := by
    intro i hi; rw [hC, if_neg hi]
  refine ⟨hI.nodup.erase _, ?_, ?_, ?_, ?_⟩
  · intro id c hc
    rw [hC] at hc
    by_cases hid : id = cdp.cdpid
    · rw [if_pos hid] at hc; cases hc; exact hid.symm
    · rw [if_neg hid] at hc; exact hI.ids id c hc
  · intro id hid
    obtain ⟨hne, hl⟩ := (List.Nodup.mem_erase_iff hI.nodup).mp hid
    obtain ⟨c, hc, hr⟩ := hI.stored id hl
    refine ⟨c, by rw [hCne id hne]; exact hc, ?_⟩
    rw [hR, if_neg, hr]
    apply key_ne_of_cdpid_ne
    rw [hI.ids id c hc, hoid]; exact hne
  · intro k v hk
    rw [hR] at hk
    by_cases hkey : k = MakeCdpRatioSortedKey cfg oldCDP
    · rw [if_pos hkey] at hk; cases hk
    · rw [if_neg hkey] at hk
      obtain ⟨h2, h3⟩ := hI.ratioOnly k v hk
      have hne : k.cdpid ≠ cdp.cdpid := by
        intro e
        rw [e, hs] at h2
        cases h2
        exact hkey h3
      exact ⟨by rw [hCne _ hne]; exact h2, h3⟩
  · change (db'.cdpRatioSortedCache.entries.map Prod.fst).Nodup
    rw [eraseCDP_entries cfg t.db db' oldCDP cdp hok]
    exact KVCache.keys_nodup_remove _ _ hI.keys

theorem coherent_update (cfg : Config) (t : Tracked) (hI : IndexCoherent cfg t)
    (oldCDP newCDP : CUserCDP) (db' : CCdpDBCache)
    (hs : t.db.cdpCache.GetData newCDP.cdpid = some oldCDP)
    (hok : UpdateCDP cfg t.db oldCDP newCDP = some (true, db')) :
    IndexCoherent cfg ⟨db', t.live⟩ := by
  obtain ⟨-, -, -, -, -, hC, -, hR⟩ := update_ok cfg t.db db' oldCDP newCDP hok
  have hoid : oldCDP.cdpid = newCDP.cdpid := hI.ids _ _ hs
  have hCne : ∀ i, i ≠ newCDP.cdpid → db'.cdpCache.GetData i = t.db.cdpCache.GetData i := by
    intro i hi; rw [hC, if_neg hi]
  have hCeq : db'.cdpCache.GetData newCDP.cdpid = some newCDP := by rw [hC, if_pos rfl]
  refine ⟨hI.nodup, ?_, ?_, ?_, ?_⟩
  · intro id c hc
    rw [hC] at hc
    by_cases hid : id = newCDP.cdpid
    · rw [if_pos hid] at hc; cases hc; exact hid.symm
    · rw [if_neg hid] at hc; exact hI.ids id c hc
  · intro id hid
    by_cases hne : id = newCDP.cdpid
    · subst hne
      exact ⟨newCDP, hCeq, by rw [hR, if_pos rfl]⟩
    · obtain ⟨c, hc, hr⟩ := hI.stored id hid
      refine ⟨c, by rw [hCne id hne]; exact hc, ?_⟩
      rw [hR, if_neg, if_neg, hr]
      · apply key_ne_of_cdpid_ne
        rw [hI.ids id c hc, hoid]; exact hne
      · apply key_ne_of_cdpid_ne
        rw [hI.ids id c hc]; exact hne
  · intro k v hk
    rw [hR] at hk
    by_cases hkey : k = MakeCdpRatioSortedKey cfg newCDP
    · rw [if_pos hkey] at hk
      cases hk
      subst hkey
      exact ⟨hCeq, rfl⟩
    · rw [if_neg hkey] at hk
      by_cases hkey2 : k = MakeCdpRatioSortedKey cfg oldCDP
      · rw [if_pos hkey2] at hk; cases hk
      · rw [if_neg hkey2] at hk
        obtain ⟨h2, h3⟩ := hI.ratioOnly k v hk
        have hne : k.cdpid ≠ newCDP.cdpid := by
          intro e
          rw [e, hs] at h2
          cases h2
          exact hkey2 h3
        exact ⟨by rw [hCne _ hne]; exact h2, h3⟩
  · change (db'.cdpRatioSortedCache.entries.map Prod.fst).Nodup
    rw [update_entries cfg t.db db' oldCDP newCDP hok]
    exact KVCache.keys_nodup_set _ _ _ (KVCache.keys_nodup_remove _ _ hI.keys)

theorem sum_split_live (t : Tracked) (id : Nat)
    (hm : id ∈ t.live) (c : CUserCDP) (hs : t.db.cdpCache.GetData id = some c)
    (p : CCdpCoinPair) (f : CUserCDP → Nat) :
    (t.live.map (contribution t.db p f)).sum =
      (if p = c.GetCoinPair then f c else 0) +
        ((t.live.erase id).map (contribution t.db p f)).sum := by
  rw [← List.sum_map_erase (contribution t.db p f) hm]
  congr 1
  unfold contribution
  rw [hs]
  by_cases hp : p = c.GetCoinPair
  · simp [hp]
  · have hp' : ¬ c.GetCoinPair = p := fun e => hp e.symm
    simp [hp, hp']

theorem sum_rest_congr (t : Tracked) (hn : t.live.Nodup) (id : Nat) (db' : CCdpDBCache)
    (hC : ∀ i, i ≠ id → db'.cdpCache.GetData i = t.db.cdpCache.GetData i)
    (p : CCdpCoinPair) (f : CUserCDP → Nat) :
    ((t.live.erase id).map (contribution db' p f)).sum =
      ((t.live.erase id).map (contribution t.db p f)).sum := by
  congr 1
  apply List.map_congr_left
  intro i hi
  apply contribution_congr
  exact hC i ((List.Nodup.mem_erase_iff hn).mp hi).1

theorem update_mod_u64 (o n rest g mid g' : Nat) (a b : Prop) [Decidable a] [Decidable b]
    (hg : g = ((if a then o else 0) + rest) % 2 ^ 64)
    (hmid : mid = if a then (g + 2 ^ 64 - o % 2 ^ 64) % 2 ^ 64 else g)
    (hg' : g' = if b then (mid + n) % 2 ^ 64 else mid) :
    g' = ((if b then n else 0) + rest) % 2 ^ 64 := by
  by_cases ha : a <;> by_cases hb : b <;>
    simp only [ha, hb, if_true, if_false, Nat.zero_add] at hg hmid hg' ⊢ <;> omega

theorem consistent_new (cfg : Config) (t : Tracked) (hI : Consistent cfg t) (bh : Int)
    (cdp : CUserCDP) (db' : CCdpDBCache) (hok : NewCDP cfg t.db bh cdp = some (true, db')) :
    Consistent cfg ⟨db', cdp.cdpid :: t.live⟩ := by
  obtain ⟨hpre, -, ⟨hg', -, -, -⟩, -, hC, -, hG, -⟩ := new_ok cfg t.db db' bh cdp hok
  have hnl : cdp.cdpid ∉ t.live := not_live_of_no_record cfg t hI.index _ hpre
  have hne : ∀ id ∈ t.live, id ≠ cdp.cdpid := fun id hm e => hnl (e ▸ hm)
  have hsum : ∀ (p : CCdpCoinPair) (f : CUserCDP → Nat),
      ((cdp.cdpid :: t.live).map (contribution db' p f)).sum =
        (if p = cdp.GetCoinPair then f cdp else 0) + (t.live.map (contribution t.db p f)).sum := by
    intro p f
    rw [List.map_cons, List.sum_cons]
    congr 1
    · unfold contribution
      rw [hC, if_pos rfl]
      by_cases hp : p = cdp.GetCoinPair
      · simp [hp]
      · have hp' : ¬ cdp.GetCoinPair = p := fun e => hp e.symm
        simp [hp, hp']
    · congr 1
      apply List.map_congr_left
      intro id hm
      apply contribution_congr
      rw [hC, if_neg (hne id hm)]
  refine ⟨coherent_new cfg t hI.index bh cdp db' hok, hg', ?_, ?_⟩
  · intro p
    rw [hsum, hG]
    by_cases hp : p = cdp.GetCoinPair
    · simp only [hp, if_true]
      rw [hI.staked]
      exact add_mod_u64 _ _
    · simp only [hp, if_false, Nat.zero_add]
      exact hI.staked p
  · intro p
    rw [hsum, hG]
    by_cases hp : p = cdp.GetCoinPair
    · simp only [hp, if_true]
      rw [hI.owed]
      exact add_mod_u64 _ _
    · simp only [hp, if_false, Nat.zero_add]
      exact hI.owed p

theorem consistent_erase (cfg : Config) (t : Tracked) (hI : Consistent cfg t)
    (oldCDP cdp : CUserCDP) (db' : CCdpDBCache) (hm : cdp.cdpid ∈ t.live)
    (hs : t.db.cdpCache.GetData cdp.cdpid = some oldCDP)
    (hok : EraseCDP cfg t.db oldCDP cdp = (true, db')) :
    Consistent cfg ⟨db', t.live.erase cdp.cdpid⟩ := by
  obtain ⟨⟨hgf, -, -, -⟩, -, hC, -, hG, -, -⟩ := eraseCDP_ok cfg t.db db' oldCDP cdp hok
  have hG := hG hI.gfault
  have hCne : ∀ i, i ≠ cdp.cdpid → db'.cdpCache.GetData i = t.db.cdpCache.GetData i := by
    intro i hi; rw [hC, if_neg hi]
  have hsum : ∀ (p : CCdpCoinPair) (f : CUserCDP → Nat),
      (t.live.map (contribution t.db p f)).sum =
        (if p = oldCDP.GetCoinPair then f oldCDP else 0) +
          ((t.live.erase cdp.cdpid).map (contribution db' p f)).sum := by
    intro p f
    rw [sum_rest_congr t hI.index.nodup cdp.cdpid db' hCne p f]
    exact sum_split_live t _ hm oldCDP hs p f
  refine ⟨coherent_erase cfg t hI.index oldCDP cdp db' hs hok, by rw [hgf]; exact hI.gfault,
    ?_, ?_⟩
  · intro p
    have h1 := hI.staked p
    rw [hsum p] at h1
    rw [hG]
    by_cases hp : p = oldCDP.GetCoinPair
    · simp only [hp, if_true] at h1 ⊢
      rw [h1]
      exact sub_mod_u64 _ _
    · simp only [hp, if_false, Nat.zero_add] at h1 ⊢
      exact h1
  · intro p
    have h1 := hI.owed p
    rw [hsum p] at h1
    rw [hG]
    by_cases hp : p = oldCDP.GetCoinPair
    · simp only [hp, if_true] at h1 ⊢
      rw [h1]
      exact sub_mod_u64 _ _
    · simp only [hp, if_false, Nat.zero_add] at h1 ⊢
      exact h1

theorem consistent_update (cfg : Config) (t : Tracked) (hI : Consistent cfg t)
    (oldCDP newCDP : CUserCDP) (db' : CCdpDBCache) (hm : newCDP.cdpid ∈ t.live)
    (hs : t.db.cdpCache.GetData newCDP.cdpid = some oldCDP)
    (hok : UpdateCDP cfg t.db oldCDP newCDP = some (true, db')) :
    Consistent cfg ⟨db', t.live⟩ := by
  obtain ⟨-, -, ⟨hg', -, -⟩, -, -, hC, ⟨mid, hM, hG⟩, -⟩ :=
    update_ok cfg t.db db' oldCDP newCDP hok
  have hCne : ∀ i, i ≠ newCDP.cdpid → db'.cdpCache.GetData i = t.db.cdpCache.GetData i := by
    intro i hi; rw [hC, if_neg hi]
  have hCeq : db'.cdpCache.GetData newCDP.cdpid = some newCDP := by rw [hC, if_pos rfl]
  have hsumOld : ∀ (p : CCdpCoinPair) (f : CUserCDP → Nat),
      (t.live.map (contribution t.db p f)).sum =
        (if p = oldCDP.GetCoinPair then f oldCDP else 0) +
          ((t.live.erase newCDP.cdpid).map (contribution t.db p f)).sum :=
    fun p f => sum_split_live t _ hm oldCDP hs p f
  have hsumNew : ∀ (p : CCdpCoinPair) (f : CUserCDP → Nat),
      (t.live.map (contribution db' p f)).sum =
        (if p = newCDP.GetCoinPair then f newCDP else 0) +
          ((t.live.erase newCDP.cdpid).map (contribution t.db p f)).sum := by
    intro p f
    rw [← sum_rest_congr t hI.index.nodup newCDP.cdpid db' hCne p f]
    exact sum_split_live ⟨db', t.live⟩ _ hm newCDP hCeq p f
  refine ⟨coherent_update cfg t hI.index oldCDP newCDP db' hs hok, hg', ?_, ?_⟩
  · intro p
    change (db'.GetCdpGlobalData p).total_staked_assets = _
    rw [hsumNew p]
    apply update_mod_u64 oldCDP.total_staked_bcoins newCDP.total_staked_bcoins _
      (t.db.GetCdpGlobalData p).total_staked_assets (mid.GetCdpGlobalData p).total_staked_assets
      _ (p = oldCDP.GetCoinPair) (p = newCDP.GetCoinPair)
    · rw [hI.staked p, hsumOld p]
    · rw [hM p]; split <;> rfl
    · rw [hG p]; split <;> rfl
  · intro p
    change (db'.GetCdpGlobalData p).total_owed_scoins = _
    rw [hsumNew p]
    apply update_mod_u64 oldCDP.total_owed_scoins newCDP.total_owed_scoins _
      (t.db.GetCdpGlobalData p).total_owed_scoins (mid.GetCdpGlobalData p).total_owed_scoins
      _ (p = oldCDP.GetCoinPair) (p = newCDP.GetCoinPair)
    · rw [hI.owed p, hsumOld p]
    · rw [hM p]; split <;> rfl
    · rw [hG p]; split <;> rfl

/-- What a successful step was: the call, its precondition and its result. -/
theorem stepOp_cases (cfg : Config) (liveOnly : Bool) (t t' : Tracked) (op : CdpOp)
    (h : stepOp cfg liveOnly t op = some t') :
    (∃ bh cdp db', op = .newCDP bh cdp ∧ NewCDP cfg t.db bh cdp = some (true, db') ∧
      t' = ⟨db', cdp.cdpid :: t.live⟩) ∨
    (∃ oldCDP cdp db', op = .eraseCDP oldCDP cdp ∧ (liveOnly = true → cdp.cdpid ∈ t.live) ∧
      t.db.cdpCache.GetData cdp.cdpid = some oldCDP ∧
      EraseCDP cfg t.db oldCDP cdp = (true, db') ∧ t' = ⟨db', t.live.erase cdp.cdpid⟩) ∨
    (∃ oldCDP newCDP db', op = .updateCDP oldCDP newCDP ∧
      (liveOnly = true → newCDP.cdpid ∈ t.live) ∧
      t.db.cdpCache.GetData newCDP.cdpid = some oldCDP ∧
      UpdateCDP cfg t.db oldCDP newCDP = some (true, db') ∧ t' = ⟨db', t.live⟩) := by
  cases op with
  | newCDP bh cdp =>
    simp only [stepOp] at h
    cases hn : NewCDP cfg t.db bh cdp with
    | none => simp [hn] at h
    | some r =>
      obtain ⟨b, db'⟩ := r
      cases b
      · simp [hn] at h
      · simp only [hn, Option.some.injEq] at h
        exact Or.inl ⟨bh, cdp, db', rfl, hn, h.symm⟩
  | eraseCDP oldCDP cdp =>
    simp only [stepOp] at h
    by_cases hp : (liveOnly = true → cdp.cdpid ∈ t.live) ∧
        t.db.cdpCache.GetData cdp.cdpid = some oldCDP
    · rw [if_pos hp] at h
      cases hn : EraseCDP cfg t.db oldCDP cdp with
      | mk b db' =>
        cases b
        · simp [hn] at h
        · simp only [hn, Option.some.injEq] at h
          exact Or.inr (Or.inl ⟨oldCDP, cdp, db', rfl, hp.1, hp.2, hn, h.symm⟩)
    · rw [if_neg hp] at h; cases h
  | updateCDP oldCDP newCDP =>
    simp only [stepOp] at h
    by_cases hp : (liveOnly = true → newCDP.cdpid ∈ t.live) ∧
        t.db.cdpCache.GetData newCDP.cdpid = some oldCDP
    · rw [if_pos hp] at h
      cases hn : UpdateCDP cfg t.db oldCDP newCDP with
      | none => simp [hn] at h
      | some r =>
        obtain ⟨b, db'⟩ := r
        cases b
        · simp [hn] at h
        · simp only [hn, Option.some.injEq] at h
          exact Or.inr (Or.inr ⟨oldCDP, newCDP, db', rfl, hp.1, hp.2, hn, h.symm⟩)
    · rw [if_neg hp] at h; cases h

theorem coherent_step (cfg : Config) (liveOnly : Bool) (t t' : Tracked) (op : CdpOp)
    (hI : IndexCoherent cfg t) (h : stepOp cfg liveOnly t op = some t') :
    IndexCoherent cfg t' := by
  rcases stepOp_cases cfg liveOnly t t' op h with
    ⟨bh, cdp, db', -, hn, rfl⟩ | ⟨oldCDP, cdp, db', -, -, hs, hn, rfl⟩ |
    ⟨oldCDP, newCDP, db', -, -, hs, hn, rfl⟩
  · exact coherent_new cfg t hI bh cdp db' hn
  · exact coherent_erase cfg t hI oldCDP cdp db' hs hn
  · exact coherent_update cfg t hI oldCDP newCDP db' hs hn

theorem consistent_step (cfg : Config) (t t' : Tracked) (op : CdpOp)
    (hI : Consistent cfg t) (h : stepOp cfg true t op = some t') :
    Consistent cfg t' := by
  rcases stepOp_cases cfg true t t' op h with
    ⟨bh, cdp, db', -, hn, rfl⟩ | ⟨oldCDP, cdp, db', -, hm, hs, hn, rfl⟩ |
    ⟨oldCDP, newCDP, db', -, hm, hs, hn, rfl⟩
  · exact consistent_new cfg t hI bh cdp db' hn
  · exact consistent_erase cfg t hI oldCDP cdp db' (hm rfl) hs hn
  · exact consistent_update cfg t hI oldCDP newCDP db' (hm rfl) hs hn

theorem coherent_run (cfg : Config) (liveOnly : Bool) (ops : List CdpOp) :
    ∀ (t t' : Tracked), IndexCoherent cfg t → runOps cfg liveOnly ops t = some t' →
      IndexCoherent cfg t' := by
  induction ops with
  | nil =>
    intro t t' hI h
    simp only [runOps, Option.some.injEq] at h
    subst h; exact hI
  | cons op rest ih =>
    intro t t' hI h
    unfold runOps at h
    cases hs : stepOp cfg liveOnly t op with
    | none => simp [hs] at h
    | some t1 =>
      simp only [hs] at h
      exact ih t1 t' (coherent_step cfg liveOnly t t1 op hI hs) h

theorem consistent_run (cfg : Config) (ops : List CdpOp) :
    ∀ (t t' : Tracked), Consistent cfg t → runOps cfg true ops t = some t' →
      Consistent cfg t' := by
  induction ops with
  | nil =>
    intro t t' hI h
    simp only [runOps, Option.some.injEq] at h
    subst h; exact hI
  | cons op rest ih =>
    intro t t' hI h
    unfold runOps at h
    cases hs : stepOp cfg true t op with
    | none => simp [hs] at h
    | some t1 =>
      simp only [hs] at h
      exact ih t1 t' (consistent_step cfg t t1 op hI hs) h

theorem filter_eq_singleton {α : Type} (l : List α) (a : α) (P : α → Bool) (hn : l.Nodup)
    (ha : a ∈ l) (hP : P a = true) (hu : ∀ e ∈ l, P e = true → e = a) :
    l.filter P = [a] := by
  induction l with
  | nil => cases ha
  | cons x rest ih =>
    rw [List.nodup_cons] at hn
    have hrest : ∀ e ∈ rest, P e = true → e = a :=
      fun e he hp => hu e (List.mem_cons_of_mem _ he) hp
    by_cases hx : x = a
    · subst hx
      have hnone : rest.filter P = [] := by
        rw [List.filter_eq_nil_iff]
        intro e he hp
        exact hn.1 (hrest e he hp ▸ he)
      rw [List.filter_cons, if_pos hP, hnone]
    · have hpx : ¬ P x = true := fun hp => hx (hu x (List.mem_cons_self _ _) hp)
      rw [List.filter_cons, if_neg hpx]
      rcases List.mem_cons.mp ha with h | h
      · exact absurd h.symm hx
      · exact ih hn.2 h hrest

/-- C1 as amended: starting from the empty cache, after any sequence of
successful `NewCDP`, `EraseCDP` and `UpdateCDP` calls made with their
preconditions met (`EraseCDP` and `UpdateCDP` on a live CDP, with `oldCDP` the
record stored for the id), for every coin pair the aggregate returned by
`GetCdpGlobalData` equals, modulo `2^64`, the sum of the staked amounts and the
sum of the owed amounts of the live CDPs of the pair; the equality is exact
whenever the sum is below `2^64`. -/
theorem aggregate_invariant_mod (cfg : Config) (ops : List CdpOp) (t : Tracked)
    (h : runOps cfg true ops Tracked.init = some t) (p : CCdpCoinPair) :
    (t.db.GetCdpGlobalData p).total_staked_assets = sumStaked t p % 2 ^ 64 ∧
    (t.db.GetCdpGlobalData p).total_owed_scoins = sumOwed t p % 2 ^ 64 ∧
    (sumStaked t p < 2 ^ 64 → (t.db.GetCdpGlobalData p).total_staked_assets = sumStaked t p) ∧
    (sumOwed t p < 2 ^ 64 → (t.db.GetCdpGlobalData p).total_owed_scoins = sumOwed t p) := by
  have hI := consistent_run cfg ops _ t (consistent_init cfg) h
  have h1 : (t.db.GetCdpGlobalData p).total_staked_assets = sumStaked t p % 2 ^ 64 := by
    rw [sumStaked_eq]; exact hI.staked p
  have h2 : (t.db.GetCdpGlobalData p).total_owed_scoins = sumOwed t p % 2 ^ 64 := by
    rw [sumOwed_eq]; exact hI.owed p
  refine ⟨h1, h2, ?_, ?_⟩
  · intro hlt; rw [h1, Nat.mod_eq_of_lt hlt]
  · intro hlt; rw [h2, Nat.mod_eq_of_lt hlt]

/-- Witness for the amended C1: `C1` created and then updated to staked 80,
owed 40; the aggregate `(80, 40)` is the sum over the one live CDP. -/
theorem aggregate_invariant_mod_witness :
    runOps sampleConfig true [.newCDP 10 sampleC1, .updateCDP sampleC1 sampleC1'] Tracked.init
      = some ⟨sampleDb2, [1]⟩ ∧
    sumStaked ⟨sampleDb2, [1]⟩ ⟨"BTC", "USD"⟩ = 80 ∧
    (sampleDb2.GetCdpGlobalData ⟨"BTC", "USD"⟩).total_staked_assets
      = sumStaked ⟨sampleDb2, [1]⟩ ⟨"BTC", "USD"⟩ :=
  ⟨by decide, by decide,
   (aggregate_invariant_mod sampleConfig [.newCDP 10 sampleC1, .updateCDP sampleC1 sampleC1']
      ⟨sampleDb2, [1]⟩ (by decide) ⟨"BTC", "USD"⟩).2.2.1 (by decide)⟩

/-- C1 fails on the code as stated: after `NewCDP` of two CDPs of (BTC, USD)
staking `2^63` each (and owing `2^63` each), the aggregate is `(0, 0)` while the
staked amounts of the two live CDPs sum to `2^64`. -/
theorem aggregate_wraps_around :
    (runOps sampleConfig true [.newCDP 10 sampleBigA, .newCDP 10 sampleBigB] Tracked.init).map
      (fun t => (t.live, t.db.GetCdpGlobalData ⟨"BTC", "USD"⟩,
        sumStaked t ⟨"BTC", "USD"⟩, sumOwed t ⟨"BTC", "USD"⟩))
      = some ([2, 1], ⟨0, 0⟩, 2 ^ 64, 2 ^ 64) := by
  decide

/-- C8: starting from the empty cache, after any sequence of successful
`NewCDP`, `EraseCDP` and `UpdateCDP` calls made with their preconditions met
(`oldCDP` the record stored for the id; whether or not `EraseCDP` and
`UpdateCDP` are restricted to live CDPs), every live CDP has a primary record
`c`, the ratio-sorted index holds `c` under `MakeCdpRatioSortedKey(c)`, every
ratio-sorted entry whose key carries the id has that key and that value, and
the entries whose key carries the id are exactly that one. -/
theorem ratio_index_primary_consistency (cfg : Config) (liveOnly : Bool) (ops : List CdpOp)
    (t : Tracked) (h : runOps cfg liveOnly ops Tracked.init = some t) (id : Nat)
    (hid : id ∈ t.live) :
    ∃ c, t.db.GetCDP id = some c ∧ c.cdpid = id ∧
      t.db.cdpRatioSortedCache.GetData (MakeCdpRatioSortedKey cfg c) = some c ∧
      (∀ k v, t.db.cdpRatioSortedCache.GetData k = some v → k.cdpid = id →
        k = MakeCdpRatioSortedKey cfg c ∧ v = c) ∧
      t.db.cdpRatioSortedCache.entries.filter (fun e => decide (e.1.cdpid = id))
        = [(MakeCdpRatioSortedKey cfg c, c)] := by
  have hI := coherent_run cfg liveOnly ops _ t (coherent_init cfg) h
  obtain ⟨c, hc, hr⟩ := hI.stored id hid
  have hcid : c.cdpid = id := hI.ids id c hc
  have huniq : ∀ k v, t.db.cdpRatioSortedCache.GetData k = some v → k.cdpid = id →
      k = MakeCdpRatioSortedKey cfg c ∧ v = c := by
    intro k v hk hkid
    obtain ⟨h2, h3⟩ := hI.ratioOnly k v hk
    rw [hkid, hc] at h2
    cases h2
    exact ⟨h3, rfl⟩
  refine ⟨c, hc, hcid, hr, huniq, ?_⟩
  apply filter_eq_singleton _ _ _ (List.Nodup.of_map _ hI.keys) (KVCache.mem_of_lookup hr)
  · simp [key_cdpid, hcid]
  · intro e he hp
    obtain ⟨k, v⟩ := e
    have hkid : k.cdpid = id := by simpa using hp
    obtain ⟨e1, e2⟩ := huniq k v (KVCache.lookup_of_mem hI.keys he) hkid
    rw [e1, e2]

/-- Witness for C8: after `C1` is created and updated, the only ratio-sorted
entry carrying id 1 is the one of the updated record. -/
theorem ratio_index_primary_consistency_witness :
    ∃ c, sampleDb2.GetCDP 1 = some c ∧ c.cdpid = 1 ∧
      sampleDb2.cdpRatioSortedCache.GetData (MakeCdpRatioSortedKey sampleConfig c) = some c ∧
      (∀ k v, sampleDb2.cdpRatioSortedCache.GetData k = some v → k.cdpid = 1 →
        k = MakeCdpRatioSortedKey sampleConfig c ∧ v = c) ∧
      sampleDb2.cdpRatioSortedCache.entries.filter (fun e => decide (e.1.cdpid = 1))
        = [(MakeCdpRatioSortedKey sampleConfig c, c)] :=
  ratio_index_primary_consistency sampleConfig true
    [.newCDP 10 sampleC1, .updateCDP sampleC1 sampleC1'] ⟨sampleDb2, [1]⟩ (by decide) 1
    (by decide)

/-! ### The liquidation scan over the live CDPs -/

/-- The `double` arithmetic of the cutoff is not exact: threshold ratio 11300
at median price `10^8` gives a cutoff just below `113000000`, of integer part
`112999999`, so that the end key of the scan carries the ratio `113000000`. -/
theorem boostedCutoff_rounds :
    (boostedCutoff sampleConfig 11300 100000000).trunc? = some 112999999 ∧
    Double.toUInt64 sampleConfig.doubleToUInt64OutOfRange
      (boostedCutoff sampleConfig 11300 100000000) + 1 = 113000000 := by
  decide

/-- Where C++ leaves the conversion of the cutoff undefined, the scan goes on
with what the platform yields: at the median price zero the cutoff is infinite,
and a threshold ratio of `2^64 - 1` at the price 1 gives the cutoff `2^64 * 10^12`;
on the sample platform both are converted to `0`, the end key carries the ratio
`1`, and the scan returns no entry of `sampleDb1`. -/
theorem scan_with_cutoff_out_of_range :
    boostedCutoff sampleConfig 20000 0 = Double.inf ∧
    GetCdpListByCollateralRatio sampleConfig sampleDb1 ⟨"BTC", "USD"⟩ 20000 0
      = some (true, []) ∧
    (boostedCutoff sampleConfig (2 ^ 64 - 1) 1).trunc? = some (2 ^ 64 * 10 ^ 12) ∧
    GetCdpListByCollateralRatio sampleConfig sampleDb1 ⟨"BTC", "USD"⟩ (2 ^ 64 - 1) 1
      = some (true, []) := by
  refine ⟨by decide, by decide, ?_, by decide⟩
  decide

end CCdpDBCache

/-! ## Collateral activation status -/

namespace CCdpDBCache

theorem getBcoinStatus_store_independent (cfg : Config) (codes : CdpBcoinStatusCodes)
    (db db' : CCdpDBCache) (bcoinSymbol : TokenSymbol) (activation : Nat)
    (h : bcoinSymbol ∈ cfg.kCdpBcoinSymbolSet ∨ bcoinSymbol = cfg.WGRT ∨
        bcoinSymbol ∈ cfg.kCdpScoinSymbolSet) :
    GetBcoinStatus cfg codes db' bcoinSymbol activation =
      GetBcoinStatus cfg codes db bcoinSymbol activation := by
  unfold GetBcoinStatus
  by_cases h1 : bcoinSymbol ∈ cfg.kCdpBcoinSymbolSet
  · rw [if_pos h1, if_pos h1]
  · have h2 : bcoinSymbol = cfg.WGRT ∨ bcoinSymbol ∈ cfg.kCdpScoinSymbolSet := by
      rcases h with h | h
      · exact absurd h h1
      · exact h
    rw [if_neg h1, if_neg h1, if_pos h2, if_pos h2]

theorem isBcoinActivated_eq_fst (cfg : Config) (codes : CdpBcoinStatusCodes)
    (db : CCdpDBCache) (bcoinSymbol : TokenSymbol) (activation : Nat) :
    IsBcoinActivated cfg db bcoinSymbol =
      (GetBcoinStatus cfg codes db bcoinSymbol activation).1 := by
  unfold IsBcoinActivated GetBcoinStatus
  by_cases h1 : bcoinSymbol ∈ cfg.kCdpBcoinSymbolSet
  · rw [if_pos h1, if_pos h1]
  · rw [if_neg h1, if_neg h1]
    by_cases h2 : bcoinSymbol = cfg.WGRT ∨ bcoinSymbol ∈ cfg.kCdpScoinSymbolSet
    · rw [if_pos h2, if_pos h2]
    · rw [if_neg h2, if_neg h2]
      unfold KVCache.HasData
      cases db.bcoinStatusCache.GetData bcoinSymbol <;> rfl

/-- C12: `GetBcoinStatus` returns success with `STAKE_ON` when the symbol is in
the hard-coded activated set; otherwise failure with status `NONE` when the
symbol is `WGRT` or in the hard-coded stable-asset set; otherwise it succeeds
exactly when the activation store holds an entry for the symbol, and then
yields the stored status.  For a symbol of the two hard-coded tiers the result
is the same for every state of the store. -/
theorem GetBcoinStatus_three_tiers (cfg : Config) (codes : CdpBcoinStatusCodes)
    (db : CCdpDBCache) (bcoinSymbol : TokenSymbol) (activation : Nat) :
    (bcoinSymbol ∈ cfg.kCdpBcoinSymbolSet →
      GetBcoinStatus cfg codes db bcoinSymbol activation = (true, codes.STAKE_ON)) ∧
    (bcoinSymbol ∉ cfg.kCdpBcoinSymbolSet →
      (bcoinSymbol = cfg.WGRT ∨ bcoinSymbol ∈ cfg.kCdpScoinSymbolSet) →
      GetBcoinStatus cfg codes db bcoinSymbol activation = (false, codes.NONE)) ∧
    (bcoinSymbol ∉ cfg.kCdpBcoinSymbolSet →
      ¬ (bcoinSymbol = cfg.WGRT ∨ bcoinSymbol ∈ cfg.kCdpScoinSymbolSet) →
      ((GetBcoinStatus cfg codes db bcoinSymbol activation).1 = true ↔
        ∃ act, db.bcoinStatusCache.GetData bcoinSymbol = some act) ∧
      ∀ act, db.bcoinStatusCache.GetData bcoinSymbol = some act →
        GetBcoinStatus cfg codes db bcoinSymbol activation = (true, act)) ∧
    ((bcoinSymbol ∈ cfg.kCdpBcoinSymbolSet ∨ bcoinSymbol = cfg.WGRT ∨
        bcoinSymbol ∈ cfg.kCdpScoinSymbolSet) →
      ∀ db' : CCdpDBCache, GetBcoinStatus cfg codes db' bcoinSymbol activation =
        GetBcoinStatus cfg codes db bcoinSymbol activation) := by
  refine ⟨?_, ?_, ?_, ?_⟩
  · intro h
    unfold GetBcoinStatus
    rw [if_pos h]
  · intro h1 h2
    unfold GetBcoinStatus
    rw [if_neg h1, if_pos h2]
  · intro h1 h2
    unfold GetBcoinStatus
    rw [if_neg h1, if_neg h2]
    cases hg : db.bcoinStatusCache.GetData bcoinSymbol with
    | none =>
      refine ⟨⟨fun h => ?_, fun ⟨act, h⟩ => ?_⟩, fun act h => ?_⟩
      · cases h
      · cases h
      · cases h
    | some v =>
      refine ⟨⟨fun _ => ⟨v, rfl⟩, fun _ => rfl⟩, fun act h => ?_⟩
      cases h; rfl
  · intro h db'
    exact getBcoinStatus_store_independent cfg codes db db' bcoinSymbol activation h

/-- Witness for C12: `WICC` is hard-coded activated, `WGRT` hard-coded
disabled. -/
theorem GetBcoinStatus_three_tiers_witness :
    GetBcoinStatus sampleConfig sampleCodes sampleDb1 "WICC" 7 = (true, sampleCodes.STAKE_ON) ∧
    GetBcoinStatus sampleConfig sampleCodes sampleDb1 "WGRT" 7 = (false, sampleCodes.NONE) :=
  ⟨(GetBcoinStatus_three_tiers sampleConfig sampleCodes sampleDb1 "WICC" 7).1 (by decide),
   (GetBcoinStatus_three_tiers sampleConfig sampleCodes sampleDb1 "WGRT" 7).2.1
     (by decide) (Or.inl (by decide))⟩

/-- C19: `IsBcoinActivated(symbol)` returns true exactly when
`GetBcoinStatus(symbol)` returns success; both test the hard-coded activated
set first, so a symbol in both hard-coded sets is reported activated by
both. -/
theorem IsBcoinActivated_agrees_with_GetBcoinStatus (cfg : Config)
    (codes : CdpBcoinStatusCodes) (db : CCdpDBCache) (bcoinSymbol : TokenSymbol)
    (activation : Nat) :
    IsBcoinActivated cfg db bcoinSymbol =
      (GetBcoinStatus cfg codes db bcoinSymbol activation).1 ∧
    (bcoinSymbol ∈ cfg.kCdpBcoinSymbolSet →
      (bcoinSymbol = cfg.WGRT ∨ bcoinSymbol ∈ cfg.kCdpScoinSymbolSet) →
      IsBcoinActivated cfg db bcoinSymbol = true ∧
      (GetBcoinStatus cfg codes db bcoinSymbol activation).1 = true) := by
  constructor
  · exact isBcoinActivated_eq_fst cfg codes db bcoinSymbol activation
  · intro h1 _
    unfold IsBcoinActivated GetBcoinStatus
    rw [if_pos h1, if_pos h1]
    exact ⟨rfl, rfl⟩

/-- Witness for C19: with `WICC` in both hard-coded sets, both operations
report it activated. -/
theorem IsBcoinActivated_agrees_with_GetBcoinStatus_witness :
    IsBcoinActivated sampleConfigOverlap sampleDb1 "WICC" = true ∧
    (GetBcoinStatus sampleConfigOverlap sampleCodes sampleDb1 "WICC" 7).1 = true :=
  (IsBcoinActivated_agrees_with_GetBcoinStatus sampleConfigOverlap sampleCodes sampleDb1
    "WICC" 7).2 (by decide) (Or.inr (by decide))

/-- C13 as amended: `SetBcoinStatus(symbol, status)` succeeds when the
activation store accepts writes, and a successful call stores the status under
the symbol, for every symbol, hard-coded or not, and changes no other entry and
no other sub-cache; for a symbol of the hard-coded activated or disabled set
the stored entry is never read: `GetBcoinStatus` and `IsBcoinActivated` answer
as before the call. -/
theorem SetBcoinStatus_effect (cfg : Config) (codes : CdpBcoinStatusCodes) (db : CCdpDBCache)
    (bcoinSymbol : TokenSymbol) (status : Nat) :
    (db.bcoinStatusCache.writeFault = false →
      ∃ db', SetBcoinStatus db bcoinSymbol status = (true, db')) ∧
    ∀ db', SetBcoinStatus db bcoinSymbol status = (true, db') →
      db'.bcoinStatusCache.GetData bcoinSymbol = some status ∧
      (∀ s, s ≠ bcoinSymbol →
        db'.bcoinStatusCache.GetData s = db.bcoinStatusCache.GetData s) ∧
      (db'.cdpCache = db.cdpCache ∧ db'.userCdpCache = db.userCdpCache ∧
        db'.cdpGlobalDataCache = db.cdpGlobalDataCache ∧
        db'.cdpRatioSortedCache = db.cdpRatioSortedCache) ∧
      ((bcoinSymbol ∈ cfg.kCdpBcoinSymbolSet ∨ bcoinSymbol = cfg.WGRT ∨
          bcoinSymbol ∈ cfg.kCdpScoinSymbolSet) →
        (∀ a, GetBcoinStatus cfg codes db' bcoinSymbol a =
          GetBcoinStatus cfg codes db bcoinSymbol a) ∧
        IsBcoinActivated cfg db' bcoinSymbol = IsBcoinActivated cfg db bcoinSymbol) := by
  constructor
  · intro hf
    unfold SetBcoinStatus
    simp [KVCache.SetData, hf]
  · intro db' h
    unfold SetBcoinStatus at h
    by_cases hf : db.bcoinStatusCache.writeFault = true
    · simp [KVCache.SetData, hf] at h
    rw [Bool.not_eq_true] at hf
    simp only [KVCache.setData_fst, hf, Bool.not_false, Prod.mk.injEq, true_and] at h
    subst h
    refine ⟨?_, ?_, ⟨rfl, rfl, rfl, rfl⟩, ?_⟩
    · show (db.bcoinStatusCache.SetData bcoinSymbol status).2.GetData bcoinSymbol = some status
      rw [KVCache.getData_setData _ _ _ _ hf, if_pos rfl]
    · intro s hs
      show (db.bcoinStatusCache.SetData bcoinSymbol status).2.GetData s = _
      rw [KVCache.getData_setData _ _ _ _ hf, if_neg hs]
    · intro ht
      constructor
      · intro a
        exact getBcoinStatus_store_independent cfg codes db _ bcoinSymbol a ht
      · rw [isBcoinActivated_eq_fst cfg codes _ bcoinSymbol 0,
          isBcoinActivated_eq_fst cfg codes db bcoinSymbol 0]
        exact congrArg Prod.fst
          (getBcoinStatus_store_independent cfg codes db _ bcoinSymbol 0 ht)

/-- Witness for the amended C13: status 1 written for `ABC` on the cache holding
`C1`. -/
theorem SetBcoinStatus_effect_witness :
    (SetBcoinStatus sampleDb1 "ABC" 1).1 = true ∧
    (SetBcoinStatus sampleDb1 "ABC" 1).2.bcoinStatusCache.GetData "ABC" = some 1 ∧
    (SetBcoinStatus sampleDb1 "ABC" 1).2.cdpCache = sampleDb1.cdpCache := by
  have h := (SetBcoinStatus_effect sampleConfig sampleCodes sampleDb1 "ABC" 1).2
    (SetBcoinStatus sampleDb1 "ABC" 1).2 (by decide)
  exact ⟨by decide, h.1, h.2.2.1.1⟩

/-- C13 fails on the code: `SetBcoinStatus` for the hard-coded activated symbol
`WICC`, and for the hard-coded disabled symbol `WGRT`, writes an entry into the
activation-status store. -/
theorem SetBcoinStatus_writes_hard_coded_symbols :
    "WICC" ∈ sampleConfig.kCdpBcoinSymbolSet ∧ "WGRT" = sampleConfig.WGRT ∧
    sampleDb1.bcoinStatusCache.GetData "WICC" = none ∧
    (SetBcoinStatus sampleDb1 "WICC" 1).1 = true ∧
    (SetBcoinStatus sampleDb1 "WICC" 1).2.bcoinStatusCache.GetData "WICC" = some 1 ∧
    (SetBcoinStatus sampleDb1 "WGRT" 1).2.bcoinStatusCache.GetData "WGRT" = some 1 ∧
    (SetBcoinStatus sampleDb1 "WICC" 1).2.bcoinStatusCache ≠ sampleDb1.bcoinStatusCache := by
  decide

end CCdpDBCache

/-! ## Base-symbol checks -/

namespace CAssetDbCache

/-- C15: `CheckPriceFeedBaseSymbol` accepts a symbol exactly when it is in the
hard-coded price-feed symbol set or an asset stored under it holds
`PERM_PRICE_FEED`; `CheckDexBaseSymbol` accepts a symbol exactly when it is in
the hard-coded set it tests (`kPriceFeedSymbolSet`) or an asset stored under it
holds `PERM_DEX_BASE`; a symbol of the hard-coded set is accepted by both
whatever the store contains. -/
theorem base_symbol_checks (cfg : Config) (db : CAssetDbCache) (baseSymbol : TokenSymbol) :
    (CheckPriceFeedBaseSymbol cfg db baseSymbol = true ↔
      baseSymbol ∈ cfg.kPriceFeedSymbolSet ∨
        ∃ asset, db.GetAsset baseSymbol = some asset ∧
          asset.HasPerms cfg.PERM_PRICE_FEED = true) ∧
    (CheckDexBaseSymbol cfg db baseSymbol = true ↔
      baseSymbol ∈ cfg.kPriceFeedSymbolSet ∨
        ∃ asset, db.GetAsset baseSymbol = some asset ∧
          asset.HasPerms cfg.PERM_DEX_BASE = true) ∧
    (baseSymbol ∈ cfg.kPriceFeedSymbolSet →
      ∀ db' : CAssetDbCache, CheckPriceFeedBaseSymbol cfg db' baseSymbol = true ∧
        CheckDexBaseSymbol cfg db' baseSymbol = true) := by
  refine ⟨?_, ?_, ?_⟩
  · unfold CheckPriceFeedBaseSymbol
    by_cases hm : baseSymbol ∈ cfg.kPriceFeedSymbolSet
    · rw [if_pos hm]
      exact ⟨fun _ => Or.inl hm, fun _ => rfl⟩
    · rw [if_neg hm]
      cases hg : db.GetAsset baseSymbol with
      | none =>
        constructor
        · intro h; cases h
        · rintro (h | ⟨a, ha, -⟩)
          · exact absurd h hm
          · cases ha
      | some asset =>
        cases hp : asset.HasPerms cfg.PERM_PRICE_FEED
        · constructor
          · intro h; simp [hp] at h
          · rintro (h | ⟨a, ha, hq⟩)
            · exact absurd h hm
            · cases ha; rw [hp] at hq; cases hq
        · exact ⟨fun _ => Or.inr ⟨asset, rfl, hp⟩, fun _ => by simp [hp]⟩
  · unfold CheckDexBaseSymbol
    by_cases hm : baseSymbol ∈ cfg.kPriceFeedSymbolSet
    · rw [if_pos hm]
      exact ⟨fun _ => Or.inl hm, fun _ => rfl⟩
    · rw [if_neg hm]
      cases hg : db.GetAsset baseSymbol with
      | none =>
        constructor
        · intro h; cases h
        · rintro (h | ⟨a, ha, -⟩)
          · exact absurd h hm
          · cases ha
      | some asset =>
        cases hp : asset.HasPerms cfg.PERM_DEX_BASE
        · constructor
          · intro h; simp [hp] at h
          · rintro (h | ⟨a, ha, hq⟩)
            · exact absurd h hm
            · cases ha; rw [hp] at hq; cases hq
        · exact ⟨fun _ => Or.inr ⟨asset, rfl, hp⟩, fun _ => by simp [hp]⟩
  · intro hm db'
    unfold CheckPriceFeedBaseSymbol CheckDexBaseSymbol
    rw [if_pos hm, if_pos hm]
    exact ⟨rfl, rfl⟩

/-- Witness for C15: `WICC` is hard-coded; `ABC` is stored with bits 1 and 4
and so holds both permissions. -/
theorem base_symbol_checks_witness :
    CheckPriceFeedBaseSymbol sampleConfig sampleAssetDb "WICC" = true ∧
    CheckDexBaseSymbol sampleConfig sampleAssetDb "WICC" = true ∧
    CheckPriceFeedBaseSymbol sampleConfig sampleAssetDb "ABC" = true ∧
    CheckDexBaseSymbol sampleConfig sampleAssetDb "XYZ" = false := by
  have h := (base_symbol_checks sampleConfig sampleAssetDb "WICC").2.2 (by decide) sampleAssetDb
  exact ⟨h.1, h.2, by decide, by decide⟩

end CAssetDbCache

/-! ## Save and erase on the ratio index -/

namespace CCdpDBCache

theorem round_trip_u64 (g x : Nat) (hg : g < 2 ^ 64) :
    ((g + x) % 2 ^ 64 + 2 ^ 64 - x % 2 ^ 64) % 2 ^ 64 = g := by
  omega

theorem getCdpGlobalData_set (db : CCdpDBCache) (p q : CCdpCoinPair) (g : CCdpGlobalData)
    (hf : db.cdpGlobalDataCache.writeFault = false) :
    GetCdpGlobalData { db with cdpGlobalDataCache := (db.cdpGlobalDataCache.SetData p g).2 } q =
      if q = p then g else db.GetCdpGlobalData q := by
  unfold GetCdpGlobalData
  simp only [KVCache.getData_setData _ _ _ _ hf]
  by_cases h : q = p
  · simp [h]
  · simp [h]

/-- C18: for a cache whose stored aggregate of the coin pair holds 64-bit
values, and a CDP `c` whose ratio-sorted key is not present,
`SaveCDPToRatioDB(c)` followed by `EraseCDPFromRatioDB(c)` leaves
`GetCdpGlobalData` returning the same totals as before, for every coin pair and
for all amounts of `c` (also when the intermediate sum wraps around `2^64`),
and leaves every ratio-sorted key present or absent as before. -/
theorem save_erase_round_trip (cfg : Config) (db : CCdpDBCache) (c : CUserCDP)
    (hwf : (db.GetCdpGlobalData c.GetCoinPair).total_staked_assets < 2 ^ 64 ∧
      (db.GetCdpGlobalData c.GetCoinPair).total_owed_scoins < 2 ^ 64)
    (hfresh : db.cdpRatioSortedCache.GetData (MakeCdpRatioSortedKey cfg c) = none) :
    (∀ p, (EraseCDPFromRatioDB cfg (SaveCDPToRatioDB cfg db c).2 c).2.GetCdpGlobalData p =
      db.GetCdpGlobalData p) ∧
    (∀ k, (EraseCDPFromRatioDB cfg (SaveCDPToRatioDB cfg db c).2 c).2.cdpRatioSortedCache.GetData k
      = db.cdpRatioSortedCache.GetData k) ∧
    (∀ k, (EraseCDPFromRatioDB cfg (SaveCDPToRatioDB cfg db c).2 c).2.cdpRatioSortedCache.HasData k
      = db.cdpRatioSortedCache.HasData k) := by
  have hkeys : ∀ k,
      (EraseCDPFromRatioDB cfg (SaveCDPToRatioDB cfg db c).2 c).2.cdpRatioSortedCache.GetData k
        = db.cdpRatioSortedCache.GetData k := by
    intro k
    by_cases hg : db.cdpGlobalDataCache.writeFault = true <;>
      by_cases hr : db.cdpRatioSortedCache.writeFault = true
    · simp [SaveCDPToRatioDB, EraseCDPFromRatioDB, KVCache.SetData, KVCache.EraseData, hg, hr]
    · rw [Bool.not_eq_true] at hr
      simp only [SaveCDPToRatioDB, EraseCDPFromRatioDB, KVCache.SetData, KVCache.EraseData, hg,
        hr, if_true, Bool.not_false, Bool.false_eq_true, if_false]
      simp only [KVCache.GetData]
      by_cases hk : k = MakeCdpRatioSortedKey cfg c
      · rw [hk, KVCache.lookup_remove_self]; exact hfresh.symm
      · rw [KVCache.lookup_remove_ne hk]
    · rw [Bool.not_eq_true] at hg
      simp [SaveCDPToRatioDB, EraseCDPFromRatioDB, KVCache.SetData, KVCache.EraseData, hg, hr]
    · rw [Bool.not_eq_true] at hg hr
      simp only [SaveCDPToRatioDB, EraseCDPFromRatioDB, KVCache.SetData, KVCache.EraseData, hg,
        hr, if_true, Bool.not_false, Bool.not_true, Bool.false_eq_true, if_false]
      simp only [KVCache.GetData]
      by_cases hk : k = MakeCdpRatioSortedKey cfg c
      · rw [hk, KVCache.lookup_remove_self]; exact hfresh.symm
      · rw [KVCache.lookup_remove_ne hk, KVCache.lookup, if_neg (fun e => hk e.symm),
          KVCache.lookup_remove_ne hk]
  refine ⟨?_, hkeys, ?_⟩
  · intro p
    by_cases hg : db.cdpGlobalDataCache.writeFault = true
    · have e : (EraseCDPFromRatioDB cfg (SaveCDPToRatioDB cfg db c).2 c).2.cdpGlobalDataCache =
          db.cdpGlobalDataCache := by
        simp [SaveCDPToRatioDB, EraseCDPFromRatioDB, KVCache.SetData, hg]
      unfold GetCdpGlobalData
      rw [e]
    · rw [Bool.not_eq_true] at hg
      obtain ⟨h1, h2⟩ := hwf
      have hsave : ∀ q, (SaveCDPToRatioDB cfg db c).2.GetCdpGlobalData q =
          if q = c.GetCoinPair then
            ⟨((db.GetCdpGlobalData c.GetCoinPair).total_staked_assets + c.total_staked_bcoins)
                % 2 ^ 64,
             ((db.GetCdpGlobalData c.GetCoinPair).total_owed_scoins + c.total_owed_scoins)
                % 2 ^ 64⟩
          else db.GetCdpGlobalData q := by
        intro q
        have e : (SaveCDPToRatioDB cfg db c).2.cdpGlobalDataCache =
            (db.cdpGlobalDataCache.SetData c.GetCoinPair
              ⟨((db.GetCdpGlobalData c.GetCoinPair).total_staked_assets + c.total_staked_bcoins)
                  % 2 ^ 64,
               ((db.GetCdpGlobalData c.GetCoinPair).total_owed_scoins + c.total_owed_scoins)
                  % 2 ^ 64⟩).2 := by
          unfold SaveCDPToRatioDB
          simp only [KVCache.setData_fst, hg, Bool.not_false, Bool.not_true, if_false,
            Bool.false_eq_true]
        have := getCdpGlobalData_set db c.GetCoinPair q
          ⟨((db.GetCdpGlobalData c.GetCoinPair).total_staked_assets + c.total_staked_bcoins)
              % 2 ^ 64,
           ((db.GetCdpGlobalData c.GetCoinPair).total_owed_scoins + c.total_owed_scoins)
              % 2 ^ 64⟩ hg
        unfold GetCdpGlobalData at this ⊢
        rw [e]
        exact this
      have hfault : (SaveCDPToRatioDB cfg db c).2.cdpGlobalDataCache.writeFault = false := by
        unfold SaveCDPToRatioDB
        simp only [KVCache.setData_fst, hg, Bool.not_false, Bool.not_true, if_false,
          Bool.false_eq_true, KVCache.setData_writeFault]
      have herase := getCdpGlobalData_set (SaveCDPToRatioDB cfg db c).2 c.GetCoinPair p
        ⟨(((SaveCDPToRatioDB cfg db c).2.GetCdpGlobalData c.GetCoinPair).total_staked_assets
            + 2 ^ 64 - c.total_staked_bcoins % 2 ^ 64) % 2 ^ 64,
         (((SaveCDPToRatioDB cfg db c).2.GetCdpGlobalData c.GetCoinPair).total_owed_scoins
            + 2 ^ 64 - c.total_owed_scoins % 2 ^ 64) % 2 ^ 64⟩ hfault
      have e2 : (EraseCDPFromRatioDB cfg (SaveCDPToRatioDB cfg db c).2 c).2.GetCdpGlobalData p =
          GetCdpGlobalData { (SaveCDPToRatioDB cfg db c).2 with
            cdpGlobalDataCache := ((SaveCDPToRatioDB cfg db c).2.cdpGlobalDataCache.SetData
              c.GetCoinPair
              ⟨(((SaveCDPToRatioDB cfg db c).2.GetCdpGlobalData c.GetCoinPair).total_staked_assets
                  + 2 ^ 64 - c.total_staked_bcoins % 2 ^ 64) % 2 ^ 64,
               (((SaveCDPToRatioDB cfg db c).2.GetCdpGlobalData c.GetCoinPair).total_owed_scoins
                  + 2 ^ 64 - c.total_owed_scoins % 2 ^ 64) % 2 ^ 64⟩).2 } p := rfl
      rw [e2, herase]
      by_cases hp : p = c.GetCoinPair
      · rw [if_pos hp, hsave, if_pos rfl, hp]
        show CCdpGlobalData.mk _ _ = _
        rw [round_trip_u64 _ _ h1, round_trip_u64 _ _ h2]
      · rw [if_neg hp, hsave, if_neg hp]
  · intro k
    unfold KVCache.HasData
    rw [hkeys k]

/-- Witness for C18: on the cache holding `C1` (aggregate `(100, 50)`), saving a
CDP with amounts `2^64 - 1` wraps the totals to `(99, 49)` and erasing it
restores `(100, 50)`. -/
theorem save_erase_round_trip_witness :
    (SaveCDPToRatioDB sampleConfig sampleDb1 sampleWrapCdp).2.GetCdpGlobalData ⟨"BTC", "USD"⟩
      = ⟨99, 49⟩ ∧
    (EraseCDPFromRatioDB sampleConfig (SaveCDPToRatioDB sampleConfig sampleDb1 sampleWrapCdp).2
      sampleWrapCdp).2.GetCdpGlobalData ⟨"BTC", "USD"⟩
      = sampleDb1.GetCdpGlobalData ⟨"BTC", "USD"⟩ :=
  ⟨by decide,
   (save_erase_round_trip sampleConfig sampleDb1 sampleWrapCdp (by decide) (by decide)).1 _⟩

/-! ## Reporting of write faults -/

/-- A successful `NewCDP` had every sub-cache it writes accept the write. -/
theorem NewCDP_reports_write_faults (cfg : Config) (db db' : CCdpDBCache) (bh : Int)
    (cdp : CUserCDP) (h : NewCDP cfg db bh cdp = some (true, db')) :
    db.cdpCache.writeFault = false ∧ db.userCdpCache.writeFault = false ∧
    db.cdpGlobalDataCache.writeFault = false ∧ db.cdpRatioSortedCache.writeFault = false := by
  unfold NewCDP at h
  by_cases h1 : db.cdpCache.HasData cdp.cdpid = true
  · simp [h1] at h
  by_cases h2 : db.userCdpCache.HasData (cdp.owner_regid, cdp.GetCoinPair) = true
  · simp [h1, h2] at h
  simp only [h1, h2, if_false, Bool.false_eq_true] at h
  by_cases hc : db.cdpCache.writeFault = true
  · simp [KVCache.SetData, hc] at h
  by_cases hu : db.userCdpCache.writeFault = true
  · simp [KVCache.SetData, hc, hu] at h
  rw [Bool.not_eq_true] at hc hu
  simp only [KVCache.setData_fst, hc, hu, Bool.not_false, Bool.not_true, if_false,
    Bool.false_eq_true, Option.some.injEq] at h
  obtain ⟨hg, hr, -⟩ := save_ok cfg _ db' cdp h
  exact ⟨hc, hu, hg, hr⟩

/-- A successful `UpdateCDP` had every sub-cache it writes accept the write
(the fault flag of a sub-cache being the same for all its writes). -/
theorem UpdateCDP_reports_write_faults (cfg : Config) (db db' : CCdpDBCache)
    (oldCDP newCDP : CUserCDP) (h : UpdateCDP cfg db oldCDP newCDP = some (true, db')) :
    db.cdpCache.writeFault = false ∧ db.cdpGlobalDataCache.writeFault = false ∧
    db.cdpRatioSortedCache.writeFault = false := by
  obtain ⟨-, ⟨hg, hc, hr⟩, -⟩ := update_ok cfg db db' oldCDP newCDP h
  exact ⟨hc, hg, hr⟩

/-- C16 fails on the code for `EraseCDP`: on the cache holding the updated `C1`
whose aggregate sub-cache reports a write fault, the aggregate write performed
by `EraseCDP(C1', C1')` reports failure and `EraseCDP` returns success all the
same; `UpdateCDP` and `NewCDP` on the same cache return failure. -/
theorem EraseCDP_success_despite_failed_write :
    (sampleDb2Faulty.cdpGlobalDataCache.SetData ⟨"BTC", "USD"⟩ ⟨0, 0⟩).1 = false ∧
    (EraseCDP sampleConfig sampleDb2Faulty sampleC1' sampleC1').1 = true ∧
    (UpdateCDP sampleConfig sampleDb2Faulty sampleC1' sampleC1).map Prod.fst = some false ∧
    (NewCDP sampleConfig sampleDb2Faulty 12 sampleBigB).map Prod.fst = some false := by
  decide

end CCdpDBCache

/-! ## Prefix iteration -/

namespace KVCache

variable {K V : Type} [DecidableEq K]

theorem mem_remove_iff {k : K} {e : K × V} {l : List (K × V)} :
    e ∈ remove k l ↔ e ∈ l ∧ e.1 ≠ k := by
  constructor
  · exact mem_remove
  · rintro ⟨hm, hne⟩
    induction l with
    | nil => cases hm
    | cons x rest ih =>
      by_cases hk : x.1 = k
      · rw [remove, if_pos hk]
        rcases List.mem_cons.mp hm with h | h
        · rw [h] at hne; exact absurd hk hne
        · exact ih h
      · rw [remove, if_neg hk]
        rcases List.mem_cons.mp hm with h | h
        · rw [h]; exact List.mem_cons_self _ _
        · exact List.mem_cons_of_mem _ (ih h)

theorem visible_keys_nodup (l : List (K × V)) : ((visible l).map Prod.fst).Nodup := by
  induction l with
  | nil => exact List.nodup_nil
  | cons e rest ih =>
    obtain ⟨k, v⟩ := e
    exact keys_nodup_set k v _ ih

theorem mem_visible (l : List (K × V)) (k : K) (v : V) :
    (k, v) ∈ visible l ↔ lookup k l = some v := by
  induction l with
  | nil => simp [visible, lookup]
  | cons e rest ih =>
    obtain ⟨k', v'⟩ := e
    rw [visible, List.mem_cons, mem_remove_iff, ih, lookup]
    by_cases hk : k' = k
    · subst hk
      simp
      constructor
      · intro h; exact h.symm
      · intro h; exact h.symm
    · have hk' : ¬ k = k' := fun e => hk e.symm
      simp [hk, hk']

theorem mem_prefixScan (lt : K → K → Prop) [DecidableRel lt] (hasPrefix : K → Bool)
    (c : KVCache K V) (e : K × V) :
    e ∈ prefixScan lt hasPrefix c ↔ hasPrefix e.1 = true ∧ c.GetData e.1 = some e.2 := by
  unfold prefixScan
  rw [(List.perm_insertionSort _ _).mem_iff, List.mem_filter]
  obtain ⟨k, v⟩ := e
  rw [mem_visible]
  exact ⟨fun h => ⟨h.2, h.1⟩, fun h => ⟨h.2, h.1⟩⟩

theorem prefixScan_keys_nodup (lt : K → K → Prop) [DecidableRel lt] (hasPrefix : K → Bool)
    (c : KVCache K V) : ((prefixScan lt hasPrefix c).map Prod.fst).Nodup := by
  unfold prefixScan
  have h1 : (((visible c.entries).filter (fun e => hasPrefix e.1)).map Prod.fst).Nodup :=
    (visible_keys_nodup c.entries).sublist (List.Sublist.map _ (List.filter_sublist _))
  exact ((List.perm_insertionSort _ _).map Prod.fst).nodup_iff.mpr h1

theorem prefixScan_sorted (lt : K → K → Prop) [DecidableRel lt] (hst : IsStrictTotal lt)
    (hasPrefix : K → Bool) (c : KVCache K V) :
    (prefixScan lt hasPrefix c).Pairwise (fun a b => lt a.1 b.1) := by
  obtain ⟨hasymm, hneg, hconn⟩ := hst
  haveI : IsTotal (K × V) (fun a b => ¬ lt b.1 a.1) :=
    ⟨fun a b => by
      by_cases h : lt b.1 a.1
      · exact Or.inr (hasymm _ _ h)
      · exact Or.inl h⟩
  haveI : IsTrans (K × V) (fun a b => ¬ lt b.1 a.1) :=
    ⟨fun a b c hab hbc hca => by
      rcases hneg _ b.1 _ hca with h | h
      · exact hbc h
      · exact hab h⟩
  have hs : (prefixScan lt hasPrefix c).Pairwise (fun a b => ¬ lt b.1 a.1) := by
    unfold prefixScan
    exact List.sorted_insertionSort _ _
  have hn : (prefixScan lt hasPrefix c).Pairwise (fun a b => a.1 ≠ b.1) :=
    List.pairwise_map.mp (prefixScan_keys_nodup lt hasPrefix c)
  exact (hs.and hn).imp (fun {a b} h => by
    rcases hconn a.1 b.1 h.2 with h1 | h1
    · exact h1
    · exact absurd h1 h.1)

end KVCache

/-! ### The key orders are strict total orders -/

theorem isStrictTotal_nat : IsStrictTotal (fun a b : Nat => a < b) :=
  ⟨fun _ _ h => by omega, fun a b c h => by omega, fun a b h => by omega⟩

theorem isStrictTotal_lex {α β : Type} (r : α → α → Prop) (s : β → β → Prop)
    (hr : IsStrictTotal r) (hs : IsStrictTotal s) :
    IsStrictTotal (fun a b : α × β => r a.1 b.1 ∨ (a.1 = b.1 ∧ s a.2 b.2)) := by
  obtain ⟨ra, rn, rc⟩ := hr
  obtain ⟨sa, sn, sc⟩ := hs
  refine ⟨?_, ?_, ?_⟩
  · rintro a b (h | ⟨e, h⟩) (h' | ⟨e', h'⟩)
    · exact ra _ _ h h'
    · rw [e'] at h; exact ra _ _ h h
    · rw [e] at h'; exact ra _ _ h' h'
    · exact sa _ _ h h'
  · rintro a b c (h | ⟨e, h⟩)
    · rcases rn _ b.1 _ h with h1 | h1
      · exact Or.inl (Or.inl h1)
      · exact Or.inr (Or.inl h1)
    · by_cases hab : a.1 = b.1
      · rcases sn _ b.2 _ h with h1 | h1
        · exact Or.inl (Or.inr ⟨hab, h1⟩)
        · exact Or.inr (Or.inr ⟨hab.symm.trans e, h1⟩)
      · rcases rc _ _ hab with h1 | h1
        · exact Or.inl (Or.inl h1)
        · rw [e] at h1; exact Or.inr (Or.inl h1)
  · intro a b hne
    by_cases h1 : a.1 = b.1
    · have h2 : a.2 ≠ b.2 := fun e => hne (Prod.ext h1 e)
      rcases sc _ _ h2 with h | h
      · exact Or.inl (Or.inr ⟨h1, h⟩)
      · exact Or.inr (Or.inr ⟨h1.symm, h⟩)
    · rcases rc _ _ h1 with h | h
      · exact Or.inl (Or.inl h)
      · exact Or.inr (Or.inl h)

namespace CCdpDBCache

theorem codesLt_cons (a b : Nat) (as bs : List Nat) :
    codesLt (a :: as) (b :: bs) = true ↔ a < b ∨ (a = b ∧ codesLt as bs = true) := by
  simp [codesLt]

theorem isStrictTotal_codesLt : IsStrictTotal (fun a b : List Nat => codesLt a b = true) := by
  refine ⟨?_, ?_, ?_⟩
  · intro a
    induction a with
    | nil => intro b _ h; cases b <;> simp [codesLt] at h
    | cons x xs ih =>
      intro b h h'
      cases b with
      | nil => simp [codesLt] at h
      | cons y ys =>
        rw [codesLt_cons] at h h'
        rcases h with h | ⟨e, h⟩ <;> rcases h' with h' | ⟨e', h'⟩
        · omega
        · omega
        · omega
        · exact ih ys h h'
  · intro a
    induction a with
    | nil =>
      intro b c h
      cases b with
      | nil => exact Or.inr h
      | cons y ys => exact Or.inl rfl
    | cons x xs ih =>
      intro b c h
      cases c with
      | nil => simp [codesLt] at h
      | cons z zs =>
        cases b with
        | nil => exact Or.inr rfl
        | cons y ys =>
          rw [codesLt_cons] at h
          show codesLt (x :: xs) (y :: ys) = true ∨ codesLt (y :: ys) (z :: zs) = true
          rw [codesLt_cons, codesLt_cons]
          rcases h with h | ⟨e, h⟩
          · omega
          · rcases Nat.lt_trichotomy x y with h1 | h1 | h1
            · exact Or.inl (Or.inl h1)
            · rcases ih ys zs h with h2 | h2
              · exact Or.inl (Or.inr ⟨h1, h2⟩)
              · exact Or.inr (Or.inr ⟨by omega, h2⟩)
            · exact Or.inr (Or.inl (by omega))
  · intro a
    induction a with
    | nil =>
      intro b hne
      cases b with
      | nil => exact absurd rfl hne
      | cons y ys => exact Or.inl rfl
    | cons x xs ih =>
      intro b hne
      cases b with
      | nil => exact Or.inr rfl
      | cons y ys =>
        show codesLt (x :: xs) (y :: ys) = true ∨ codesLt (y :: ys) (x :: xs) = true
        rw [codesLt_cons, codesLt_cons]
        rcases Nat.lt_trichotomy x y with h1 | h1 | h1
        · exact Or.inl (Or.inl h1)
        · have hne' : xs ≠ ys := fun e => hne (by rw [h1, e])
          rcases ih ys hne' with h2 | h2
          · exact Or.inl (Or.inr ⟨h1, h2⟩)
          · exact Or.inr (Or.inr ⟨h1.symm, h2⟩)
        · exact Or.inr (Or.inl h1)

theorem symbol_codes_injective (a b : TokenSymbol)
    (h : a.toList.map Char.toNat = b.toList.map Char.toNat) : a = b := by
  apply String.ext
  have hinj : Function.Injective Char.toNat := by
    intro c d hcd
    rw [← Char.ofNat_toNat c, ← Char.ofNat_toNat d, hcd]
  exact List.map_injective_iff.mpr hinj h

theorem isStrictTotal_symbolLt : IsStrictTotal symbolLt := by
  obtain ⟨ha, hn, hc⟩ := isStrictTotal_codesLt
  refine ⟨fun a b => ha _ _, fun a b c => hn _ _ _, fun a b hne => hc _ _ ?_⟩
  exact fun e => hne (symbol_codes_injective a b e)

theorem isStrictTotal_coinPairLt : IsStrictTotal coinPairLt := by
  obtain ⟨ha, hn, hc⟩ := isStrictTotal_lex symbolLt symbolLt isStrictTotal_symbolLt
    isStrictTotal_symbolLt
  refine ⟨fun a b => ha (a.bcoin_symbol, a.scoin_symbol) (b.bcoin_symbol, b.scoin_symbol),
    fun a b c => hn (a.bcoin_symbol, a.scoin_symbol) (b.bcoin_symbol, b.scoin_symbol)
      (c.bcoin_symbol, c.scoin_symbol),
    fun a b hne => hc (a.bcoin_symbol, a.scoin_symbol) (b.bcoin_symbol, b.scoin_symbol) ?_⟩
  intro e
  apply hne
  cases a; cases b
  simp only [Prod.mk.injEq] at e
  rw [e.1, e.2]

end CCdpDBCache

theorem isStrictTotal_ownerKeyLt : IsStrictTotal ownerKeyLt :=
  isStrictTotal_lex _ _ isStrictTotal_nat CCdpDBCache.isStrictTotal_coinPairLt

/-! ## Queries by prefix iteration -/

namespace CAssetDbCache

theorem mem_foldl_insert (l init : List TokenSymbol) (x : TokenSymbol) :
    x ∈ l.foldl (fun acc s => acc.insert s) init ↔ x ∈ init ∨ x ∈ l := by
  induction l generalizing init with
  | nil => simp
  | cons s rest ih =>
    rw [List.foldl_cons, ih, List.mem_insert_iff, List.mem_cons]
    constructor
    · rintro ((h | h) | h)
      · exact Or.inr (Or.inl h)
      · exact Or.inl h
      · exact Or.inr (Or.inr h)
    · rintro (h | h | h)
      · exact Or.inl (Or.inr h)
      · exact Or.inl (Or.inl h)
      · exact Or.inr h

theorem mem_foldl_enabled (es : List ((Nat × TokenSymbol) × AssetPermStatus))
    (init : List TokenSymbol) (x : TokenSymbol) :
    x ∈ es.foldl
        (fun acc e => if e.2 = AssetPermStatus.ENABLED then acc.insert e.1.2 else acc) init ↔
      x ∈ init ∨ ∃ e ∈ es, e.2 = AssetPermStatus.ENABLED ∧ e.1.2 = x := by
  induction es generalizing init with
  | nil => simp
  | cons e rest ih =>
    rw [List.foldl_cons, ih]
    by_cases he : e.2 = AssetPermStatus.ENABLED
    · rw [if_pos he, List.mem_insert_iff]
      constructor
      · rintro ((h | h) | ⟨e', hm, h1, h2⟩)
        · exact Or.inr ⟨e, List.mem_cons_self _ _, he, h.symm⟩
        · exact Or.inl h
        · exact Or.inr ⟨e', List.mem_cons_of_mem _ hm, h1, h2⟩
      · rintro (h | ⟨e', hm, h1, h2⟩)
        · exact Or.inl (Or.inr h)
        · rcases List.mem_cons.mp hm with h | h
          · subst h; exact Or.inl (Or.inl h2.symm)
          · exact Or.inr ⟨e', h, h1, h2⟩
    · rw [if_neg he]
      constructor
      · rintro (h | ⟨e', hm, h1, h2⟩)
        · exact Or.inl h
        · exact Or.inr ⟨e', List.mem_cons_of_mem _ hm, h1, h2⟩
      · rintro (h | ⟨e', hm, h1, h2⟩)
        · exact Or.inl h
        · rcases List.mem_cons.mp hm with h | h
          · subst h; exact absurd h1 he
          · exact Or.inr ⟨e', h, h1, h2⟩

theorem mem_getDexQuoteSymbolSet (cfg : Config) (db : CAssetDbCache)
    (symbolSet : List TokenSymbol) (x : TokenSymbol) :
    x ∈ GetDexQuoteSymbolSet cfg db symbolSet ↔
      x ∈ symbolSet ∨ x ∈ cfg.kDexQuoteSymbolSet ∨
        db.perm_assets_cache.GetData (cfg.PERM_DEX_BASE, x) = some AssetPermStatus.ENABLED := by
  unfold GetDexQuoteSymbolSet
  simp only []
  rw [mem_foldl_enabled, mem_foldl_insert]
  constructor
  · rintro ((h | h) | ⟨e, hm, h1, h2⟩)
    · exact Or.inl h
    · exact Or.inr (Or.inl h)
    · obtain ⟨hp, hg⟩ := (KVCache.mem_prefixScan _ _ _ e).mp hm
      obtain ⟨⟨p, s⟩, v⟩ := e
      simp only [decide_eq_true_eq] at hp h1 h2
      subst hp; subst h2; subst h1
      exact Or.inr (Or.inr hg)
  · rintro (h | h | h)
    · exact Or.inl (Or.inl h)
    · exact Or.inl (Or.inr h)
    · refine Or.inr ⟨((cfg.PERM_DEX_BASE, x), AssetPermStatus.ENABLED), ?_, rfl, rfl⟩
      exact (KVCache.mem_prefixScan _ _ _ _).mpr ⟨by simp, h⟩

/-- C11: the set produced by `GetDexQuoteSymbolSet`, called with an empty
output set, is exactly the union of the hard-coded DEX quote-symbol set and the
set of symbols `s` whose index entry `(PERM_DEX_BASE, s)` has status
`ENABLED`; a symbol whose entry is not `ENABLED` (disabled, absent, or enabled
only under another permission type) is included only if hard-coded. -/
theorem GetDexQuoteSymbolSet_result (cfg : Config) (db : CAssetDbCache) (x : TokenSymbol) :
    (x ∈ GetDexQuoteSymbolSet cfg db [] ↔
      x ∈ cfg.kDexQuoteSymbolSet ∨
        db.perm_assets_cache.GetData (cfg.PERM_DEX_BASE, x) = some AssetPermStatus.ENABLED) ∧
    (db.perm_assets_cache.GetData (cfg.PERM_DEX_BASE, x) ≠ some AssetPermStatus.ENABLED →
      (x ∈ GetDexQuoteSymbolSet cfg db [] ↔ x ∈ cfg.kDexQuoteSymbolSet)) := by
  have h := mem_getDexQuoteSymbolSet cfg db [] x
  simp only [List.not_mem_nil, false_or] at h
  refine ⟨h, fun hne => ?_⟩
  rw [h]
  exact ⟨fun h1 => h1.elim id (fun h2 => absurd h2 hne), Or.inl⟩

/-- Witness for C11: with `ABC` enabled and `XYZ` disabled for the DEX-base
permission and `DEF` enabled for another permission, the result holds the
hard-coded `WUSD` and `ABC`, and neither `XYZ` nor `DEF`. -/
theorem GetDexQuoteSymbolSet_result_witness :
    GetDexQuoteSymbolSet sampleConfig samplePermDb [] = ["ABC", "WUSD"] ∧
    ("XYZ" ∈ GetDexQuoteSymbolSet sampleConfig samplePermDb [] ↔
      "XYZ" ∈ sampleConfig.kDexQuoteSymbolSet) ∧
    ("DEF" ∈ GetDexQuoteSymbolSet sampleConfig samplePermDb [] ↔
      "DEF" ∈ sampleConfig.kDexQuoteSymbolSet) :=
  ⟨by decide,
   (GetDexQuoteSymbolSet_result sampleConfig samplePermDb "XYZ").2 (by decide),
   (GetDexQuoteSymbolSet_result sampleConfig samplePermDb "DEF").2 (by decide)⟩

end CAssetDbCache

namespace CCdpDBCache

theorem getCDPListLoop_false (db : CCdpDBCache) (es : List ((Nat × CCdpCoinPair) × Nat)) :
    ∀ cdpList, (getCDPListLoop db es cdpList).1 = false ↔
      ∃ e ∈ es, db.cdpCache.GetData e.2 = none := by
  induction es with
  | nil => intro cdpList; simp [getCDPListLoop]
  | cons e rest ih =>
    intro cdpList
    unfold getCDPListLoop
    cases hg : db.cdpCache.GetData e.2 with
    | none =>
      simp only [true_iff]
      exact ⟨e, List.mem_cons_self _ _, hg⟩
    | some c =>
      simp only []
      rw [ih]
      constructor
      · rintro ⟨e', hm, h⟩
        exact ⟨e', List.mem_cons_of_mem _ hm, h⟩
      · rintro ⟨e', hm, h⟩
        rcases List.mem_cons.mp hm with h1 | h1
        · subst h1; rw [hg] at h; cases h
        · exact ⟨e', h1, h⟩

theorem getCDPListLoop_true (db : CCdpDBCache) (es : List ((Nat × CCdpCoinPair) × Nat)) :
    ∀ cdpList, (getCDPListLoop db es cdpList).1 = true →
      ∃ recs, (getCDPListLoop db es cdpList).2 = cdpList ++ recs ∧
        List.Forall₂ (fun e r => db.cdpCache.GetData e.2 = some r) es recs := by
  induction es with
  | nil => intro cdpList _; exact ⟨[], by simp [getCDPListLoop], List.Forall₂.nil⟩
  | cons e rest ih =>
    intro cdpList h
    unfold getCDPListLoop at h ⊢
    cases hg : db.cdpCache.GetData e.2 with
    | none => simp [hg] at h
    | some c =>
      simp only [hg] at h ⊢
      obtain ⟨recs, h1, h2⟩ := ih _ h
      exact ⟨c :: recs, by rw [h1, List.append_assoc]; rfl, List.Forall₂.cons hg h2⟩

/-- C14: `GetCDPList(owner)` returns failure exactly when some owner-index
entry under the owner names a CDP id without a record in the primary cache;
when it succeeds, the records appended to the output list are the primary
records of the ids of the owner's owner-index entries, one per entry, in the
order of the owner-index keys; the entries are exactly those of the owner. -/
theorem GetCDPList_result (db : CCdpDBCache) (regid : Nat) (cdpList : List CUserCDP) :
    ((GetCDPList db regid cdpList).1 = false ↔
      ∃ k id, k.1 = regid ∧ db.userCdpCache.GetData k = some id ∧
        db.cdpCache.GetData id = none) ∧
    ((GetCDPList db regid cdpList).1 = true →
      ∃ recs, (GetCDPList db regid cdpList).2 = cdpList ++ recs ∧
        List.Forall₂ (fun e r => db.cdpCache.GetData e.2 = some r)
          (ownerEntries db regid) recs) ∧
    (∀ k id, (k, id) ∈ ownerEntries db regid ↔
      k.1 = regid ∧ db.userCdpCache.GetData k = some id) ∧
    (ownerEntries db regid).Pairwise (fun a b => ownerKeyLt a.1 b.1) := by
  have hmem : ∀ k id, (k, id) ∈ ownerEntries db regid ↔
      k.1 = regid ∧ db.userCdpCache.GetData k = some id := by
    intro k id
    unfold ownerEntries
    rw [KVCache.mem_prefixScan]
    simp
  refine ⟨?_, ?_, hmem, ?_⟩
  · unfold GetCDPList
    rw [getCDPListLoop_false]
    constructor
    · rintro ⟨⟨k, id⟩, hm, h⟩
      exact ⟨k, id, ((hmem k id).mp hm).1, ((hmem k id).mp hm).2, h⟩
    · rintro ⟨k, id, h1, h2, h3⟩
      exact ⟨(k, id), (hmem k id).mpr ⟨h1, h2⟩, h3⟩
  · intro h
    exact getCDPListLoop_true db _ cdpList h
  · exact KVCache.prefixScan_sorted _ isStrictTotal_ownerKeyLt _ _

/-- Witness for C14: owner 7 holds `C3` (ETH, USD), written first, and `C1`
(BTC, USD); the list comes back in key order, `C1` before `C3`; without the
record of `C3` the call fails. -/
theorem GetCDPList_result_witness :
    GetCDPList sampleOwnerDb 7 [] = (true, [sampleC1, sampleC3]) ∧
    (GetCDPList sampleOwnerDbBroken 7 []).1 = false ∧
    (∃ recs, (GetCDPList sampleOwnerDb 7 []).2 = [] ++ recs ∧
      List.Forall₂ (fun e r => sampleOwnerDb.cdpCache.GetData e.2 = some r)
        (ownerEntries sampleOwnerDb 7) recs) :=
  ⟨by decide,
   (GetCDPList_result sampleOwnerDbBroken 7 []).1.mpr
     ⟨(7, ⟨"ETH", "USD"⟩), 3, by decide, by decide, by decide⟩,
   (GetCDPList_result sampleOwnerDb 7 []).2.1 (by decide)⟩

end CCdpDBCache

/-! ## Overlays -/

namespace OverlayKV

variable {K V : Type} [DecidableEq K]

theorem setData_attached (ov : OverlayKV K V) (k : K) (v : V) :
    (ov.SetData k v).2.attached = ov.attached := by
  unfold SetData; cases ov.writeFault <;> rfl

theorem eraseData_attached (ov : OverlayKV K V) (k : K) :
    (ov.EraseData k).2.attached = ov.attached := by
  unfold EraseData; cases ov.writeFault <;> rfl

theorem lookup_flushOnto (ws b : List (K × Option V)) (k : K) :
    KVCache.lookup k (flushOnto ws b) =
      match KVCache.lookup k ws with
      | some x => some x
      | none => KVCache.lookup k b := by
  induction ws with
  | nil => rfl
  | cons w rest ih =>
    obtain ⟨k', o⟩ := w
    have hstep : flushOnto ((k', o) :: rest) b = (k', o) :: KVCache.remove k' (flushOnto rest b) :=
      rfl
    rw [hstep, KVCache.lookup, KVCache.lookup]
    by_cases hk : k' = k
    · rw [if_pos hk, if_pos hk]
    · rw [if_neg hk, if_neg hk, KVCache.lookup_remove_ne (fun e => hk e.symm), ih]

theorem lookup_flushInto (ws : List (K × Option V)) (es : List (K × V)) (k : K) :
    KVCache.lookup k (flushInto ws es) =
      match KVCache.lookup k ws with
      | some r => r
      | none => KVCache.lookup k es := by
  induction ws with
  | nil => rfl
  | cons w rest ih =>
    obtain ⟨k', o⟩ := w
    have hstep : flushInto ((k', o) :: rest) es =
        match o with
        | some v => (k', v) :: KVCache.remove k' (flushInto rest es)
        | none => KVCache.remove k' (flushInto rest es) := rfl
    rw [hstep, KVCache.lookup]
    by_cases hk : k' = k
    · subst hk
      rw [if_pos rfl]
      cases o with
      | none => exact KVCache.lookup_remove_self _ _
      | some v => simp [KVCache.lookup]
    · rw [if_neg hk]
      have hk' : k ≠ k' := fun e => hk e.symm
      cases o with
      | none => simp only []; rw [KVCache.lookup_remove_ne hk', ih]
      | some v =>
        simp only []
        rw [KVCache.lookup, if_neg hk, KVCache.lookup_remove_ne hk', ih]

theorem mem_liveEntries (ws : List (K × Option V)) (k : K) (v : V) :
    (k, v) ∈ liveEntries ws ↔ KVCache.lookup k ws = some (some v) := by
  unfold liveEntries
  rw [List.mem_filterMap]
  constructor
  · rintro ⟨⟨k', o⟩, hm, he⟩
    cases o with
    | none => simp at he
    | some v' =>
      simp only [Option.map_some', Option.some.injEq, Prod.mk.injEq] at he
      obtain ⟨e1, e2⟩ := he
      subst e1; subst e2
      exact (KVCache.mem_visible _ _ _).mp hm
  · intro h
    exact ⟨(k, some v), (KVCache.mem_visible _ _ _).mpr h, rfl⟩

end OverlayKV

namespace CdpWorld

open CCdpDBCache

variable {K V : Type} [DecidableEq K]

/-- An iterator over a member of an object sees exactly the entries that `get`
finds. -/
theorem mem_entries (m : Member K V) (w : CdpWorld) (r : CacheRef) (e : K × V) :
    e ∈ entries m w r ↔ GetData m w r e.1 = some e.2 := by
  obtain ⟨k, v⟩ := e
  unfold entries GetData
  cases ho : w.obj? r with
  | none => simp
  | some o =>
    simp only [List.mem_append, OverlayKV.mem_liveEntries]
    cases h1 : KVCache.lookup k (m.get o).writeSet with
    | some x =>
      have hnot : (k, v) ∉
          (if r ≠ CacheRef.base ∧ (m.get o).attached = true then
            (OverlayKV.liveEntries (m.get w.base).writeSet).filter
                (fun e => (KVCache.lookup e.1 (m.get o).writeSet).isNone) ++
              (KVCache.visible (m.stored w.store).entries).filter
                (fun e => (KVCache.lookup e.1 (m.get o).writeSet).isNone &&
                  (KVCache.lookup e.1 (m.get w.base).writeSet).isNone)
          else
            (KVCache.visible (m.stored w.store).entries).filter
              (fun e => (KVCache.lookup e.1 (m.get o).writeSet).isNone)) := by
        split_ifs <;> simp [List.mem_filter, h1]
      simp only [Option.some.injEq]
      constructor
      · rintro (h | h)
        · exact h
        · exact absurd h hnot
      · intro h
        exact Or.inl h
    | none =>
      simp only [false_or, reduceCtorEq]
      by_cases hv : r ≠ CacheRef.base ∧ (m.get o).attached = true
      · rw [if_pos hv, if_pos hv]
        simp only [List.mem_append, List.mem_filter, OverlayKV.mem_liveEntries, h1,
          Option.isNone_none, and_true, Bool.and_eq_true, true_and, KVCache.mem_visible,
          Option.isNone_iff_eq_none]
        cases h2 : KVCache.lookup k (m.get w.base).writeSet with
        | some x =>
          cases x with
          | none => simp [KVCache.GetData]
          | some v' => simp [KVCache.GetData]
        | none => simp [KVCache.GetData]
      · rw [if_neg hv, if_neg hv]
        simp only [List.mem_filter, KVCache.mem_visible, h1, Option.isNone_none, and_true]
        rfl

end CdpWorld

namespace CdpWorld

open CCdpDBCache

variable {K V : Type} [DecidableEq K]

theorem step_refl (i : Nat) (w : CdpWorld) : Step i w w :=
  ⟨⟨rfl, rfl, fun _ _ => rfl⟩, fun h => h⟩

theorem step_trans (i : Nat) {w1 w2 w3 : CdpWorld} (h12 : Step i w1 w2) (h23 : Step i w2 w3) :
    Step i w1 w3 :=
  ⟨⟨h23.1.1.trans h12.1.1, h23.1.2.1.trans h12.1.2.1,
    fun j hj => (h23.1.2.2 j hj).trans (h12.1.2.2 j hj)⟩, fun h => h23.2 (h12.2 h)⟩

theorem lt_of_getElem? {α : Type} (l : List α) (i : Nat) (a : α) (h : l[i]? = some a) :
    i < l.length := by
  by_contra hge
  rw [List.getElem?_eq_none (by omega)] at h
  cases h

theorem setObj_step (w : CdpWorld) (i : Nat) (o o' : CdpOverlay) (hi : w.others[i]? = some o)
    (ha : o.Attached → o'.Attached) : Step i w (w.setObj (.other i) o') := by
  refine ⟨⟨rfl, rfl, fun j hj => ?_⟩, ?_⟩
  · show (w.others.set i o')[j]? = _
    rw [List.getElem?_set_ne (fun e => hj e.symm)]
  · rintro ⟨o1, h1, h2⟩
    rw [hi] at h1
    cases h1
    refine ⟨o', ?_, ha h2⟩
    show (w.others.set i o')[i]? = _
    rw [List.getElem?_set_self (lt_of_getElem? _ _ _ hi)]

/-- A member keeps the attachment of an object when what is put back has the
flag of what was taken out. -/
theorem setData_step (m : Member K V)
    (hm : ∀ o c, o.Attached → c.attached = (m.get o).attached → (m.put o c).Attached)
    (w : CdpWorld) (i : Nat) (k : K) (v : V) : Step i w (SetData m w (.other i) k v).2 := by
  unfold SetData
  cases ho : w.obj? (.other i) with
  | none => exact step_refl i w
  | some o =>
    exact setObj_step w i o _ ho (fun ha => hm o _ ha (OverlayKV.setData_attached _ _ _))

theorem eraseData_step (m : Member K V)
    (hm : ∀ o c, o.Attached → c.attached = (m.get o).attached → (m.put o c).Attached)
    (w : CdpWorld) (i : Nat) (k : K) : Step i w (EraseData m w (.other i) k).2 := by
  unfold EraseData
  cases ho : w.obj? (.other i) with
  | none => exact step_refl i w
  | some o =>
    exact setObj_step w i o _ ho (fun ha => hm o _ ha (OverlayKV.eraseData_attached _ _))

theorem put_attached_global (o : CdpOverlay) (c : OverlayKV CCdpCoinPair CCdpGlobalData)
    (h : o.Attached) (hc : c.attached = (Member.cdpGlobalDataCache.get o).attached) :
    (Member.cdpGlobalDataCache.put o c).Attached :=
  ⟨hc.trans h.1, h.2.1, h.2.2.1, h.2.2.2.1, h.2.2.2.2⟩

theorem put_attached_cdp (o : CdpOverlay) (c : OverlayKV Nat CUserCDP)
    (h : o.Attached) (hc : c.attached = (Member.cdpCache.get o).attached) :
    (Member.cdpCache.put o c).Attached :=
  ⟨h.1, hc.trans h.2.1, h.2.2.1, h.2.2.2.1, h.2.2.2.2⟩

theorem put_attached_bcoin (o : CdpOverlay) (c : OverlayKV TokenSymbol Nat)
    (h : o.Attached) (hc : c.attached = (Member.bcoinStatusCache.get o).attached) :
    (Member.bcoinStatusCache.put o c).Attached :=
  ⟨h.1, h.2.1, hc.trans h.2.2.1, h.2.2.2.1, h.2.2.2.2⟩

theorem put_attached_user (o : CdpOverlay) (c : OverlayKV (Nat × CCdpCoinPair) Nat)
    (h : o.Attached) (hc : c.attached = (Member.userCdpCache.get o).attached) :
    (Member.userCdpCache.put o c).Attached :=
  ⟨h.1, h.2.1, h.2.2.1, hc.trans h.2.2.2.1, h.2.2.2.2⟩

theorem put_attached_ratio (o : CdpOverlay) (c : OverlayKV CdpRatioSortedKey CUserCDP)
    (h : o.Attached) (hc : c.attached = (Member.cdpRatioSortedCache.get o).attached) :
    (Member.cdpRatioSortedCache.put o c).Attached :=
  ⟨h.1, h.2.1, h.2.2.1, h.2.2.2.1, hc.trans h.2.2.2.2⟩

theorem save_step (cfg : Config) (w : CdpWorld) (i : Nat) (c : CUserCDP) :
    Step i w (SaveCDPToRatioDB cfg w (.other i) c).2 := by
  unfold SaveCDPToRatioDB
  simp only []
  split_ifs
  · exact setData_step _ put_attached_global w i _ _
  · exact step_trans i (setData_step _ put_attached_global w i _ _)
      (setData_step _ put_attached_ratio _ i _ _)

theorem erase_step (cfg : Config) (w : CdpWorld) (i : Nat) (c : CUserCDP) :
    Step i w (EraseCDPFromRatioDB cfg w (.other i) c).2 := by
  unfold EraseCDPFromRatioDB
  exact step_trans i (setData_step _ put_attached_global w i _ _)
    (eraseData_step _ put_attached_ratio _ i _)

/-- A call on the `i`-th object writes nothing but that object, whose members
keep their base view. -/
theorem call_step (cfg : Config) (w : CdpWorld) (i : Nat) (c : OverlayCall) :
    Step i w (call cfg w (.other i) c) := by
  cases c with
  | newCDP bh cdp =>
    unfold call NewCDP
    simp only []
    split_ifs
    · exact step_refl i w
    · exact step_refl i w
    · exact setData_step _ put_attached_cdp w i _ _
    · exact step_trans i (setData_step _ put_attached_cdp w i _ _)
        (setData_step _ put_attached_user _ i _ _)
    · exact step_trans i (step_trans i (setData_step _ put_attached_cdp w i _ _)
        (setData_step _ put_attached_user _ i _ _)) (save_step cfg _ i cdp)
  | eraseCDP oldCDP cdp =>
    unfold call EraseCDP
    simp only []
    split_ifs
    · exact setData_step _ put_attached_cdp w i _ _
    · exact step_trans i (setData_step _ put_attached_cdp w i _ _)
        (eraseData_step _ put_attached_user _ i _)
    · exact step_trans i (step_trans i (setData_step _ put_attached_cdp w i _ _)
        (eraseData_step _ put_attached_user _ i _)) (erase_step cfg _ i oldCDP)
  | updateCDP oldCDP newCDP =>
    unfold call UpdateCDP
    simp only []
    split_ifs
    · exact step_refl i w
    · exact setData_step _ put_attached_cdp w i _ _
    · exact step_trans i (setData_step _ put_attached_cdp w i _ _) (erase_step cfg _ i oldCDP)
    · exact step_trans i (step_trans i (setData_step _ put_attached_cdp w i _ _)
        (erase_step cfg _ i oldCDP)) (save_step cfg _ i newCDP)
  | setBcoinStatus s a =>
    unfold call SetBcoinStatus
    exact setData_step _ put_attached_bcoin w i _ _

theorem runOn_step (cfg : Config) (i : Nat) (calls : List OverlayCall) :
    ∀ w : CdpWorld, Step i w (runOn cfg w (.other i) calls) := by
  induction calls with
  | nil => intro w; exact step_refl i w
  | cons c rest ih =>
    intro w
    exact step_trans i (call_step cfg w i c) (ih _)

theorem getData_congr (m : Member K V) (i : Nat) (w w' : CdpWorld) (h : Untouched i w w')
    (r : CacheRef) (hr : r ≠ .other i) (k : K) : GetData m w' r k = GetData m w r k := by
  have ho : w'.obj? r = w.obj? r := by
    cases r with
    | base => simp only [obj?, h.2.1]
    | other j => exact h.2.2 j (fun e => hr (by rw [e]))
  unfold GetData
  rw [ho, h.1, h.2.1]

theorem entries_congr (m : Member K V) (i : Nat) (w w' : CdpWorld) (h : Untouched i w w')
    (r : CacheRef) (hr : r ≠ .other i) : entries m w' r = entries m w r := by
  have ho : w'.obj? r = w.obj? r := by
    cases r with
    | base => simp only [obj?, h.2.1]
    | other j => exact h.2.2 j (fun e => hr (by rw [e]))
  unfold entries
  rw [ho, h.1, h.2.1]

/-- The queries of an object other than the `i`-th depend on nothing that a
call on the `i`-th object writes. -/
theorem queries_congr (cfg : Config) (i : Nat) (w w' : CdpWorld) (h : Untouched i w w')
    (r : CacheRef) (hr : r ≠ .other i) :
    (∀ id, w'.GetCDP r id = w.GetCDP r id) ∧
    (∀ regid a s, w'.UserHaveCdp r regid a s = w.UserHaveCdp r regid a s) ∧
    (∀ p, w'.GetCdpGlobalData r p = w.GetCdpGlobalData r p) ∧
    (∀ (codes : CdpBcoinStatusCodes) s a,
      GetBcoinStatus cfg codes w' r s a = GetBcoinStatus cfg codes w r s a) ∧
    (∀ pair cr price, GetCdpListByCollateralRatio cfg w' r pair cr price =
      GetCdpListByCollateralRatio cfg w r pair cr price) := by
  refine ⟨?_, ?_, ?_, ?_, ?_⟩
  · intro id
    exact getData_congr _ i w w' h r hr id
  · intro regid a s
    unfold UserHaveCdp HasData
    rw [getData_congr _ i w w' h r hr]
  · intro p
    unfold GetCdpGlobalData
    rw [getData_congr _ i w w' h r hr]
  · intro codes s a
    unfold GetBcoinStatus
    rw [getData_congr _ i w w' h r hr]
  · intro pair cr price
    unfold GetCdpListByCollateralRatio GetAllElements
    rw [entries_congr _ i w w' h r hr]

end CdpWorld

namespace OverlayKV

variable {K V : Type} [DecidableEq K]

/-- After a flush onto the base view, the base view answers as the object did
before. -/
theorem getData_flush (ov base : OverlayKV K V) (store : KVCache K V) (k : K) :
    (match KVCache.lookup k (ov.Flush true store base).2.1.writeSet with
      | some x => x
      | none => (ov.Flush true store base).1.GetData k) =
    (match KVCache.lookup k ov.writeSet with
      | some x => x
      | none =>
        match KVCache.lookup k base.writeSet with
        | some x => x
        | none => store.GetData k) := by
  unfold Flush
  simp only [if_true]
  rw [lookup_flushOnto]
  cases KVCache.lookup k ov.writeSet <;> rfl

end OverlayKV

namespace CdpWorld

open CCdpDBCache

theorem flush_base (w : CdpWorld) (i : Nat) (o : CdpOverlay) (hi : w.others[i]? = some o)
    (ha : o.Attached) :
    (w.Flush (.other i)).2.base =
      ⟨(o.cdpGlobalDataCache.Flush true w.store.cdpGlobalDataCache w.base.cdpGlobalDataCache).2.1,
       (o.cdpCache.Flush true w.store.cdpCache w.base.cdpCache).2.1,
       (o.bcoinStatusCache.Flush true w.store.bcoinStatusCache w.base.bcoinStatusCache).2.1,
       (o.userCdpCache.Flush true w.store.userCdpCache w.base.userCdpCache).2.1,
       (o.cdpRatioSortedCache.Flush true w.store.cdpRatioSortedCache
          w.base.cdpRatioSortedCache).2.1⟩ ∧
    (w.Flush (.other i)).2.store =
      ⟨(o.cdpGlobalDataCache.Flush true w.store.cdpGlobalDataCache w.base.cdpGlobalDataCache).1,
       (o.cdpCache.Flush true w.store.cdpCache w.base.cdpCache).1,
       (o.bcoinStatusCache.Flush true w.store.bcoinStatusCache w.base.bcoinStatusCache).1,
       (o.userCdpCache.Flush true w.store.userCdpCache w.base.userCdpCache).1,
       (o.cdpRatioSortedCache.Flush true w.store.cdpRatioSortedCache
          w.base.cdpRatioSortedCache).1⟩ := by
  obtain ⟨h1, h2, h3, h4, h5⟩ := ha
  unfold Flush
  simp only [obj?, hi, setObj, h1, h2, h3, h4, h5, ne_eq, reduceCtorEq, not_false_eq_true,
    decide_True, Bool.and_self, and_self]

/-- After `Flush` on an object whose members all have the base view attached,
`get` on each member of the base finds what `get` on that member of the object
found before. -/
theorem flush_getData (w : CdpWorld) (i : Nat) (o : CdpOverlay) (hi : w.others[i]? = some o)
    (ha : o.Attached) :
    (∀ k, GetData Member.cdpGlobalDataCache (w.Flush (.other i)).2 .base k =
      GetData Member.cdpGlobalDataCache w (.other i) k) ∧
    (∀ k, GetData Member.cdpCache (w.Flush (.other i)).2 .base k =
      GetData Member.cdpCache w (.other i) k) ∧
    (∀ k, GetData Member.bcoinStatusCache (w.Flush (.other i)).2 .base k =
      GetData Member.bcoinStatusCache w (.other i) k) ∧
    (∀ k, GetData Member.userCdpCache (w.Flush (.other i)).2 .base k =
      GetData Member.userCdpCache w (.other i) k) ∧
    (∀ k, GetData Member.cdpRatioSortedCache (w.Flush (.other i)).2 .base k =
      GetData Member.cdpRatioSortedCache w (.other i) k) := by
  obtain ⟨hb, hs⟩ := flush_base w i o hi ha
  obtain ⟨h1, h2, h3, h4, h5⟩ := ha
  refine ⟨?_, ?_, ?_, ?_, ?_⟩
  · intro k
    unfold GetData
    simp only [obj?, hi, hb, hs, Member.cdpGlobalDataCache, h1, ne_eq, not_true_eq_false,
      false_and, if_false, reduceCtorEq, not_false_eq_true, and_self, if_true]
    exact OverlayKV.getData_flush _ _ _ k
  · intro k
    unfold GetData
    simp only [obj?, hi, hb, hs, Member.cdpCache, h2, ne_eq, not_true_eq_false,
      false_and, if_false, reduceCtorEq, not_false_eq_true, and_self, if_true]
    exact OverlayKV.getData_flush _ _ _ k
  · intro k
    unfold GetData
    simp only [obj?, hi, hb, hs, Member.bcoinStatusCache, h3, ne_eq, not_true_eq_false,
      false_and, if_false, reduceCtorEq, not_false_eq_true, and_self, if_true]
    exact OverlayKV.getData_flush _ _ _ k
  · intro k
    unfold GetData
    simp only [obj?, hi, hb, hs, Member.userCdpCache, h4, ne_eq, not_true_eq_false,
      false_and, if_false, reduceCtorEq, not_false_eq_true, and_self, if_true]
    exact OverlayKV.getData_flush _ _ _ k
  · intro k
    unfold GetData
    simp only [obj?, hi, hb, hs, Member.cdpRatioSortedCache, h5, ne_eq, not_true_eq_false,
      false_and, if_false, reduceCtorEq, not_false_eq_true, and_self, if_true]
    exact OverlayKV.getData_flush _ _ _ k

/-- After `Flush` on an object whose members all have the base view attached,
the base answers the five queries as the object did before. -/
theorem flush_queries (cfg : Config) (w : CdpWorld) (i : Nat) (h : ObjAttached w i) :
    (w.Flush (.other i)).1 = true ∧
    (∀ id, (w.Flush (.other i)).2.GetCDP .base id = w.GetCDP (.other i) id) ∧
    (∀ regid a s, (w.Flush (.other i)).2.UserHaveCdp .base regid a s =
      w.UserHaveCdp (.other i) regid a s) ∧
    (∀ p, (w.Flush (.other i)).2.GetCdpGlobalData .base p = w.GetCdpGlobalData (.other i) p) ∧
    (∀ (codes : CdpBcoinStatusCodes) s a,
      GetBcoinStatus cfg codes (w.Flush (.other i)).2 .base s a =
        GetBcoinStatus cfg codes w (.other i) s a) ∧
    (∀ pair cr price,
      (GetCdpListByCollateralRatio cfg (w.Flush (.other i)).2 .base pair cr price).map Prod.fst =
        (GetCdpListByCollateralRatio cfg w (.other i) pair cr price).map Prod.fst ∧
      ∀ res res', GetCdpListByCollateralRatio cfg (w.Flush (.other i)).2 .base pair cr price
          = some res →
        GetCdpListByCollateralRatio cfg w (.other i) pair cr price = some res' →
        ∀ e, e ∈ res.2 ↔ e ∈ res'.2) := by
  obtain ⟨o, hi, ha⟩ := h
  obtain ⟨g1, g2, g3, g4, g5⟩ := flush_getData w i o hi ha
  refine ⟨?_, g2, ?_, ?_, ?_, ?_⟩
  · unfold Flush
    simp only [obj?, hi]
  · intro regid a s
    unfold UserHaveCdp HasData
    rw [g4]
  · intro p
    unfold GetCdpGlobalData
    rw [g1]
  · intro codes s a
    unfold GetBcoinStatus
    rw [g3]
  · intro pair cr price
    unfold GetCdpListByCollateralRatio
    simp only []
    by_cases hfit : Double.toUInt64 cfg.doubleToUInt64OutOfRange (boostedCutoff cfg cr price)
        < UINT64_MAX
    · rw [if_pos hfit, if_pos hfit]
      refine ⟨rfl, ?_⟩
      intro res res' hr hr' e
      simp only [Option.some.injEq] at hr hr'
      subst hr; subst hr'
      unfold GetAllElements
      simp only [List.mem_filter, mem_entries, g5]
    · rw [if_neg hfit, if_neg hfit]
      exact ⟨rfl, fun res res' h => by cases h⟩

theorem setBaseViewPtr_attached (w : CdpWorld) (i : Nat) (o : CdpOverlay)
    (hi : w.others[i]? = some o) : ObjAttached (w.SetBaseViewPtr (.other i)) i := by
  unfold SetBaseViewPtr
  simp only [obj?, hi, setObj]
  refine ⟨_, List.getElem?_set_self (lt_of_getElem? _ _ _ hi), ?_⟩
  exact ⟨rfl, rfl, rfl, rfl, rfl⟩

/-- Overlay isolation for an object attached to the base by `SetBaseViewPtr`:
any sequence of `NewCDP`, `EraseCDP`, `UpdateCDP` and `SetBcoinStatus` calls on
it leaves the backing store, the base and every other object as they were, so
that the base and every other object answer the five queries as before the
calls; and `Flush` on the object then makes the base answer the five queries
as the object did. -/
theorem setBaseViewPtr_isolation (cfg : Config) (w : CdpWorld) (i : Nat) (o : CdpOverlay)
    (calls : List OverlayCall) (hi : w.others[i]? = some o) :
    Untouched i (w.SetBaseViewPtr (.other i))
      (runOn cfg (w.SetBaseViewPtr (.other i)) (.other i) calls) ∧
    (∀ r, r ≠ CacheRef.other i →
      (∀ id, (runOn cfg (w.SetBaseViewPtr (.other i)) (.other i) calls).GetCDP r id =
        (w.SetBaseViewPtr (.other i)).GetCDP r id) ∧
      (∀ regid a s,
        (runOn cfg (w.SetBaseViewPtr (.other i)) (.other i) calls).UserHaveCdp r regid a s =
          (w.SetBaseViewPtr (.other i)).UserHaveCdp r regid a s) ∧
      (∀ p, (runOn cfg (w.SetBaseViewPtr (.other i)) (.other i) calls).GetCdpGlobalData r p =
        (w.SetBaseViewPtr (.other i)).GetCdpGlobalData r p) ∧
      (∀ (codes : CdpBcoinStatusCodes) s a,
        GetBcoinStatus cfg codes (runOn cfg (w.SetBaseViewPtr (.other i)) (.other i) calls) r s a
          = GetBcoinStatus cfg codes (w.SetBaseViewPtr (.other i)) r s a) ∧
      (∀ pair cr price,
        GetCdpListByCollateralRatio cfg (runOn cfg (w.SetBaseViewPtr (.other i)) (.other i) calls)
            r pair cr price =
          GetCdpListByCollateralRatio cfg (w.SetBaseViewPtr (.other i)) r pair cr price)) ∧
    ((runOn cfg (w.SetBaseViewPtr (.other i)) (.other i) calls).Flush (.other i)).1 = true ∧
    (∀ id, ((runOn cfg (w.SetBaseViewPtr (.other i)) (.other i) calls).Flush (.other i)).2.GetCDP
        .base id =
      (runOn cfg (w.SetBaseViewPtr (.other i)) (.other i) calls).GetCDP (.other i) id) ∧
    (∀ regid a s,
      ((runOn cfg (w.SetBaseViewPtr (.other i)) (.other i) calls).Flush (.other i)).2.UserHaveCdp
          .base regid a s =
        (runOn cfg (w.SetBaseViewPtr (.other i)) (.other i) calls).UserHaveCdp (.other i)
          regid a s) ∧
    (∀ p,
      ((runOn cfg (w.SetBaseViewPtr (.other i)) (.other i) calls).Flush
          (.other i)).2.GetCdpGlobalData .base p =
        (runOn cfg (w.SetBaseViewPtr (.other i)) (.other i) calls).GetCdpGlobalData (.other i) p) ∧
    (∀ (codes : CdpBcoinStatusCodes) s a,
      GetBcoinStatus cfg codes
          ((runOn cfg (w.SetBaseViewPtr (.other i)) (.other i) calls).Flush (.other i)).2 .base s a
        = GetBcoinStatus cfg codes (runOn cfg (w.SetBaseViewPtr (.other i)) (.other i) calls)
          (.other i) s a) ∧
    (∀ pair cr price,
      (GetCdpListByCollateralRatio cfg
          ((runOn cfg (w.SetBaseViewPtr (.other i)) (.other i) calls).Flush (.other i)).2
          .base pair cr price).map Prod.fst =
        (GetCdpListByCollateralRatio cfg (runOn cfg (w.SetBaseViewPtr (.other i)) (.other i) calls)
          (.other i) pair cr price).map Prod.fst ∧
      ∀ res res', GetCdpListByCollateralRatio cfg
          ((runOn cfg (w.SetBaseViewPtr (.other i)) (.other i) calls).Flush (.other i)).2
          .base pair cr price = some res →
        GetCdpListByCollateralRatio cfg (runOn cfg (w.SetBaseViewPtr (.other i)) (.other i) calls)
          (.other i) pair cr price = some res' →
        ∀ e, e ∈ res.2 ↔ e ∈ res'.2) := by
  obtain ⟨hu, hatt⟩ := runOn_step cfg i calls (w.SetBaseViewPtr (.other i))
  have ha := hatt (setBaseViewPtr_attached w i o hi)
  refine ⟨hu, fun r hr => queries_congr cfg i _ _ hu r hr, ?_⟩
  exact flush_queries cfg _ i ha

end CdpWorld

namespace CdpWorld

open CCdpDBCache

/-- The isolation theorem at a sample: on the first further object of
`sampleWorld`, attached by `SetBaseViewPtr`, `UpdateCDP(C1, C1')` and
`SetBcoinStatus(ABC, 1)` leave the base answering `C1` and `(100, 50)`, and
after `Flush` the base answers `C1'` and `(80, 40)`. -/
theorem setBaseViewPtr_isolation_sample :
    (runOn sampleConfig (sampleWorld.SetBaseViewPtr (.other 0)) (.other 0)
      [.updateCDP sampleC1 sampleC1', .setBcoinStatus "ABC" 1]).GetCDP .base 1
        = some sampleC1 ∧
    (runOn sampleConfig (sampleWorld.SetBaseViewPtr (.other 0)) (.other 0)
      [.updateCDP sampleC1 sampleC1', .setBcoinStatus "ABC" 1]).GetCdpGlobalData .base
        ⟨"BTC", "USD"⟩ = ⟨100, 50⟩ ∧
    ((runOn sampleConfig (sampleWorld.SetBaseViewPtr (.other 0)) (.other 0)
      [.updateCDP sampleC1 sampleC1', .setBcoinStatus "ABC" 1]).Flush (.other 0)).2.GetCDP
        .base 1 = some sampleC1' ∧
    ((runOn sampleConfig (sampleWorld.SetBaseViewPtr (.other 0)) (.other 0)
      [.updateCDP sampleC1 sampleC1', .setBcoinStatus "ABC" 1]).Flush
        (.other 0)).2.GetCdpGlobalData .base ⟨"BTC", "USD"⟩ = ⟨80, 40⟩ := by
  have h := setBaseViewPtr_isolation sampleConfig sampleWorld 0 sampleEmptyCache
    [.updateCDP sampleC1 sampleC1', .setBcoinStatus "ABC" 1] (by decide)
  have hb := h.2.1 CacheRef.base (by decide)
  refine ⟨?_, ?_, ?_, ?_⟩
  · rw [hb.1]; decide
  · rw [hb.2.2.1]; decide
  · rw [h.2.2.2.1]; decide
  · rw [h.2.2.2.2.2.1]; decide

/-- C17 fails on the code for the base-pointer constructor.  On a base holding
`C1` in its write-sets (`NewCDP(10, C1)`, not flushed), the object built by
`CCdpDBCache(&base)` is a copy of the base, not an overlay of it: it answers
`GetCDP(1)` with `C1` from its own write-set.  `UpdateCDP(C1, C1')` on it
succeeds and it answers `C1'` and the aggregate `(80, 40)`; the base still
answers `C1` and `(100, 50)`.  After `Flush` on the object the base still
answers `C1` and `(100, 50)`, not what the object answered.  The same calls on
an object attached by `SetBaseViewPtr` make the base answer `C1'` and
`(80, 40)` after `Flush`. -/
theorem constructor_copies_the_base :
    NewCDP sampleConfig sampleWorld0 .base 10 sampleC1 = some (true, sampleWorld) ∧
    sampleWorld.construct.others.length = 3 ∧
    sampleWorld.construct.obj? (.other 2) =
      some ⟨copyOfMember sampleWorld.base.cdpGlobalDataCache,
        copyOfMember sampleWorld.base.cdpCache, copyOfMember sampleWorld.base.bcoinStatusCache,
        copyOfMember sampleWorld.base.userCdpCache,
        copyOfMember sampleWorld.base.cdpRatioSortedCache⟩ ∧
    (sampleWorld.construct.UpdateCDP sampleConfig (.other 2) sampleC1 sampleC1').map
      (fun res => (res.1, res.2.GetCDP (.other 2) 1,
        res.2.GetCdpGlobalData (.other 2) ⟨"BTC", "USD"⟩,
        res.2.GetCDP .base 1, res.2.GetCdpGlobalData .base ⟨"BTC", "USD"⟩))
      = some (true, some sampleC1', ⟨80, 40⟩, some sampleC1, ⟨100, 50⟩) ∧
    (sampleWorld.construct.UpdateCDP sampleConfig (.other 2) sampleC1 sampleC1').map
      (fun res => ((res.2.Flush (.other 2)).1,
        (res.2.Flush (.other 2)).2.GetCDP .base 1,
        (res.2.Flush (.other 2)).2.GetCdpGlobalData .base ⟨"BTC", "USD"⟩))
      = some (true, some sampleC1, ⟨100, 50⟩) ∧
    ((sampleWorld.SetBaseViewPtr (.other 0)).UpdateCDP sampleConfig (.other 0)
        sampleC1 sampleC1').map
      (fun res => (res.1, res.2.GetCDP (.other 0) 1,
        res.2.GetCdpGlobalData (.other 0) ⟨"BTC", "USD"⟩,
        res.2.GetCDP .base 1, res.2.GetCdpGlobalData .base ⟨"BTC", "USD"⟩))
      = some (true, some sampleC1', ⟨80, 40⟩, some sampleC1, ⟨100, 50⟩) ∧
    ((sampleWorld.SetBaseViewPtr (.other 0)).UpdateCDP sampleConfig (.other 0)
        sampleC1 sampleC1').map
      (fun res => ((res.2.Flush (.other 0)).1,
        (res.2.Flush (.other 0)).2.GetCDP .base 1,
        (res.2.Flush (.other 0)).2.GetCdpGlobalData .base ⟨"BTC", "USD"⟩))
      = some (true, some sampleC1', ⟨80, 40⟩) ∧
    sampleC1' ≠ sampleC1 := by
  refine ⟨by decide, by decide, by decide, by decide, by decide, by decide, by decide,
    by decide⟩

end CdpWorld

end WaykiChain
